import Mathlib

/-!
Verification of the aptitude extended package-state engine
(`src/generic/apt/aptcache.cc` plus the helpers of `apt.cc`) against its
specification.  The C++ code is shallowly embedded: packages are indices
`Fin n`, the static package/version/dependency graph lives in `Univ`, the
mutable cache state (apt's `StateCache` array plus aptitude's
`aptitude_state` array) lives in `GState`, and every cited function is
translated into an executable Lean definition.
-/

namespace AptCache

/-- Dependency types, `pkgCache::Dep::…`. -/
inductive DepType where
  | depends | preDepends | recommends | suggests
  | conflicts | dpkgBreaks | replaces | obsoletes
deriving DecidableEq, Repr

/-- dpkg's on-disk state of a package (`pkgCache::State::PkgCurrentState`,
restricted to the constructors the engine inspects; every state other than
`NotInstalled`/`ConfigFiles` behaves like `installed` in all checks). -/
inductive CurState where
  | notInstalled | configFiles | installed
deriving DecidableEq, Repr

/-- Selection states, `pkgCache::State::PkgSelectedState`. -/
inductive SelState where
  | unknown | install | hold | deinstall | purge
deriving DecidableEq, Repr

/-- Removal provenance, aptitude's `changed_reason`. -/
inductive ChangedReason where
  | manual | unused | fromResolver | libapt
deriving DecidableEq, Repr

/-- The feasibility engine's per-package decision, `pkgDepCache::ModeList`. -/
inductive PkgMode where
  | modeDelete | modeKeep | modeInstall
deriving DecidableEq, Repr

open DepType CurState SelState ChangedReason PkgMode

/-- Static data of one version of a package (`pkgCache::VerIterator`
attributes read by the engine). -/
structure VerInfo where
  verStr : String
  automatic : Bool
  downloadable : Bool
  priorityRequired : Bool
  priorityImportant : Bool
deriving DecidableEq, Repr

/-- One dependency edge (`pkgCache::DepIterator`): a typed edge from a
specific version of `parentPkg` to `target`, with an opaque comparison
operator and target-version string handed to the external
`CheckDep`. -/
structure Dep (n : Nat) where
  dtype : DepType
  parentPkg : Fin n
  parentVer : Nat
  target : Fin n
  compOp : Nat
  targetVer : String
deriving DecidableEq, Repr

/-- One provides entry (`pkgCache::PrvIterator`): version `ownerVer` of
`owner` provides the virtual package `virtualPkg` at `provideVersion`. -/
structure Prv (n : Nat) where
  virtualPkg : Fin n
  owner : Fin n
  ownerVer : Nat
  provideVersion : String
deriving DecidableEq, Repr

/-- Mutable per-package state owned by the feasibility engine
(`pkgDepCache::StateCache`): the decision mode, the Auto flag, the
internal `iFlags` bits, the derived flags and the candidate version.
`depState` and `marked` are the opaque derived words that only the
cosmetic-change diff looks at. -/
structure PkgSt where
  mode : PkgMode
  autoFlag : Bool
  iPurge : Bool
  iReInstall : Bool
  iAutoKept : Bool
  garbage : Bool
  marked : Bool
  depState : Nat
  candVer : Option Nat
deriving DecidableEq, Repr

/-- The static package universe: everything owned by the feasibility
engine's cache that the embedded code reads but never writes.
`checkDep` is the external `_system->VS->CheckDep` and `isImportantDep`
the external `pkgDepCache::IsImportantDep` policy restricted to the
dependency type; both are opaque collaborators per the spec. -/
structure Univ where
  n : Nat
  name : Fin n → String
  curState : Fin n → CurState
  curVer : Fin n → Option Nat
  numVers : Fin n → Nat
  vers : Fin n → Nat → VerInfo
  essential : Fin n → Bool
  important : Fin n → Bool
  deps : List (Dep n)
  provides : List (Prv n)
  checkDep : String → Nat → String → Bool
  isImportantDep : DepType → Bool
  gcRecompute : (Fin n → PkgSt) → Fin n → Bool

namespace Univ

variable (u : Univ)

/-- Dependency clauses of version `vi` of package `p`
(`VerIterator::DependsList`). -/
def depsOfVer (p : Fin u.n) (vi : Nat) : List (Dep u.n) :=
  u.deps.filter (fun d => d.parentPkg = p ∧ d.parentVer = vi)

/-- Reverse dependencies of package `p` (`PkgIterator::RevDependsList`). -/
def revDeps (p : Fin u.n) : List (Dep u.n) :=
  u.deps.filter (fun d => d.target = p)

/-- Provides entries naming package `p` (`PkgIterator::ProvidesList`). -/
def providesOfPkg (p : Fin u.n) : List (Prv u.n) :=
  u.provides.filter (fun pr => pr.virtualPkg = p)

/-- Provides entries owned by version `vi` of `p`
(`VerIterator::ProvidesList`). -/
def providesOfVer (p : Fin u.n) (vi : Nat) : List (Prv u.n) :=
  u.provides.filter (fun pr => pr.owner = p ∧ pr.ownerVer = vi)

/-- Version string of version `vi` of package `p`. -/
def verStrOf (p : Fin u.n) (vi : Nat) : String :=
  (u.vers p vi).verStr

/-- Version string of the current version of `p` (empty when none). -/
def curVerStr (p : Fin u.n) : String :=
  match u.curVer p with
  | none => ""
  | some vi => u.verStrOf p vi

end Univ

/-- Mutable per-package state owned by this engine (`aptitude_state`). -/
structure ExtSt where
  selectionState : SelState
  reinstall : Bool
  removeReason : ChangedReason
  forbidver : String
  newPackage : Bool
  prevAuto : Bool
  candverStr : String
  userTags : List Nat
deriving DecidableEq, Repr

/-- The whole mutable cache state: both state arrays, the action-group
nesting counter, the dirty and read-only bits, the shared error channel
(`_error`) and the last snapshot (`backup_state`). -/
structure GState (n : Nat) where
  pkgSt : Fin n → PkgSt
  extSt : Fin n → ExtSt
  groupLevel : Nat
  dirty : Bool
  readOnly : Bool
  errors : List String
  backupPkg : Fin n → PkgSt
  backupExt : Fin n → ExtSt

/-- Configuration bits read by the embedded code.  The two
`keep…Installed` fields are the combined disjunctions computed at
`aptcache.cc:1376-1382`; `readOnlyPermission` is the result of emitting
the `read_only_permission` signal. -/
structure Config where
  deleteUnused : Bool
  purgeUnused : Bool
  keepRecommendsInstalled : Bool
  keepSuggestsInstalled : Bool
  readOnlyPermission : Bool
deriving DecidableEq, Repr

namespace GState

variable {n : Nat} (s : GState n)

/-- Update the feasibility-engine state of one package. -/
def setPkg (p : Fin n) (st : PkgSt) : GState n :=
  { s with pkgSt := fun q => if q = p then st else s.pkgSt q }

/-- Update the extended state of one package. -/
def setExt (p : Fin n) (st : ExtSt) : GState n :=
  { s with extSt := fun q => if q = p then st else s.extSt q }

@[simp] theorem setPkg_pkgSt_same (p : Fin n) (st : PkgSt) :
    (s.setPkg p st).pkgSt p = st := by simp [setPkg]

@[simp] theorem setPkg_pkgSt_other (p q : Fin n) (st : PkgSt) (h : q ≠ p) :
    (s.setPkg p st).pkgSt q = s.pkgSt q := by simp [setPkg, h]

@[simp] theorem setPkg_extSt (p : Fin n) (st : PkgSt) (q : Fin n) :
    (s.setPkg p st).extSt q = s.extSt q := by simp [setPkg]

@[simp] theorem setExt_extSt_same (p : Fin n) (st : ExtSt) :
    (s.setExt p st).extSt p = st := by simp [setExt]

@[simp] theorem setExt_extSt_other (p q : Fin n) (st : ExtSt) (h : q ≠ p) :
    (s.setExt p st).extSt q = s.extSt q := by simp [setExt, h]

@[simp] theorem setExt_pkgSt (p : Fin n) (st : ExtSt) (q : Fin n) :
    (s.setExt p st).pkgSt q = s.pkgSt q := by simp [setExt]

end GState

/-! External feasibility-engine primitives.  The spec declares the
`pkgDepCache` mark primitives out of scope ("interfaces only"); they are
modelled by their documented interface effect on the state words. -/

/-- `pkgDepCache::MarkDelete(Pkg, rPurge)`. -/
def MarkDelete {n : Nat} (s : GState n) (p : Fin n) (purge : Bool) : GState n :=
  s.setPkg p { s.pkgSt p with mode := modeDelete, iPurge := purge }

/-- `pkgDepCache::MarkKeep(Pkg, Soft, FromUser)`. -/
def MarkKeep {n : Nat} (s : GState n) (p : Fin n) (soft : Bool) (_fromUser : Bool) : GState n :=
  s.setPkg p { s.pkgSt p with mode := modeKeep, iAutoKept := soft }

/-- `pkgDepCache::MarkInstall(Pkg, AutoInst)`. -/
def MarkInstall {n : Nat} (s : GState n) (p : Fin n) (_autoInst : Bool) : GState n :=
  s.setPkg p { s.pkgSt p with mode := modeInstall }

/-- `pkgDepCache::SetReInstall(Pkg, To)`. -/
def SetReInstall {n : Nat} (s : GState n) (p : Fin n) (b : Bool) : GState n :=
  s.setPkg p { s.pkgSt p with iReInstall := b }

/-- `pkgDepCache::MarkAuto(Pkg, Auto)`. -/
def MarkAuto {n : Nat} (s : GState n) (p : Fin n) (b : Bool) : GState n :=
  s.setPkg p { s.pkgSt p with autoFlag := b }

/-- `pkgDepCache::SetCandidateVersion(TargetVer)` restricted to its
effect on the candidate pointer. -/
def SetCandidateVersion {n : Nat} (s : GState n) (p : Fin n) (v : Option Nat) : GState n :=
  s.setPkg p { s.pkgSt p with candVer := v }

@[simp] theorem MarkDelete_pkgSt {n : Nat} (s : GState n) (p q : Fin n) (b : Bool) :
    (MarkDelete s p b).pkgSt q =
      if q = p then { s.pkgSt p with mode := modeDelete, iPurge := b } else s.pkgSt q := by
  simp [MarkDelete, GState.setPkg]

@[simp] theorem MarkDelete_extSt {n : Nat} (s : GState n) (p q : Fin n) (b : Bool) :
    (MarkDelete s p b).extSt q = s.extSt q := by
  simp [MarkDelete, GState.setPkg]

@[simp] theorem MarkKeep_pkgSt {n : Nat} (s : GState n) (p q : Fin n) (soft fu : Bool) :
    (MarkKeep s p soft fu).pkgSt q =
      if q = p then { s.pkgSt p with mode := modeKeep, iAutoKept := soft } else s.pkgSt q := by
  simp [MarkKeep, GState.setPkg]

@[simp] theorem MarkKeep_extSt {n : Nat} (s : GState n) (p q : Fin n) (soft fu : Bool) :
    (MarkKeep s p soft fu).extSt q = s.extSt q := by
  simp [MarkKeep, GState.setPkg]

@[simp] theorem MarkInstall_pkgSt {n : Nat} (s : GState n) (p q : Fin n) (b : Bool) :
    (MarkInstall s p b).pkgSt q =
      if q = p then { s.pkgSt p with mode := modeInstall } else s.pkgSt q := by
  simp [MarkInstall, GState.setPkg]

@[simp] theorem MarkInstall_extSt {n : Nat} (s : GState n) (p q : Fin n) (b : Bool) :
    (MarkInstall s p b).extSt q = s.extSt q := by
  simp [MarkInstall, GState.setPkg]

@[simp] theorem SetReInstall_pkgSt {n : Nat} (s : GState n) (p q : Fin n) (b : Bool) :
    (SetReInstall s p b).pkgSt q =
      if q = p then { s.pkgSt p with iReInstall := b } else s.pkgSt q := by
  simp [SetReInstall, GState.setPkg]

@[simp] theorem SetReInstall_extSt {n : Nat} (s : GState n) (p q : Fin n) (b : Bool) :
    (SetReInstall s p b).extSt q = s.extSt q := by
  simp [SetReInstall, GState.setPkg]

@[simp] theorem MarkAuto_pkgSt {n : Nat} (s : GState n) (p q : Fin n) (b : Bool) :
    (MarkAuto s p b).pkgSt q =
      if q = p then { s.pkgSt p with autoFlag := b } else s.pkgSt q := by
  simp [MarkAuto, GState.setPkg]

@[simp] theorem MarkAuto_extSt {n : Nat} (s : GState n) (p q : Fin n) (b : Bool) :
    (MarkAuto s p b).extSt q = s.extSt q := by
  simp [MarkAuto, GState.setPkg]

@[simp] theorem SetCandidateVersion_pkgSt {n : Nat} (s : GState n) (p q : Fin n)
    (v : Option Nat) :
    (SetCandidateVersion s p v).pkgSt q =
      if q = p then { s.pkgSt p with candVer := v } else s.pkgSt q := by
  simp [SetCandidateVersion, GState.setPkg]

@[simp] theorem SetCandidateVersion_extSt {n : Nat} (s : GState n) (p q : Fin n)
    (v : Option Nat) :
    (SetCandidateVersion s p v).extSt q = s.extSt q := by
  simp [SetCandidateVersion, GState.setPkg]

@[simp] theorem ite_pkgSt {n : Nat} (c : Prop) [Decidable c] (a b : GState n) (q : Fin n) :
    (if c then a else b).pkgSt q = if c then a.pkgSt q else b.pkgSt q := by
  split_ifs <;> rfl

@[simp] theorem ite_extSt {n : Nat} (c : Prop) [Decidable c] (a b : GState n) (q : Fin n) :
    (if c then a else b).extSt q = if c then a.extSt q else b.extSt q := by
  split_ifs <;> rfl

/-- Modelled from the spec: `is_installed` of `apt.h` (declaration only
in the corpus): the package's dpkg state is neither `NotInstalled` nor
`ConfigFiles`. -/
def is_installed (u : Univ) (p : Fin u.n) : Prop :=
  u.curState p ≠ notInstalled ∧ u.curState p ≠ configFiles

instance (u : Univ) (p : Fin u.n) : Decidable (is_installed u p) := by
  unfold is_installed; infer_instance

/-- Modelled from the spec: `is_virtual` of `apt.h` (declaration only in
the corpus): no real versions but at least one provider. -/
def is_virtual (u : Univ) (p : Fin u.n) : Bool :=
  u.numVers p = 0 && !(u.providesOfPkg p).isEmpty

/-- Modelled from the spec: `is_auto_installed` of `apt.h` (declaration
only in the corpus): the Auto flag of the state cache. -/
def is_auto_installed (st : PkgSt) : Bool :=
  st.autoFlag

/-- The external `pkgDepCache::MarkAndSweep`: recomputes the per-package
`Garbage` flags from the current decisions (an opaque collaborator,
abstracted by `Univ.gcRecompute`). -/
def MarkAndSweepExt (u : Univ) (s : GState u.n) : GState u.n :=
  { s with pkgSt := fun q => { s.pkgSt q with garbage := u.gcRecompute s.pkgSt q } }

/-- The message `mark_delete` reports when asked to remove the running
tool itself. -/
def selfRemovalMsg : String := "Cannot remove aptitude within aptitude"

/-- The condition raised by `read_only_fail`. -/
def permissionDeniedMsg : String := "read-only cache: permission denied"

/-- `install_version` (`apt.cc:936-956`): the version of `pkg` that will
be installed once the current decisions are carried out. -/
def install_version (u : Univ) (s : GState u.n) (p : Fin u.n) : Option Nat :=
  if u.numVers p = 0 then
    none
  else
    match (s.pkgSt p).mode with
    | modeDelete => none
    | modeInstall => (s.pkgSt p).candVer
    | modeKeep =>
        if u.curState p = notInstalled ∨ u.curState p = configFiles then none
        else u.curVer p

/-- Conflicts and Breaks are the clause types the Conflict Oracle
examines. -/
def isConflictType (t : DepType) : Bool :=
  t = conflicts || t = dpkgBreaks

/-- `is_conflicted` (`apt.cc:958-1034`): given version `v` of package
`p`, the first Conflicts/Breaks clause violated by installing it, be it
a clause of the version itself (directly or through virtual provision)
or a clause of another package's resulting installed version against it
(directly or against a package it provides); self-conflicts are
skipped. -/
def is_conflicted (u : Univ) (s : GState u.n) (p : Fin u.n) (v : Option Nat) :
    Option (Dep u.n) :=
  match v with
  | none => none
  | some vi =>
    let forward := (u.depsOfVer p vi).findSome? fun dep =>
      if isConflictType dep.dtype then
        if decide (dep.target ≠ p) &&
           (match install_version u s dep.target with
            | none => false
            | some ti => u.checkDep (u.verStrOf dep.target ti) dep.compOp dep.targetVer)
        then some dep
        else if (u.providesOfPkg dep.target).any fun prv =>
               prv.owner ≠ p &&
               decide (install_version u s prv.owner = some prv.ownerVer) &&
               u.checkDep prv.provideVersion dep.compOp dep.targetVer
        then some dep
        else none
      else none
    let revDirect := (u.revDeps p).findSome? fun dep =>
      if isConflictType dep.dtype &&
         dep.parentPkg ≠ p &&
         decide (install_version u s dep.parentPkg = some dep.parentVer) &&
         u.checkDep (u.verStrOf p vi) dep.compOp dep.targetVer
      then some dep
      else none
    let revIndirect := (u.providesOfVer p vi).findSome? fun prv =>
      (u.revDeps prv.virtualPkg).findSome? fun dep =>
        if isConflictType dep.dtype &&
           dep.parentPkg ≠ p &&
           decide (install_version u s dep.parentPkg = some dep.parentVer) &&
           u.checkDep prv.provideVersion dep.compOp dep.targetVer
        then some dep
        else none
    (forward.orElse fun _ => revDirect).orElse fun _ => revIndirect

/-- Dependency types considered by the cascading auto-removal
(`aptcache.cc:1394-1400` and `apt.cc:1069-1072`). -/
def considerDepType (t : DepType) (keepRec keepSug : Bool) : Bool :=
  t = depends || t = preDepends ||
  (t = recommends && keepRec) || (t = suggests && keepSug)

/-- A package that is (and remains) installed or is to be installed:
the reverse-dependency test of `apt.cc:1076-1078` and the parent test
of `find_not_orphaned` (`aptcache.cc:2172`). -/
def remainOrWillB (u : Univ) (s : GState u.n) (q : Fin u.n) : Bool :=
  (decide (is_installed u q) && !(decide ((s.pkgSt q).mode = modeDelete))) ||
  decide ((s.pkgSt q).mode = modeInstall)

/-- `can_remove_autoinstalled` (`apt.cc:1037-1088`): whether removing
the auto-installed package `p` is safe, i.e. no reverse dependency of a
relevant type originates in a package that remains or will become
installed, with the guards on virtual, not-installed and non-automatic
packages. -/
def can_remove_autoinstalled (u : Univ) (s : GState u.n) (p : Fin u.n)
    (keepRec keepSug : Bool) : Bool :=
  let rdepsOk :=
    !((u.revDeps p).any fun rd =>
        considerDepType rd.dtype keepRec keepSug &&
        remainOrWillB u s rd.parentPkg)
  if is_virtual u p then rdepsOk
  else if 0 < u.numVers p ∧ u.curVer p = none then false
  else
    match u.curVer p with
    | some vi => if !(u.vers p vi).automatic then false else rdepsOk
    | none => rdepsOk

/-- The marking block of `internal_mark_delete`
(`aptcache.cc:1310-1335`): force the purge under the purge-unused
policy, mark the deletion in the feasibility engine, update
`selection_state`/`reinstall`, and stamp `remove_reason` only on the
first transition into Delete. -/
def internal_mark_delete_core (cfg : Config) (u : Univ) (s : GState u.n)
    (p : Fin u.n) (purge unusedArg : Bool) : GState u.n :=
  let purge2 := if unusedArg && cfg.purgeUnused then true else purge
  let s1 := { s with dirty := true }
  let previously := (s1.pkgSt p).mode = modeDelete
  let s2 := SetReInstall (MarkDelete s1 p purge2) p false
  let e := s2.extSt p
  s2.setExt p
    { e with
      selectionState := if purge2 then SelState.purge else SelState.deinstall
      reinstall := false
      removeReason :=
        if previously then e.removeReason
        else if unusedArg then ChangedReason.unused else ChangedReason.manual }

/-- `internal_mark_install` (`aptcache.cc:1225-1258`). -/
def internal_mark_install (u : Univ) (s : GState u.n) (p : Fin u.n)
    (autoInst reInst : Bool) : GState u.n :=
  let s := { s with dirty := true }
  let setToManual :=
    (u.curVer p = none ∧ (s.pkgSt p).mode ≠ modeInstall) ∨
    (u.curVer p ≠ none ∧ (s.pkgSt p).mode = modeDelete ∧
     (s.extSt p).removeReason = ChangedReason.unused)
  let previouslyAuto := (s.pkgSt p).autoFlag
  let finalAuto := if setToManual then false else previouslyAuto
  let s := if !reInst then MarkInstall s p autoInst else MarkKeep s p autoInst true
  let s := SetReInstall s p reInst
  let s := MarkAuto s p finalAuto
  s.setExt p
    { s.extSt p with
      selectionState := SelState.install
      reinstall := reInst
      forbidver := ""
      prevAuto := finalAuto }

/-- `set_candidate_version` (`aptcache.cc:1517-1577`), for version `v`
of package `p`.  The commit block at `group_level == 0` runs the
external mark-and-sweep; the undo item it would emit is not modelled
here (no caller in the verified claims passes an undo group to it). -/
def set_candidate_version (cfg : Config) (u : Univ) (s : GState u.n)
    (p : Fin u.n) (v : Option Nat) : GState u.n :=
  if s.readOnly && !cfg.readOnlyPermission then
    if s.groupLevel = 0 then { s with errors := permissionDeniedMsg :: s.errors }
    else s
  else
    let s := { s with dirty := true }
    match v with
    | none => s
    | some vi =>
      if (u.vers p vi).downloadable ||
         (u.curVer p = some vi && u.curState p ≠ configFiles) then
        let setToManual :=
          (u.curVer p = none ∧ (s.pkgSt p).mode ≠ modeInstall) ∨
          (u.curVer p ≠ none ∧ (s.pkgSt p).mode = modeDelete ∧
           (s.extSt p).removeReason = ChangedReason.unused)
        let s := if setToManual then MarkAuto s p false else s
        let s := s.setExt p
          { s.extSt p with
            candverStr :=
              if some vi ≠ (s.pkgSt p).candVer then u.verStrOf p vi else ""
            selectionState := SelState.install }
        let s := SetCandidateVersion s p (some vi)
        if s.groupLevel = 0 then MarkAndSweepExt u s else s
      else s

/-- `internal_mark_keep` (`aptcache.cc:1476-1515`). -/
def internal_mark_keep (cfg : Config) (u : Univ) (s : GState u.n)
    (p : Fin u.n) (automatic setHold : Bool) : GState u.n :=
  let s := { s with dirty := true }
  let wasGarbageRemoved :=
    (s.pkgSt p).mode = modeDelete ∧ u.curVer p ≠ none ∧
    (s.extSt p).removeReason = ChangedReason.unused
  let s := if wasGarbageRemoved then MarkAuto s p false else s
  let s := set_candidate_version cfg u s p (s.pkgSt p).candVer
  let s := MarkKeep s p false (!automatic)
  let s := SetReInstall s p false
  let s := s.setExt p { s.extSt p with reinstall := false, forbidver := "" }
  let s := MarkAuto s p automatic
  if u.curVer p = none then
    if (s.pkgSt p).iPurge then
      s.setExt p { s.extSt p with selectionState := SelState.purge }
    else
      s.setExt p { s.extSt p with selectionState := SelState.deinstall }
  else if setHold then
    s.setExt p { s.extSt p with selectionState := SelState.hold }
  else
    s.setExt p { s.extSt p with selectionState := SelState.install }

/-- The virtual-package provider loop of `internal_mark_delete`
(`aptcache.cc:1407-1431`), with the recursive re-entry abstracted as
`rec`; processes the provider list and returns the threaded state and
visited set (the continuation over the remaining dependency clauses is
performed by the caller). -/
def imdPrvsGo (u : Univ)
    (rec : GState u.n → Fin u.n → Finset (Fin u.n) → GState u.n × Finset (Fin u.n))
    (keepRec keepSug : Bool) (vp : Fin u.n) :
    List (Prv u.n) → GState u.n → Finset (Fin u.n) → GState u.n × Finset (Fin u.n)
  | [], s, visited => (s, visited)
  | prv :: prest, s, visited =>
    if !can_remove_autoinstalled u s vp keepRec keepSug then
      imdPrvsGo u rec keepRec keepSug vp prest s visited
    else if !is_auto_installed (s.pkgSt prv.owner) ||
            !can_remove_autoinstalled u s prv.owner keepRec keepSug then
      imdPrvsGo u rec keepRec keepSug vp prest s visited
    else
      let r := rec s prv.owner visited
      imdPrvsGo u rec keepRec keepSug vp prest r.1 r.2

/-- The dependency loop of `internal_mark_delete`
(`aptcache.cc:1384-1457`), with the recursive re-entry abstracted as
`rec`. -/
def imdDepsGo (u : Univ)
    (rec : GState u.n → Fin u.n → Finset (Fin u.n) → GState u.n × Finset (Fin u.n))
    (keepRec keepSug : Bool) :
    List (Dep u.n) → GState u.n → Finset (Fin u.n) → GState u.n × Finset (Fin u.n)
  | [], s, visited => (s, visited)
  | d :: rest, s, visited =>
    if !considerDepType d.dtype keepRec keepSug then
      imdDepsGo u rec keepRec keepSug rest s visited
    else if is_virtual u d.target then
      let r := imdPrvsGo u rec keepRec keepSug d.target (u.providesOfPkg d.target)
        s visited
      imdDepsGo u rec keepRec keepSug rest r.1 r.2
    else
      match u.curVer d.target with
      | none => imdDepsGo u rec keepRec keepSug rest s visited
      | some ti =>
        let notRequired :=
          !(u.essential d.target || u.important d.target ||
            (u.vers d.target ti).priorityRequired ||
            (u.vers d.target ti).priorityImportant)
        if decide (is_installed u d.target) &&
           is_auto_installed (s.pkgSt d.target) && notRequired then
          if can_remove_autoinstalled u s d.target keepRec keepSug then
            let r := rec s d.target visited
            imdDepsGo u rec keepRec keepSug rest r.1 r.2
          else imdDepsGo u rec keepRec keepSug rest s visited
        else imdDepsGo u rec keepRec keepSug rest s visited

/-- The recursive `internal_mark_delete`
(`aptcache.cc:1296-1458`): refuse to remove the running tool, run the
marking block, then — under the delete-unused policy and guarded by the
per-call visited set — walk the current version's dependency clauses
offering automatically installed, no-longer-required dependencies for
removal.  `fuel` is a structural bound on the nesting depth of
re-entries; every re-entry happens after inserting a fresh package into
`visited`, so any `fuel > u.n - visited.card` computes the same result
(proved below as stabilization). -/
def imdAux (cfg : Config) (u : Univ) :
    Nat → GState u.n → Fin u.n → Bool → Bool → Finset (Fin u.n) →
    GState u.n × Finset (Fin u.n)
  | 0, s, _, _, _, visited => (s, visited)
  | fuel + 1, s, p, purgeArg, unusedArg, visited =>
    if decide (is_installed u p) && (u.name p == "aptitude") then
      ({ s with errors := selfRemovalMsg :: s.errors }, visited)
    else
      let s1 := internal_mark_delete_core cfg u s p purgeArg unusedArg
      if !cfg.deleteUnused then (s1, visited)
      else
        match u.curVer p with
        | none => (s1, visited)
        | some pvi =>
          if p ∈ visited then (s1, visited)
          else
            imdDepsGo u
              (fun s2 t v => imdAux cfg u fuel s2 t cfg.purgeUnused true v)
              cfg.keepRecommendsInstalled cfg.keepSuggestsInstalled
              (u.depsOfVer p pvi) s1 (insert p visited)

/-- `internal_mark_delete` at a fresh top level
(`aptcache.cc:1288-1294`): empty visited set, with enough fuel for the
deepest possible visited-set-bounded recursion. -/
def internal_mark_delete (cfg : Config) (u : Univ) (s : GState u.n)
    (p : Fin u.n) (purge unusedArg : Bool) : GState u.n :=
  (imdAux cfg u (u.n + 1) s p purge unusedArg ∅).1

/-- `begin_action_group` (`aptcache.cc:2329-2332`). -/
def begin_action_group {n : Nat} (s : GState n) : GState n :=
  { s with groupLevel := s.groupLevel + 1 }

/-- The data captured by an `apt_undoer` (`aptcache.cc:77-98`): the
previous mode, flag words, removal reason, selection state and
forbidden version of one package. -/
structure UndoRec (n : Nat) where
  pkg : Fin n
  prevMode : PkgMode
  prevAuto : Bool
  prevIPurge : Bool
  prevIReInstall : Bool
  prevIAutoKept : Bool
  prevReason : ChangedReason
  prevSel : SelState
  prevForbid : String
deriving DecidableEq, Repr

/-- `state_restorer` (`aptcache.cc:1096-1102`): build the undo record
for package `p` from a captured state pair. -/
def state_restorer {n : Nat} (p : Fin n) (st : PkgSt) (e : ExtSt) : UndoRec n :=
  { pkg := p
    prevMode := st.mode
    prevAuto := st.autoFlag
    prevIPurge := st.iPurge
    prevIReInstall := st.iReInstall
    prevIAutoKept := st.iAutoKept
    prevReason := e.removeReason
    prevSel := e.selectionState
    prevForbid := e.forbidver }

/-- Whether one of the primary (undo-producing) fields of package `p`
differs from the snapshot (`aptcache.cc:1127-1132`). -/
def primaryChanged {n : Nat} (s : GState n) (p : Fin n) : Bool :=
  decide ((s.pkgSt p).mode ≠ (s.backupPkg p).mode) ||
  decide ((s.pkgSt p).autoFlag ≠ (s.backupPkg p).autoFlag) ||
  decide ((s.extSt p).selectionState ≠ (s.backupExt p).selectionState) ||
  decide ((s.extSt p).reinstall ≠ (s.backupExt p).reinstall) ||
  decide ((s.extSt p).removeReason ≠ (s.backupExt p).removeReason) ||
  decide ((s.extSt p).forbidver ≠ (s.backupExt p).forbidver)

/-- Whether one of the cosmetic fields of package `p` differs from the
snapshot (`aptcache.cc:1188-1194`). -/
def cosmeticChanged {n : Nat} (s : GState n) (p : Fin n) : Bool :=
  decide ((s.pkgSt p).iAutoKept ≠ (s.backupPkg p).iAutoKept) ||
  decide ((s.pkgSt p).iPurge ≠ (s.backupPkg p).iPurge) ||
  decide ((s.pkgSt p).iReInstall ≠ (s.backupPkg p).iReInstall) ||
  decide ((s.pkgSt p).depState ≠ (s.backupPkg p).depState) ||
  decide ((s.pkgSt p).candVer ≠ (s.backupPkg p).candVer) ||
  decide ((s.pkgSt p).marked ≠ (s.backupPkg p).marked) ||
  decide ((s.pkgSt p).garbage ≠ (s.backupPkg p).garbage) ||
  decide ((s.extSt p).userTags ≠ (s.backupExt p).userTags) ||
  decide ((s.extSt p).newPackage ≠ (s.backupExt p).newPackage)

/-- The sticky-selection normalization of `cleanup_after_change`
(`aptcache.cc:1146-1176`): packages whose mode was switched by the
underlying engine without a matching aptitude selection change get
their `selection_state` (and, for deletions of installed packages,
their `remove_reason`) realigned. -/
def alterStickiesFix (u : Univ) (s : GState u.n) (p : Fin u.n) : GState u.n :=
  if decide ((s.pkgSt p).mode ≠ (s.backupPkg p).mode) &&
     decide ((s.extSt p).selectionState = (s.backupExt p).selectionState) then
    match (s.pkgSt p).mode with
    | modeDelete =>
      if (s.extSt p).selectionState ≠ SelState.deinstall then
        let s :=
          if u.curVer p ≠ none then
            s.setExt p { s.extSt p with removeReason := ChangedReason.libapt }
          else s
        s.setExt p { s.extSt p with selectionState := SelState.deinstall }
      else s
    | modeKeep =>
      if u.curVer p ≠ none then
        s.setExt p { s.extSt p with selectionState := SelState.install }
      else if u.curState p = notInstalled then
        s.setExt p { s.extSt p with selectionState := SelState.purge }
      else
        s.setExt p { s.extSt p with selectionState := SelState.deinstall }
    | modeInstall =>
      if (s.extSt p).selectionState ≠ SelState.install then
        s.setExt p { s.extSt p with selectionState := SelState.install }
      else s
  else s

/-- `cleanup_after_change` (`aptcache.cc:1104-1204`): diff every
package against the snapshot; primary changes yield a restoring undo
record (and optionally the sticky normalization), cosmetic changes only
mark the package visibly changed. -/
def cleanup_after_change (u : Univ) (s : GState u.n) (alterStickies : Bool) :
    GState u.n × List (UndoRec u.n) × List (Fin u.n) :=
  (List.finRange u.n).foldl
    (fun acc p =>
      let (s, recs, changed) := acc
      if primaryChanged s p then
        let s2 := if alterStickies then alterStickiesFix u s p else s
        (s2, recs ++ [state_restorer p (s.backupPkg p) (s.backupExt p)],
         changed ++ [p])
      else if cosmeticChanged s p then
        (s, recs, changed ++ [p])
      else acc)
    (s, [], [])

/-- Whether trace_not_orphaned's entry sanity check passes: the package
is genuinely installed on disk (`aptcache.cc:2081-2089`, identical to
the check at 2153-2161). -/
def installedSane (u : Univ) (t : Fin u.n) : Bool :=
  !(decide (u.curState t = notInstalled) || decide (u.curState t = configFiles) ||
    (u.curVer t).isNone)

/-- The packages `trace_not_orphaned` recurses into from `t`
(`aptcache.cc:2103-2135`): for every important dependency clause of
`t`'s current version, the installed direct target when its current
version satisfies the clause, followed by the owners of every provides
entry of the target whose provide version satisfies the clause.  This
list is computed from static cache data only. -/
def traceTargets (u : Univ) (t : Fin u.n) : List (Fin u.n) :=
  match u.curVer t with
  | none => []
  | some vi =>
    ((u.depsOfVer t vi).filter (fun d => u.isImportantDep d.dtype)).flatMap fun dep =>
      (if !(decide (u.curState dep.target = notInstalled) ||
            decide (u.curState dep.target = configFiles)) &&
          u.checkDep (u.curVerStr dep.target) dep.compOp dep.targetVer
       then [dep.target] else []) ++
      ((u.providesOfPkg dep.target).filter
        (fun prv => u.checkDep prv.provideVersion dep.compOp dep.targetVer)).map
        (fun prv => prv.owner)

/-- The dependency-target loop of `trace_not_orphaned`, with the
recursive call abstracted as `rec`. -/
def traceGo {n : Nat} (rec : Fin n → List (Fin n) → List (Fin n)) :
    List (Fin n) → List (Fin n) → List (Fin n)
  | [], acc => acc
  | q :: qs, acc => traceGo rec qs (rec q acc)

/-- `trace_not_orphaned` (`aptcache.cc:2066-2136`): depth-first
insertion of `t` and, recursively, of the reinstatement candidates its
current version's important dependencies lead to; already-visited,
not-installed and non-candidate packages are skipped.  `fuel` bounds
the recursion depth; every level inserts a fresh candidate, so any
`fuel` beyond the number of candidates computes the same result. -/
def trace_not_orphaned (u : Univ) (reinstated : List (Fin u.n)) :
    Nat → Fin u.n → List (Fin u.n) → List (Fin u.n)
  | 0, _, acc => acc
  | fuel + 1, t, acc =>
    if t ∈ acc then acc
    else if !installedSane u t then acc
    else if t ∉ reinstated then acc
    else
      traceGo (fun q a => trace_not_orphaned u reinstated fuel q a)
        (traceTargets u t) (acc ++ [t])

/-- `find_not_orphaned` (`aptcache.cc:2145-2210`): if some package that
remains installed or will be installed has a Depends/PreDepends
satisfied by `c`'s current version (directly, or against a virtual
package that version provides), start tracing from `c`.  The source
calls `trace_not_orphaned` once per matching reverse dependency; all
calls after the first are no-ops (`c` is then either in the set or
rejected deterministically), so a single guarded call yields the same
result. -/
def find_not_orphaned (u : Univ) (s : GState u.n) (reinstated : List (Fin u.n))
    (fuel : Nat) (c : Fin u.n) (acc : List (Fin u.n)) : List (Fin u.n) :=
  if !installedSane u c then acc
  else
    let direct := (u.revDeps c).any fun dep =>
      decide (dep.parentPkg ≠ c) &&
      (decide (dep.dtype = depends) || decide (dep.dtype = preDepends)) &&
      remainOrWillB u s dep.parentPkg &&
      u.checkDep (u.curVerStr c) dep.compOp dep.targetVer
    let viaProvides :=
      match u.curVer c with
      | none => false
      | some cvi =>
        (u.providesOfVer c cvi).any fun prv =>
          (u.revDeps prv.virtualPkg).any fun dep =>
            decide (dep.parentPkg ≠ c) &&
            (decide (dep.dtype = depends) || decide (dep.dtype = preDepends)) &&
            remainOrWillB u s dep.parentPkg &&
            u.checkDep prv.provideVersion dep.compOp dep.targetVer
    if direct || viaProvides then trace_not_orphaned u reinstated fuel c acc
    else acc

/-- The packages `remove_reverse_current_versions` erases when called
on version `bvi` of `bp` (`aptcache.cc:1999-2059`): parents of
Depends/PreDepends clauses on `bp` (or on a virtual package provided by
that version) whose clause version is the parent's current version and
is satisfied by the bad version; self-dependencies are skipped.  Static
cache data only. -/
def rrTargets (u : Univ) (bp : Fin u.n) (bvi : Nat) : List (Fin u.n) :=
  ((u.revDeps bp).filter fun dep =>
    decide (dep.parentPkg ≠ bp) &&
    (decide (dep.dtype = depends) || decide (dep.dtype = preDepends)) &&
    decide (u.curVer dep.parentPkg = some dep.parentVer) &&
    u.checkDep (u.verStrOf bp bvi) dep.compOp dep.targetVer).map
    (fun dep => dep.parentPkg) ++
  ((u.providesOfVer bp bvi).flatMap fun prv =>
    ((u.revDeps prv.virtualPkg).filter fun dep =>
      decide (dep.parentPkg ≠ bp) &&
      (decide (dep.dtype = depends) || decide (dep.dtype = preDepends)) &&
      decide (u.curVer dep.parentPkg = some dep.parentVer) &&
      u.checkDep prv.provideVersion dep.compOp dep.targetVer).map
      (fun dep => dep.parentPkg))

/-- The reverse-dependency loop of `remove_reverse_current_versions`,
with the recursive call abstracted as `rec`: erase each still-present
qualifying parent and recurse on its current version. -/
def rrGo {n : Nat} (curv : Fin n → Option Nat)
    (rec : List (Fin n) → Fin n → Nat → List (Fin n)) :
    List (Fin n) → List (Fin n) → List (Fin n)
  | [], rein => rein
  | p :: ps, rein =>
    if p ∈ rein then
      let rein2 := rein.erase p
      let rein3 :=
        match curv p with
        | some pvi => rec rein2 p pvi
        | none => rein2
      rrGo curv rec ps rein3
    else rrGo curv rec ps rein

/-- `remove_reverse_current_versions` (`aptcache.cc:1992-2060`):
recursively erase from the reinstatement set every member whose current
version critically depends on the bad version.  `fuel` bounds the
recursion depth; every level is preceded by an erasure, so any `fuel`
beyond the set size computes the same result. -/
def remove_reverse_current_versions (u : Univ) :
    Nat → List (Fin u.n) → Fin u.n → Nat → List (Fin u.n)
  | 0, rein, _, _ => rein
  | fuel + 1, rein, bp, bvi =>
    rrGo u.curVer
      (fun rn p pvi => remove_reverse_current_versions u fuel rn p pvi)
      (rrTargets u bp bvi) rein

/-- One iteration of Sweep's first pass (`aptcache.cc:2239-2301`):
garbage packages are scheduled for unused deletion (or normalized back
to Keep when not really installed); non-garbage pending unused
deletions are classified as reinstatement candidates or, when the
Conflict Oracle objects, as blocked. -/
def sweepPhase1Step (cfg : Config) (u : Univ)
    (acc : GState u.n × List (Fin u.n) × List (Fin u.n)) (p : Fin u.n) :
    GState u.n × List (Fin u.n) × List (Fin u.n) :=
  let (s, rein, bad) := acc
  if (s.pkgSt p).garbage then
    if (u.curVer p).isSome && decide (u.curState p ≠ configFiles) then
      if !decide ((s.pkgSt p).mode = modeDelete) then
        let s2 := MarkDelete s p cfg.purgeUnused
        let s3 := s2.setExt p
          { s2.extSt p with
            selectionState :=
              if cfg.purgeUnused then SelState.purge else SelState.deinstall
            removeReason := ChangedReason.unused }
        (s3, rein, bad)
      else (s, rein, bad)
    else
      let s2 :=
        match u.curVer p with
        | none =>
          if (s.pkgSt p).iPurge then
            s.setExt p { s.extSt p with selectionState := SelState.purge }
          else
            s.setExt p { s.extSt p with selectionState := SelState.deinstall }
        | some _ =>
          s.setExt p { s.extSt p with selectionState := SelState.install }
      (MarkKeep s2 p false false, rein, bad)
  else if decide ((s.pkgSt p).mode = modeDelete) &&
          decide ((s.extSt p).removeReason = ChangedReason.unused) then
    match is_conflicted u s p (u.curVer p) with
    | some _ => (s, rein, bad ++ [p])
    | none => (s, rein ++ [p], bad)
  else acc

/-- Sweep's first pass over a given package list. -/
def sweepPhase1 (cfg : Config) (u : Univ) (s : GState u.n)
    (ps : List (Fin u.n)) : GState u.n × List (Fin u.n) × List (Fin u.n) :=
  ps.foldl (sweepPhase1Step cfg u) (s, [], [])

/-- `sweep` (`aptcache.cc:2213-2327`): no-op unless the delete-unused
policy is on; otherwise classify (pass 1), drop candidates depending on
blocked packages (pass 2), compute the not-orphaned closure (passes 3
and 4) and reinstate its members via `MarkKeep` (pass 5). -/
def sweep (cfg : Config) (u : Univ) (s : GState u.n) : GState u.n :=
  if !cfg.deleteUnused then s
  else
    let r := sweepPhase1 cfg u s (List.finRange u.n)
    let s1 := r.1
    let rein1 := r.2.1
    let bad := r.2.2
    let rein2 := bad.foldl
      (fun rn b =>
        match u.curVer b with
        | some bvi => remove_reverse_current_versions u (u.n + 1) rn b bvi
        | none => rn)
      rein1
    let notOrphaned := rein2.foldl
      (fun acc c => find_not_orphaned u s1 rein2 (u.n + 1) c acc) []
    notOrphaned.foldl (fun s2 c => MarkKeep s2 c false false) s1

/-- The commit body of `end_action_group` for `group_level > 0`
(`aptcache.cc:2334-2362`): at level 1 (and only then, and only when
writable or permitted) run Sweep, diff against the snapshot producing
undo records, refresh the snapshot; always decrement the level. -/
def end_action_group_run (cfg : Config) (u : Univ) (s : GState u.n) :
    GState u.n × List (UndoRec u.n) :=
  if s.groupLevel = 1 then
    if s.readOnly && !cfg.readOnlyPermission then
      ({ s with groupLevel := s.groupLevel - 1 }, [])
    else
      let s1 := sweep cfg u s
      let r := cleanup_after_change u s1 true
      let s2 := r.1
      let s3 := { s2 with backupPkg := s2.pkgSt, backupExt := s2.extSt }
      ({ s3 with groupLevel := s3.groupLevel - 1 }, r.2.1)
  else ({ s with groupLevel := s.groupLevel - 1 }, [])

/-- `end_action_group` including its `eassert(group_level > 0)`: the
call is undefined (the process aborts) at level 0. -/
def end_action_group (cfg : Config) (u : Univ) (s : GState u.n) :
    Option (GState u.n × List (UndoRec u.n)) :=
  if s.groupLevel = 0 then none else some (end_action_group_run cfg u s)

/-- `mark_install` (`aptcache.cc:1206-1223`) including the
`action_group` wrapper: the parent `pkgDepCache::ActionGroup` runs the
external mark-and-sweep when the ambient level is outermost, then
`end_action_group` commits. -/
def mark_install (cfg : Config) (u : Univ) (s : GState u.n) (p : Fin u.n)
    (autoInst reInst : Bool) : GState u.n × List (UndoRec u.n) :=
  if s.readOnly && !cfg.readOnlyPermission then
    (if s.groupLevel = 0 then { s with errors := permissionDeniedMsg :: s.errors }
     else s, [])
  else
    let ambient := s.groupLevel
    let s1 := begin_action_group s
    let s2 := internal_mark_install u s1 p autoInst reInst
    let s3 := if ambient = 0 then MarkAndSweepExt u s2 else s2
    end_action_group_run cfg u s3

/-- `mark_delete` (`aptcache.cc:1260-1286`): refuse to remove the
running tool's own installed package, then the read-only guard, then
the grouped internal delete. -/
def mark_delete (cfg : Config) (u : Univ) (s : GState u.n) (p : Fin u.n)
    (purge unusedArg : Bool) : GState u.n × List (UndoRec u.n) :=
  if decide (is_installed u p) && (u.name p == "aptitude") then
    ({ s with errors := selfRemovalMsg :: s.errors }, [])
  else if s.readOnly && !cfg.readOnlyPermission then
    (if s.groupLevel = 0 then { s with errors := permissionDeniedMsg :: s.errors }
     else s, [])
  else
    let ambient := s.groupLevel
    let s1 := begin_action_group s
    let s2 := internal_mark_delete cfg u s1 p purge unusedArg
    let s3 := if ambient = 0 then MarkAndSweepExt u s2 else s2
    end_action_group_run cfg u s3

/-- `mark_keep` (`aptcache.cc:1460-1474`). -/
def mark_keep (cfg : Config) (u : Univ) (s : GState u.n) (p : Fin u.n)
    (automatic setHold : Bool) : GState u.n × List (UndoRec u.n) :=
  if s.readOnly && !cfg.readOnlyPermission then
    (if s.groupLevel = 0 then { s with errors := permissionDeniedMsg :: s.errors }
     else s, [])
  else
    let ambient := s.groupLevel
    let s1 := begin_action_group s
    let s2 := internal_mark_keep cfg u s1 p automatic setHold
    let s3 := if ambient = 0 then MarkAndSweepExt u s2 else s2
    end_action_group_run cfg u s3

/-- `apt_undoer::undo` (`aptcache.cc:100-128`): re-issue the saved
decision through the internal mark operations inside an action group,
then force the saved Auto flag, removal reason and forbidden
version. -/
def apt_undoer_undo (cfg : Config) (u : Univ) (r : UndoRec u.n)
    (s : GState u.n) : GState u.n :=
  let ambient := s.groupLevel
  let s1 := begin_action_group s
  let s2 :=
    if r.prevIReInstall then internal_mark_install u s1 r.pkg false true
    else
      match r.prevMode with
      | modeDelete =>
        internal_mark_delete cfg u s1 r.pkg r.prevIPurge
          (r.prevReason = ChangedReason.unused)
      | modeKeep =>
        internal_mark_keep cfg u s1 r.pkg r.prevIAutoKept
          (r.prevSel = SelState.hold)
      | modeInstall => internal_mark_install u s1 r.pkg false false
  let s3 := MarkAuto s2 r.pkg r.prevAuto
  let s4 := s3.setExt r.pkg
    { s3.extSt r.pkg with removeReason := r.prevReason, forbidver := r.prevForbid }
  let s5 := if ambient = 0 then MarkAndSweepExt u s4 else s4
  (end_action_group_run cfg u s5).1

/-! Concrete fixtures used by witnesses and counterexamples. -/

/-- A neutral feasibility-engine state record. -/
@[reducible] def defaultPkgSt : PkgSt :=
  { mode := modeKeep, autoFlag := false, iPurge := false, iReInstall := false
    iAutoKept := false, garbage := false, marked := false, depState := 0
    candVer := none }

/-- A neutral extended-state record. -/
@[reducible] def defaultExtSt : ExtSt :=
  { selectionState := SelState.install, reinstall := false
    removeReason := ChangedReason.manual, forbidver := "", newPackage := false
    prevAuto := false, candverStr := "", userTags := [] }

/-- A plain version record. -/
@[reducible] def defaultVer : VerInfo :=
  { verStr := "1.0", automatic := true, downloadable := true
    priorityRequired := false, priorityImportant := false }

/-- A universe of `k` ordinary installed packages with no dependencies;
fixtures override the interesting fields. -/
@[reducible] def plainUniv (k : Nat) : Univ :=
  { n := k
    name := fun _ => "pkg"
    curState := fun _ => installed
    curVer := fun _ => some 0
    numVers := fun _ => 1
    vers := fun _ _ => defaultVer
    essential := fun _ => false
    important := fun _ => false
    deps := []
    provides := []
    checkDep := fun _ _ _ => true
    isImportantDep := fun t => t = depends || t = preDepends
    gcRecompute := fun st q => PkgSt.garbage (st q) }

/-- A writable committed state over `k` packages with a fresh
snapshot. -/
@[reducible] def plainState (k : Nat) : GState k :=
  { pkgSt := fun _ => defaultPkgSt
    extSt := fun _ => defaultExtSt
    groupLevel := 0
    dirty := false
    readOnly := false
    errors := []
    backupPkg := fun _ => defaultPkgSt
    backupExt := fun _ => defaultExtSt }

/-- The default configuration: delete-unused on, purge-unused off. -/
@[reducible] def defaultConfig : Config :=
  { deleteUnused := true, purgeUnused := false, keepRecommendsInstalled := true
    keepSuggestsInstalled := true, readOnlyPermission := false }

/-! ## Claim C10 -/

/-- C10: when the delete-unused policy is disabled, Sweep is a complete
no-op — it neither schedules Garbage-flagged packages for deletion nor
reinstates unused-removal candidates; the state (both arrays included)
is returned untouched. -/
theorem sweep_disabled_is_noop (cfg : Config) (u : Univ) (s : GState u.n)
    (h : cfg.deleteUnused = false) : sweep cfg u s = s := by
  simp [sweep, h]

/-- Witness for C10 at a concrete garbage-flagged state: the package
stays in Keep mode even though it is garbage. -/
theorem sweep_disabled_is_noop_witness :
    ({ defaultConfig with deleteUnused := false } : Config).deleteUnused = false ∧
    sweep { defaultConfig with deleteUnused := false } (plainUniv 1)
        ((plainState 1).setPkg 0 { defaultPkgSt with garbage := true }) =
      (plainState 1).setPkg 0 { defaultPkgSt with garbage := true } :=
  ⟨rfl, sweep_disabled_is_noop { defaultConfig with deleteUnused := false }
    (plainUniv 1) ((plainState 1).setPkg 0 { defaultPkgSt with garbage := true })
    rfl⟩

/-! ## Claim C6 -/

/-- C6: `mark_delete` refuses to remove the running tool's own
currently-installed package: an error is reported on the shared error
channel and nothing else changes — in particular no package's
feasibility-engine state or extended state moves, so the package never
transitions to Delete/Purge while installed. -/
theorem mark_delete_refuses_self (cfg : Config) (u : Univ) (s : GState u.n)
    (p : Fin u.n) (purge unusedArg : Bool)
    (hname : u.name p = "aptitude") (hinst : is_installed u p) :
    mark_delete cfg u s p purge unusedArg =
      ({ s with errors := selfRemovalMsg :: s.errors }, []) := by
  have : (decide (is_installed u p) && (u.name p == "aptitude")) = true := by
    simp [hinst, hname]
  simp [mark_delete, this]

/-- Witness for C6: a concrete installed package named aptitude. -/
theorem mark_delete_refuses_self_witness :
    ({ plainUniv 1 with name := fun _ => "aptitude" } : Univ).name 0 = "aptitude" ∧
    is_installed { plainUniv 1 with name := fun _ => "aptitude" } 0 ∧
    mark_delete defaultConfig { plainUniv 1 with name := fun _ => "aptitude" }
        (plainState 1) 0 false false =
      ({ plainState 1 with errors := [selfRemovalMsg] }, []) :=
  ⟨rfl, by decide,
   mark_delete_refuses_self defaultConfig
     { plainUniv 1 with name := fun _ => "aptitude" } (plainState 1) 0 false false
     rfl (by decide)⟩

/-! ## Claim C9 -/

/-- Frame of `set_candidate_version`: it never touches the decision
mode, the purge/reinstall iflags, or the reinstall, forbidden-version
and removal-reason extended fields of any package. -/
theorem scv_frame (cfg : Config) (u : Univ) (s : GState u.n) (p : Fin u.n)
    (v : Option Nat) (q : Fin u.n) :
    (((set_candidate_version cfg u s p v).pkgSt q).mode = (s.pkgSt q).mode ∧
     ((set_candidate_version cfg u s p v).pkgSt q).iPurge = (s.pkgSt q).iPurge ∧
     ((set_candidate_version cfg u s p v).pkgSt q).iReInstall = (s.pkgSt q).iReInstall) ∧
    (((set_candidate_version cfg u s p v).extSt q).reinstall = (s.extSt q).reinstall ∧
     ((set_candidate_version cfg u s p v).extSt q).forbidver = (s.extSt q).forbidver ∧
     ((set_candidate_version cfg u s p v).extSt q).removeReason = (s.extSt q).removeReason) := by
  unfold set_candidate_version
  rcases v with _ | vi <;>
    simp only [MarkAndSweepExt, MarkAuto, SetCandidateVersion, GState.setPkg,
      GState.setExt] <;>
    split_ifs <;>
    by_cases hq : q = p <;>
    simp_all

@[simp] theorem scv_mode (cfg : Config) (u : Univ) (s : GState u.n) (p : Fin u.n)
    (v : Option Nat) (q : Fin u.n) :
    ((set_candidate_version cfg u s p v).pkgSt q).mode = (s.pkgSt q).mode :=
  (scv_frame cfg u s p v q).1.1

@[simp] theorem scv_iPurge (cfg : Config) (u : Univ) (s : GState u.n) (p : Fin u.n)
    (v : Option Nat) (q : Fin u.n) :
    ((set_candidate_version cfg u s p v).pkgSt q).iPurge = (s.pkgSt q).iPurge :=
  (scv_frame cfg u s p v q).1.2.1

@[simp] theorem scv_iReInstall (cfg : Config) (u : Univ) (s : GState u.n) (p : Fin u.n)
    (v : Option Nat) (q : Fin u.n) :
    ((set_candidate_version cfg u s p v).pkgSt q).iReInstall = (s.pkgSt q).iReInstall :=
  (scv_frame cfg u s p v q).1.2.2

@[simp] theorem scv_reinstall (cfg : Config) (u : Univ) (s : GState u.n) (p : Fin u.n)
    (v : Option Nat) (q : Fin u.n) :
    ((set_candidate_version cfg u s p v).extSt q).reinstall = (s.extSt q).reinstall :=
  (scv_frame cfg u s p v q).2.1

@[simp] theorem scv_forbidver (cfg : Config) (u : Univ) (s : GState u.n) (p : Fin u.n)
    (v : Option Nat) (q : Fin u.n) :
    ((set_candidate_version cfg u s p v).extSt q).forbidver = (s.extSt q).forbidver :=
  (scv_frame cfg u s p v q).2.2.1

@[simp] theorem scv_removeReason (cfg : Config) (u : Univ) (s : GState u.n) (p : Fin u.n)
    (v : Option Nat) (q : Fin u.n) :
    ((set_candidate_version cfg u s p v).extSt q).removeReason = (s.extSt q).removeReason :=
  (scv_frame cfg u s p v q).2.2.2

/-- C9: `internal_mark_keep` puts the package into Keep mode, clears
the reinstall flag (both the iflag and the extended flag) and the
forbidden version, re-applies the Auto flag to its `Automatic`
argument, and computes `selection_state` by the table: Purge for a
package with no current version whose Purge iflag is set, else
DeInstall when there is no current version, else Hold under the hold
argument, else Install. -/
theorem internal_mark_keep_spec (cfg : Config) (u : Univ) (s : GState u.n)
    (p : Fin u.n) (automatic setHold : Bool) :
    ((internal_mark_keep cfg u s p automatic setHold).pkgSt p).mode = modeKeep ∧
    ((internal_mark_keep cfg u s p automatic setHold).pkgSt p).iReInstall = false ∧
    ((internal_mark_keep cfg u s p automatic setHold).extSt p).reinstall = false ∧
    ((internal_mark_keep cfg u s p automatic setHold).extSt p).forbidver = "" ∧
    ((internal_mark_keep cfg u s p automatic setHold).pkgSt p).autoFlag = automatic ∧
    ((internal_mark_keep cfg u s p automatic setHold).extSt p).selectionState =
      (if u.curVer p = none then
         (if (s.pkgSt p).iPurge then SelState.purge else SelState.deinstall)
       else if setHold then SelState.hold else SelState.install) := by
  unfold internal_mark_keep
  simp only [scv_mode, scv_iPurge, scv_iReInstall, scv_reinstall, scv_forbidver,
    scv_removeReason, MarkKeep_pkgSt, MarkKeep_extSt, MarkAuto_pkgSt, MarkAuto_extSt,
    SetReInstall_pkgSt, SetReInstall_extSt, ite_pkgSt, ite_extSt,
    GState.setExt_extSt_same, GState.setExt_pkgSt, if_pos rfl]
  split_ifs <;> simp_all

/-! ## Claim C4 -/

/-- Folding preserves any invariant preserved by each step. -/
theorem foldl_invariant {α β : Type _} (P : β → Prop) (f : β → α → β)
    (h : ∀ b a, P b → P (f b a)) (l : List α) (b : β) (hb : P b) :
    P (l.foldl f b) := by
  induction l generalizing b with
  | nil => exact hb
  | cons a l ih => exact ih (f b a) (h b a hb)

/-- The scalar bookkeeping fields `sweep` never touches. -/
theorem sweep_scalars (cfg : Config) (u : Univ) (s : GState u.n) :
    (sweep cfg u s).groupLevel = s.groupLevel ∧
    (sweep cfg u s).readOnly = s.readOnly ∧
    (sweep cfg u s).backupPkg = s.backupPkg ∧
    (sweep cfg u s).backupExt = s.backupExt := by
  have hstep : ∀ (acc : GState u.n × List (Fin u.n) × List (Fin u.n)) (p : Fin u.n),
      (acc.1.groupLevel = s.groupLevel ∧ acc.1.readOnly = s.readOnly ∧
       acc.1.backupPkg = s.backupPkg ∧ acc.1.backupExt = s.backupExt) →
      ((sweepPhase1Step cfg u acc p).1.groupLevel = s.groupLevel ∧
       (sweepPhase1Step cfg u acc p).1.readOnly = s.readOnly ∧
       (sweepPhase1Step cfg u acc p).1.backupPkg = s.backupPkg ∧
       (sweepPhase1Step cfg u acc p).1.backupExt = s.backupExt) := by
    rintro ⟨a, rein, bad⟩ p ⟨h1, h2, h3, h4⟩
    unfold sweepPhase1Step
    dsimp only
    repeat' split
    all_goals
      simp_all [MarkDelete, MarkKeep, GState.setPkg, GState.setExt]
  unfold sweep
  split_ifs with h
  · exact ⟨rfl, rfl, rfl, rfl⟩
  · dsimp only
    refine foldl_invariant
      (fun t : GState u.n =>
        t.groupLevel = s.groupLevel ∧ t.readOnly = s.readOnly ∧
        t.backupPkg = s.backupPkg ∧ t.backupExt = s.backupExt)
      (fun s2 c => MarkKeep s2 c false false) ?_ _ _ ?_
    · intro b a hP
      simpa [MarkKeep, GState.setPkg] using hP
    · exact foldl_invariant _ (sweepPhase1Step cfg u) hstep (List.finRange u.n)
        (s, ([], [])) ⟨rfl, rfl, rfl, rfl⟩

/-- The scalar bookkeeping fields `cleanup_after_change` never
touches. -/
theorem cleanup_scalars (u : Univ) (s : GState u.n) (b : Bool) :
    (cleanup_after_change u s b).1.groupLevel = s.groupLevel ∧
    (cleanup_after_change u s b).1.readOnly = s.readOnly ∧
    (cleanup_after_change u s b).1.backupPkg = s.backupPkg ∧
    (cleanup_after_change u s b).1.backupExt = s.backupExt := by
  unfold cleanup_after_change
  refine foldl_invariant
    (fun acc : GState u.n × List (UndoRec u.n) × List (Fin u.n) =>
      acc.1.groupLevel = s.groupLevel ∧ acc.1.readOnly = s.readOnly ∧
      acc.1.backupPkg = s.backupPkg ∧ acc.1.backupExt = s.backupExt)
    _ ?_ (List.finRange u.n) (s, ([], [])) ⟨rfl, rfl, rfl, rfl⟩
  rintro ⟨a, recs, changed⟩ p hP
  obtain ⟨h1, h2, h3, h4⟩ := hP
  dsimp only
  unfold alterStickiesFix
  repeat' split
  all_goals simp_all [GState.setExt]

/-- C4 (amended): `begin` only increments `group_level`; `end` is only
defined at positive levels and decrements; an inner (nested) `end`
changes nothing but the level; and the reconciliation pipeline —
Sweep, the snapshot diff producing the undo records, and the snapshot
refresh — runs exactly on a 1-to-0 transition of a writable (or
permitted) store. -/
theorem action_group_discipline (cfg : Config) (u : Univ) (s : GState u.n) :
    begin_action_group s = { s with groupLevel := s.groupLevel + 1 } ∧
    (s.groupLevel = 0 → end_action_group cfg u s = none) ∧
    (0 < s.groupLevel →
       end_action_group cfg u s = some (end_action_group_run cfg u s) ∧
       (end_action_group_run cfg u s).1.groupLevel = s.groupLevel - 1) ∧
    (2 ≤ s.groupLevel →
       end_action_group_run cfg u s = ({ s with groupLevel := s.groupLevel - 1 }, [])) ∧
    (s.groupLevel = 1 → (s.readOnly = false ∨ cfg.readOnlyPermission = true) →
       end_action_group_run cfg u s =
         ({ (cleanup_after_change u (sweep cfg u s) true).1 with
             backupPkg := (cleanup_after_change u (sweep cfg u s) true).1.pkgSt
             backupExt := (cleanup_after_change u (sweep cfg u s) true).1.extSt
             groupLevel := 0 },
          (cleanup_after_change u (sweep cfg u s) true).2.1)) := by
  refine ⟨rfl, ?_, ?_, ?_, ?_⟩
  · intro h; simp [end_action_group, h]
  · intro h
    constructor
    · simp [end_action_group, Nat.pos_iff_ne_zero.mp h]
    · unfold end_action_group_run
      split_ifs with h1 h2
      · rfl
      · have hc := cleanup_scalars u (sweep cfg u s) true
        have hs := sweep_scalars cfg u s
        simp [hc.1, hs.1]
      · rfl
  · intro h
    unfold end_action_group_run
    have : ¬s.groupLevel = 1 := by omega
    simp [this]
  · intro h1 h2
    unfold end_action_group_run
    have hro : (s.readOnly && !cfg.readOnlyPermission) = false := by
      rcases h2 with h2 | h2 <;> simp [h2]
    have hc := cleanup_scalars u (sweep cfg u s) true
    have hs := sweep_scalars cfg u s
    simp only [h1, if_pos rfl, hro, Bool.false_eq_true, if_false]
    have hlvl : (cleanup_after_change u (sweep cfg u s) true).1.groupLevel = 1 := by
      rw [hc.1, hs.1, h1]
    rw [hlvl]
    simp

/-- Counterexample for C4 as frozen: in a read-only store without
permission, `end_action_group` does transition `group_level` from 1 to
0 yet runs no reconciliation: the garbage-flagged installed package
that Sweep would schedule for deletion keeps its Keep mode. -/
@[reducible] def c4Univ : Univ := plainUniv 1

/-- The read-only level-1 state with one garbage package. -/
def c4State : GState 1 :=
  { (plainState 1).setPkg 0 { defaultPkgSt with garbage := true } with
    groupLevel := 1, readOnly := true }

/-- C4 counterexample: the 1-to-0 transition happens with no Sweep. -/
theorem end_action_group_readonly_skips_sweep :
    c4State.groupLevel = 1 ∧
    (end_action_group_run defaultConfig c4Univ c4State).1.groupLevel = 0 ∧
    ((end_action_group_run defaultConfig c4Univ c4State).1.pkgSt 0).mode = modeKeep ∧
    ((sweep defaultConfig c4Univ c4State).pkgSt 0).mode = modeDelete := by
  refine ⟨rfl, ?_, ?_, ?_⟩ <;> decide

/-- Witness for the amended C4 at a concrete writable level-1 state:
the commit pipeline runs on the 1-to-0 transition. -/
theorem action_group_discipline_witness :
    ({ plainState 1 with groupLevel := 1 } : GState 1).groupLevel = 1 ∧
    (({ plainState 1 with groupLevel := 1 } : GState 1).readOnly = false ∨
      defaultConfig.readOnlyPermission = true) ∧
    end_action_group_run defaultConfig (plainUniv 1)
        { plainState 1 with groupLevel := 1 } =
      ({ (cleanup_after_change (plainUniv 1)
            (sweep defaultConfig (plainUniv 1) { plainState 1 with groupLevel := 1 })
            true).1 with
          backupPkg := (cleanup_after_change (plainUniv 1)
            (sweep defaultConfig (plainUniv 1) { plainState 1 with groupLevel := 1 })
            true).1.pkgSt
          backupExt := (cleanup_after_change (plainUniv 1)
            (sweep defaultConfig (plainUniv 1) { plainState 1 with groupLevel := 1 })
            true).1.extSt
          groupLevel := 0 },
       (cleanup_after_change (plainUniv 1)
          (sweep defaultConfig (plainUniv 1) { plainState 1 with groupLevel := 1 })
          true).2.1) :=
  ⟨rfl, Or.inl rfl,
   (action_group_discipline defaultConfig (plainUniv 1)
      { plainState 1 with groupLevel := 1 }).2.2.2.2 rfl (Or.inl rfl)⟩

/-! ## Claim C7 -/

/-- C7 (amended): with the store read-only and no permission granted,
every mutation operation is refused at every group level and the
in-memory state is unchanged; the "permission denied" condition is
raised exactly when no transaction group is open (`group_level = 0`) —
a nested call is refused silently, it does not perform its
mutation. -/
theorem read_only_guard_refuses (cfg : Config) (u : Univ) (s : GState u.n)
    (p : Fin u.n) (aI rI auto hold purge un : Bool)
    (hro : s.readOnly = true) (hperm : cfg.readOnlyPermission = false) :
    mark_install cfg u s p aI rI =
      (if s.groupLevel = 0 then { s with errors := permissionDeniedMsg :: s.errors }
       else s, []) ∧
    mark_keep cfg u s p auto hold =
      (if s.groupLevel = 0 then { s with errors := permissionDeniedMsg :: s.errors }
       else s, []) ∧
    (¬(is_installed u p ∧ u.name p = "aptitude") →
      mark_delete cfg u s p purge un =
        (if s.groupLevel = 0 then { s with errors := permissionDeniedMsg :: s.errors }
         else s, [])) := by
  refine ⟨?_, ?_, ?_⟩
  · simp [mark_install, hro, hperm]
  · simp [mark_keep, hro, hperm]
  · intro hself
    have : (decide (is_installed u p) && (u.name p == "aptitude")) = false := by
      by_cases hA : is_installed u p <;> by_cases hB : u.name p = "aptitude" <;>
        simp_all
    simp [mark_delete, this, hro, hperm]

/-- The read-only state with an open group used against C7. -/
def c7State : GState 1 := { plainState 1 with readOnly := true, groupLevel := 1 }

/-- Counterexample for C7 as frozen: a nested mutation call
(`group_level = 1`) on a read-only store is NOT performed — the package
stays in Keep mode and no error is raised — whereas the same call on a
writable store does switch it to Install mode. -/
theorem nested_read_only_mutation_not_performed :
    c7State.readOnly = true ∧ c7State.groupLevel = 1 ∧
    defaultConfig.readOnlyPermission = false ∧
    ((mark_install defaultConfig (plainUniv 1) c7State 0 false false).1.pkgSt 0).mode
      = modeKeep ∧
    (mark_install defaultConfig (plainUniv 1) c7State 0 false false).1.errors = [] ∧
    ((mark_install defaultConfig (plainUniv 1) { c7State with readOnly := false }
        0 false false).1.pkgSt 0).mode = modeInstall := by
  refine ⟨rfl, rfl, rfl, ?_, ?_, ?_⟩ <;> decide

/-- Witness for the amended C7 at a concrete read-only state. -/
theorem read_only_guard_refuses_witness :
    ({ plainState 1 with readOnly := true } : GState 1).readOnly = true ∧
    defaultConfig.readOnlyPermission = false ∧
    mark_install defaultConfig (plainUniv 1) { plainState 1 with readOnly := true }
        0 false false =
      ({ { plainState 1 with readOnly := true } with
          errors := [permissionDeniedMsg] }, []) :=
  ⟨rfl, rfl, by
    have h := read_only_guard_refuses defaultConfig (plainUniv 1)
      { plainState 1 with readOnly := true } 0 false false false false false false
      rfl rfl
    simpa using h.1⟩

/-! ## Cascading-delete invariants (shared by C3, C5 and C8) -/

/-- The selection state given to unused deletions under the current
purge-unused policy. -/
def unusedShape (cfg : Config) : SelState :=
  if cfg.purgeUnused then SelState.purge else SelState.deinstall

/-- How a state may evolve under the unused-removal cascade: per
package, the Auto flag is untouched and either (mode, remove_reason)
are unchanged — with (iPurge, selection_state) either unchanged or, for
an already-deleted package that was re-marked, set to the policy shape —
or the package was freshly cascade-deleted: Delete mode, reason
`unused`, policy purge flag and selection shape. -/
def CascRel (cfg : Config) (u : Univ) (s t : GState u.n) : Prop :=
  ∀ q : Fin u.n,
    (t.pkgSt q).autoFlag = (s.pkgSt q).autoFlag ∧
    (((t.pkgSt q).mode = (s.pkgSt q).mode ∧
      (t.extSt q).removeReason = (s.extSt q).removeReason ∧
      (((t.pkgSt q).iPurge = (s.pkgSt q).iPurge ∧
        (t.extSt q).selectionState = (s.extSt q).selectionState) ∨
       ((s.pkgSt q).mode = modeDelete ∧ (t.pkgSt q).iPurge = cfg.purgeUnused ∧
        (t.extSt q).selectionState = unusedShape cfg))) ∨
     ((s.pkgSt q).mode ≠ modeDelete ∧ (t.pkgSt q).mode = modeDelete ∧
      (t.extSt q).removeReason = ChangedReason.unused ∧
      (t.pkgSt q).iPurge = cfg.purgeUnused ∧
      (t.extSt q).selectionState = unusedShape cfg))

/-- Any state whose per-package fields agree with `s` is cascade-related
to it. -/
theorem CascRel.of_eq (cfg : Config) (u : Univ) {s t : GState u.n}
    (h : ∀ q, t.pkgSt q = s.pkgSt q ∧ t.extSt q = s.extSt q) :
    CascRel cfg u s t := by
  intro q
  obtain ⟨h1, h2⟩ := h q
  exact ⟨by rw [h1], Or.inl ⟨by rw [h1], by rw [h2], Or.inl ⟨by rw [h1], by rw [h2]⟩⟩⟩

theorem CascRel.refl (cfg : Config) (u : Univ) (s : GState u.n) : CascRel cfg u s s :=
  CascRel.of_eq cfg u fun _ => ⟨Eq.refl _, Eq.refl _⟩

theorem CascRel.trans (cfg : Config) (u : Univ) {s t r : GState u.n}
    (h1 : CascRel cfg u s t) (h2 : CascRel cfg u t r) : CascRel cfg u s r := by
  intro q
  obtain ⟨a1, h1⟩ := h1 q
  obtain ⟨a2, h2⟩ := h2 q
  refine ⟨a2.trans a1, ?_⟩
  rcases h1 with ⟨m1, r1, sub1⟩ | ⟨nd1, m1, r1, p1, s1⟩
  · rcases h2 with ⟨m2, r2, sub2⟩ | ⟨nd2, m2, r2, p2, s2⟩
    · left
      refine ⟨m2.trans m1, r2.trans r1, ?_⟩
      rcases sub1 with ⟨p1, s1⟩ | ⟨d1, p1, s1⟩
      · rcases sub2 with ⟨p2, s2⟩ | ⟨d2, p2, s2⟩
        · exact Or.inl ⟨p2.trans p1, s2.trans s1⟩
        · exact Or.inr ⟨m1 ▸ d2, p2, s2⟩
      · rcases sub2 with ⟨p2, s2⟩ | ⟨d2, p2, s2⟩
        · exact Or.inr ⟨d1, p2.trans p1, s2.trans s1⟩
        · exact Or.inr ⟨d1, p2, s2⟩
    · exact Or.inr ⟨fun hd => nd2 (m1.trans hd), m2, r2, p2, s2⟩
  · rcases h2 with ⟨m2, r2, sub2⟩ | ⟨nd2, m2, r2, p2, s2⟩
    · right
      refine ⟨nd1, m2.trans m1, r2.trans r1, ?_, ?_⟩
      · rcases sub2 with ⟨p2, s2⟩ | ⟨d2, p2, s2⟩
        · exact p2.trans p1
        · exact p2
      · rcases sub2 with ⟨p2, s2⟩ | ⟨d2, p2, s2⟩
        · exact s2.trans s1
        · exact s2
    · exact absurd m1 nd2

/-- Packages other than `p` whose Auto flag is clear are untouched. -/
def NoAutoFrameEx (u : Univ) (p : Fin u.n) (s t : GState u.n) : Prop :=
  ∀ q, q ≠ p → (s.pkgSt q).autoFlag = false →
    t.pkgSt q = s.pkgSt q ∧ t.extSt q = s.extSt q

/-- Packages whose Auto flag is clear are untouched. -/
def NoAutoFrame (u : Univ) (s t : GState u.n) : Prop :=
  ∀ q, (s.pkgSt q).autoFlag = false →
    t.pkgSt q = s.pkgSt q ∧ t.extSt q = s.extSt q

/-- The marking block changes only the package it marks. -/
theorem core_frame (cfg : Config) (u : Univ) (s : GState u.n) (p : Fin u.n)
    (purge un : Bool) (q : Fin u.n) (hq : q ≠ p) :
    (internal_mark_delete_core cfg u s p purge un).pkgSt q = s.pkgSt q ∧
    (internal_mark_delete_core cfg u s p purge un).extSt q = s.extSt q := by
  unfold internal_mark_delete_core
  simp [hq, GState.setExt]

/-- The fields of `p` after the marking block. -/
theorem core_at (cfg : Config) (u : Univ) (s : GState u.n) (p : Fin u.n)
    (purge un : Bool) :
    (internal_mark_delete_core cfg u s p purge un).pkgSt p =
      { s.pkgSt p with
        mode := modeDelete
        iPurge := if un && cfg.purgeUnused then true else purge
        iReInstall := false } ∧
    (internal_mark_delete_core cfg u s p purge un).extSt p =
      { s.extSt p with
        selectionState :=
          if (if un && cfg.purgeUnused then true else purge) then SelState.purge
          else SelState.deinstall
        reinstall := false
        removeReason :=
          if (s.pkgSt p).mode = modeDelete then (s.extSt p).removeReason
          else if un then ChangedReason.unused else ChangedReason.manual } := by
  unfold internal_mark_delete_core
  constructor <;> simp [GState.setExt]

/-- The marking block performed with the cascade's own arguments
(purge per policy, unused) is a cascade step. -/
theorem core_casc (cfg : Config) (u : Univ) (s : GState u.n) (p : Fin u.n) :
    CascRel cfg u s (internal_mark_delete_core cfg u s p cfg.purgeUnused true) := by
  intro q
  by_cases hq : q = p
  · subst hq
    obtain ⟨h1, h2⟩ := core_at cfg u s q cfg.purgeUnused true
    rw [h1, h2]
    by_cases hd : (s.pkgSt q).mode = modeDelete
    · refine ⟨rfl, Or.inl ⟨by simp [hd], by simp [hd], Or.inr ⟨hd, ?_, ?_⟩⟩⟩ <;>
        (simp only [unusedShape]; cases cfg.purgeUnused <;> simp)
    · refine ⟨rfl, Or.inr ⟨hd, by simp, by simp [hd], ?_, ?_⟩⟩ <;>
        (simp only [unusedShape]; cases cfg.purgeUnused <;> simp)
  · obtain ⟨h1, h2⟩ := core_frame cfg u s p cfg.purgeUnused true q hq
    exact ⟨by rw [h1], Or.inl ⟨by rw [h1], by rw [h2], Or.inl ⟨by rw [h1], by rw [h2]⟩⟩⟩

/-- The provider loop only performs cascade steps and, besides
Auto-flagged packages, touches nothing — provided each re-entry does
the same. -/
theorem imdPrvsGo_casc (cfg : Config) (u : Univ)
    (rec : GState u.n → Fin u.n → Finset (Fin u.n) → GState u.n × Finset (Fin u.n))
    (vp : Fin u.n)
    (hrec : ∀ s t v, CascRel cfg u s (rec s t v).1 ∧ NoAutoFrameEx u t s (rec s t v).1)
    (prvs : List (Prv u.n)) :
    ∀ s visited,
      CascRel cfg u s
        (imdPrvsGo u rec cfg.keepRecommendsInstalled cfg.keepSuggestsInstalled
          vp prvs s visited).1 ∧
      NoAutoFrame u s
        (imdPrvsGo u rec cfg.keepRecommendsInstalled cfg.keepSuggestsInstalled
          vp prvs s visited).1 := by
  induction prvs with
  | nil =>
    intro s v
    exact ⟨CascRel.refl cfg u s, fun q _ => ⟨rfl, rfl⟩⟩
  | cons prv prest ih =>
    intro s v
    simp only [imdPrvsGo]
    split
    · exact ih s v
    · split
      · exact ih s v
      · next hskip1 hskip2 =>
        obtain ⟨c1, f1⟩ := hrec s prv.owner v
        obtain ⟨c2, f2⟩ := ih (rec s prv.owner v).1 (rec s prv.owner v).2
        refine ⟨CascRel.trans cfg u c1 c2, ?_⟩
        intro q hauto
        have hqt : q ≠ prv.owner := by
          intro he
          subst he
          rcases hcase : is_auto_installed (s.pkgSt prv.owner) with _ | _
          · simp [hcase] at hskip2
          · simp only [is_auto_installed] at hcase
            rw [hcase] at hauto
            exact Bool.true_eq_false.mp hauto
        obtain ⟨e1, e2⟩ := f1 q hqt hauto
        obtain ⟨g1, g2⟩ := f2 q (by rw [e1]; exact hauto)
        exact ⟨g1.trans e1, g2.trans e2⟩

/-- The dependency loop only performs cascade steps and, besides
Auto-flagged packages, touches nothing — provided each re-entry does
the same. -/
theorem imdDepsGo_casc (cfg : Config) (u : Univ)
    (rec : GState u.n → Fin u.n → Finset (Fin u.n) → GState u.n × Finset (Fin u.n))
    (hrec : ∀ s t v, CascRel cfg u s (rec s t v).1 ∧ NoAutoFrameEx u t s (rec s t v).1)
    (l : List (Dep u.n)) :
    ∀ s visited,
      CascRel cfg u s
        (imdDepsGo u rec cfg.keepRecommendsInstalled cfg.keepSuggestsInstalled
          l s visited).1 ∧
      NoAutoFrame u s
        (imdDepsGo u rec cfg.keepRecommendsInstalled cfg.keepSuggestsInstalled
          l s visited).1 := by
  induction l with
  | nil =>
    intro s v
    exact ⟨CascRel.refl cfg u s, fun q _ => ⟨rfl, rfl⟩⟩
  | cons d rest ih =>
    intro s v
    simp only [imdDepsGo]
    split
    · exact ih s v
    · split
      · obtain ⟨c1, f1⟩ := imdPrvsGo_casc cfg u rec d.target hrec
          (u.providesOfPkg d.target) s v
        obtain ⟨c2, f2⟩ := ih _ _
        refine ⟨CascRel.trans cfg u c1 c2, ?_⟩
        intro q hauto
        obtain ⟨e1, e2⟩ := f1 q hauto
        obtain ⟨g1, g2⟩ := f2 q (by rw [e1]; exact hauto)
        exact ⟨g1.trans e1, g2.trans e2⟩
      · split
        · exact ih s v
        · split
          · split
            · next hguard hcan =>
              obtain ⟨c1, f1⟩ := hrec s d.target v
              obtain ⟨c2, f2⟩ := ih (rec s d.target v).1 (rec s d.target v).2
              refine ⟨CascRel.trans cfg u c1 c2, ?_⟩
              intro q hauto
              have hqt : q ≠ d.target := by
                intro he
                subst he
                simp only [Bool.and_eq_true, is_auto_installed] at hguard
                rw [hguard.1.2] at hauto
                exact Bool.true_eq_false.mp hauto
              obtain ⟨e1, e2⟩ := f1 q hqt hauto
              obtain ⟨g1, g2⟩ := f2 q (by rw [e1]; exact hauto)
              exact ⟨g1.trans e1, g2.trans e2⟩
            · exact ih s v
          · exact ih s v

/-- Every re-entry of the cascading delete — which always carries the
policy purge flag and the unused marker — is a cascade step, and it
touches, besides its own argument, only Auto-flagged packages. -/
theorem imdAux_casc (cfg : Config) (u : Univ) (fuel : Nat) :
    ∀ (s : GState u.n) (p : Fin u.n) (visited : Finset (Fin u.n)),
      CascRel cfg u s (imdAux cfg u fuel s p cfg.purgeUnused true visited).1 ∧
      NoAutoFrameEx u p s (imdAux cfg u fuel s p cfg.purgeUnused true visited).1 := by
  induction fuel with
  | zero =>
    intro s p visited
    exact ⟨CascRel.refl cfg u s, fun q _ _ => ⟨rfl, rfl⟩⟩
  | succ fuel ih =>
    intro s p visited
    simp only [imdAux]
    split
    · exact ⟨CascRel.of_eq cfg u fun q => ⟨rfl, rfl⟩, fun q _ _ => ⟨rfl, rfl⟩⟩
    · split
      · exact ⟨core_casc cfg u s p, fun q hq _ => core_frame cfg u s p _ _ q hq⟩
      · split
        · exact ⟨core_casc cfg u s p, fun q hq _ => core_frame cfg u s p _ _ q hq⟩
        · split
          · exact ⟨core_casc cfg u s p, fun q hq _ => core_frame cfg u s p _ _ q hq⟩
          · obtain ⟨c2, f2⟩ := imdDepsGo_casc cfg u
              (fun s2 t v => imdAux cfg u fuel s2 t cfg.purgeUnused true v)
              (fun s2 t v => ih s2 t v) _
              (internal_mark_delete_core cfg u s p cfg.purgeUnused true)
              (insert p visited)
            refine ⟨CascRel.trans cfg u (core_casc cfg u s p) c2, ?_⟩
            intro q hq hauto
            obtain ⟨e1, e2⟩ := core_frame cfg u s p cfg.purgeUnused true q hq
            obtain ⟨g1, g2⟩ := f2 q (by rw [e1]; exact hauto)
            exact ⟨g1.trans e1, g2.trans e2⟩

/-- A visited set of packages can never exceed the package count. -/
theorem visited_card_le (u : Univ) (visited : Finset (Fin u.n)) :
    visited.card ≤ u.n := by
  simpa using Finset.card_le_univ visited

/-- The provider loop's visited set only grows. -/
theorem imdPrvsGo_visited_sub (u : Univ)
    (rec : GState u.n → Fin u.n → Finset (Fin u.n) → GState u.n × Finset (Fin u.n))
    (kr ks : Bool) (vp : Fin u.n)
    (hrec : ∀ s t v, v ⊆ (rec s t v).2) (prvs : List (Prv u.n)) :
    ∀ s visited, visited ⊆ (imdPrvsGo u rec kr ks vp prvs s visited).2 := by
  induction prvs with
  | nil => intro s v; simp [imdPrvsGo]
  | cons prv prest ih =>
    intro s v
    simp only [imdPrvsGo]
    split
    · exact ih s v
    · split
      · exact ih s v
      · exact fun x hx => ih _ _ (hrec s prv.owner v hx)

/-- The dependency loop's visited set only grows. -/
theorem imdDepsGo_visited_sub (u : Univ)
    (rec : GState u.n → Fin u.n → Finset (Fin u.n) → GState u.n × Finset (Fin u.n))
    (kr ks : Bool)
    (hrec : ∀ s t v, v ⊆ (rec s t v).2) (l : List (Dep u.n)) :
    ∀ s visited, visited ⊆ (imdDepsGo u rec kr ks l s visited).2 := by
  induction l with
  | nil => intro s v; simp [imdDepsGo]
  | cons d rest ih =>
    intro s v
    simp only [imdDepsGo]
    split
    · exact ih s v
    · split
      · exact fun x hx =>
          ih _ _ (imdPrvsGo_visited_sub u rec kr ks d.target hrec _ s v hx)
      · split
        · exact ih s v
        · split
          · split
            · exact fun x hx => ih _ _ (hrec s d.target v hx)
            · exact ih s v
          · exact ih s v

/-- The cascade's visited set only grows. -/
theorem imdAux_visited_sub (cfg : Config) (u : Univ) (fuel : Nat) :
    ∀ (s : GState u.n) (p : Fin u.n) (a b : Bool) (visited : Finset (Fin u.n)),
      visited ⊆ (imdAux cfg u fuel s p a b visited).2 := by
  induction fuel with
  | zero => intro s p a b v; simp [imdAux]
  | succ fuel ih =>
    intro s p a b v
    simp only [imdAux]
    split
    · simp
    · split
      · simp
      · split
        · simp
        · split
          · simp
          · exact fun x hx =>
              imdDepsGo_visited_sub u _ _ _
                (fun s2 t v2 => ih s2 t cfg.purgeUnused true v2) _ _ _
                (Finset.mem_insert_of_mem hx)

/-- The provider loop computes the same result under two re-entry
functions that agree above the starting visited set. -/
theorem imdPrvsGo_congr (u : Univ)
    (rec1 rec2 : GState u.n → Fin u.n → Finset (Fin u.n) → GState u.n × Finset (Fin u.n))
    (kr ks : Bool) (vp : Fin u.n) (w : Finset (Fin u.n))
    (hmono : ∀ s t v, v ⊆ (rec1 s t v).2)
    (hrec : ∀ s t v, w ⊆ v → rec1 s t v = rec2 s t v) (prvs : List (Prv u.n)) :
    ∀ s visited, w ⊆ visited →
      imdPrvsGo u rec1 kr ks vp prvs s visited =
        imdPrvsGo u rec2 kr ks vp prvs s visited := by
  induction prvs with
  | nil => intro s v _; rfl
  | cons prv prest ih =>
    intro s v hw
    simp only [imdPrvsGo]
    split
    · exact ih s v hw
    · split
      · exact ih s v hw
      · rw [← hrec s prv.owner v hw]
        exact ih _ _ (hw.trans (hmono s prv.owner v))

/-- The dependency loop computes the same result under two re-entry
functions that agree above the starting visited set. -/
theorem imdDepsGo_congr (u : Univ)
    (rec1 rec2 : GState u.n → Fin u.n → Finset (Fin u.n) → GState u.n × Finset (Fin u.n))
    (kr ks : Bool) (w : Finset (Fin u.n))
    (hmono : ∀ s t v, v ⊆ (rec1 s t v).2)
    (hrec : ∀ s t v, w ⊆ v → rec1 s t v = rec2 s t v) (l : List (Dep u.n)) :
    ∀ s visited, w ⊆ visited →
      imdDepsGo u rec1 kr ks l s visited = imdDepsGo u rec2 kr ks l s visited := by
  induction l with
  | nil => intro s v _; rfl
  | cons d rest ih =>
    intro s v hw
    simp only [imdDepsGo]
    split
    · exact ih s v hw
    · split
      · rw [← imdPrvsGo_congr u rec1 rec2 kr ks d.target w hmono hrec _ s v hw]
        exact ih _ _
          (hw.trans (imdPrvsGo_visited_sub u rec1 kr ks d.target hmono _ s v))
      · split
        · exact ih s v hw
        · split
          · split
            · rw [← hrec s d.target v hw]
              exact ih _ _ (hw.trans (hmono s d.target v))
            · exact ih s v hw
          · exact ih s v hw

/-- Any two fuels beyond the visited-set headroom compute the same
result: the depth of re-entries is bounded by the number of packages
not yet visited, which is what the per-call visited set enforces. -/
theorem imdAux_fuel_eq (cfg : Config) (u : Univ) :
    ∀ (f g : Nat) (s : GState u.n) (p : Fin u.n) (a b : Bool)
      (visited : Finset (Fin u.n)),
      u.n < visited.card + f → u.n < visited.card + g →
      imdAux cfg u f s p a b visited = imdAux cfg u g s p a b visited := by
  intro f
  induction f with
  | zero =>
    intro g s p a b v hf _
    exact absurd hf (by have := visited_card_le u v; omega)
  | succ f ih =>
    intro g s p a b v hf hg
    match g with
    | 0 => exact absurd hg (by have := visited_card_le u v; omega)
    | g + 1 =>
      simp only [imdAux]
      split
      · rfl
      · split
        · rfl
        · split
          · rfl
          · split
            · rfl
            · next hmem =>
              refine imdDepsGo_congr u _ _ _ _ (insert p v)
                (fun s2 t v2 => imdAux_visited_sub cfg u f s2 t _ _ v2)
                (fun s2 t v2 hsub => ?_) _ _ _ (by intro x hx; exact hx)
              have hcard : v.card + 1 ≤ v2.card := by
                have h1 := Finset.card_le_card hsub
                rwa [Finset.card_insert_of_not_mem hmem] at h1
              exact ih g s2 t cfg.purgeUnused true v2 (by omega) (by omega)

/-! ## Claim C8 -/

/-- The self-removal guard's condition is false for any other
package. -/
theorem self_check_false (u : Univ) (p : Fin u.n)
    (hself : ¬(is_installed u p ∧ u.name p = "aptitude")) :
    (decide (is_installed u p) && (u.name p == "aptitude")) = false := by
  by_cases h1 : is_installed u p <;> by_cases h2 : u.name p = "aptitude" <;>
    simp_all

/-- C8 (amended): the marking block of `internal_mark_delete` stamps
`remove_reason` (to `unused` under the unused flag, else `manual`) only
on the first transition into Delete — an already-deleted package keeps
its reason — and forces the purge under the purge-unused policy, with
`selection_state` Purge exactly when purging and DeInstall otherwise;
after the whole call (including the unused-removal cascade, which may
revisit the package through a dependency cycle and overwrite the purge
flag and selection state) the package is still scheduled for deletion
and its `remove_reason` still obeys the first-transition rule. -/
theorem internal_mark_delete_marking (cfg : Config) (u : Univ) (s : GState u.n)
    (p : Fin u.n) (purge un : Bool)
    (hself : ¬(is_installed u p ∧ u.name p = "aptitude")) :
    ((internal_mark_delete_core cfg u s p purge un).extSt p).removeReason =
      (if (s.pkgSt p).mode = modeDelete then (s.extSt p).removeReason
       else if un then ChangedReason.unused else ChangedReason.manual) ∧
    ((internal_mark_delete_core cfg u s p purge un).pkgSt p).mode = modeDelete ∧
    ((internal_mark_delete_core cfg u s p purge un).pkgSt p).iPurge =
      (if un && cfg.purgeUnused then true else purge) ∧
    ((internal_mark_delete_core cfg u s p purge un).extSt p).selectionState =
      (if (if un && cfg.purgeUnused then true else purge) then SelState.purge
       else SelState.deinstall) ∧
    ((internal_mark_delete cfg u s p purge un).extSt p).removeReason =
      (if (s.pkgSt p).mode = modeDelete then (s.extSt p).removeReason
       else if un then ChangedReason.unused else ChangedReason.manual) ∧
    ((internal_mark_delete cfg u s p purge un).pkgSt p).mode = modeDelete := by
  obtain ⟨hc1, hc2⟩ := core_at cfg u s p purge un
  have hcore : ((internal_mark_delete_core cfg u s p purge un).extSt p).removeReason =
      (if (s.pkgSt p).mode = modeDelete then (s.extSt p).removeReason
       else if un then ChangedReason.unused else ChangedReason.manual) := by
    rw [hc2]
  have hfull : ((internal_mark_delete cfg u s p purge un).extSt p).removeReason =
      ((internal_mark_delete_core cfg u s p purge un).extSt p).removeReason ∧
      ((internal_mark_delete cfg u s p purge un).pkgSt p).mode = modeDelete := by
    unfold internal_mark_delete
    simp only [imdAux, self_check_false u p hself, Bool.false_eq_true, if_false]
    split
    · exact ⟨rfl, by rw [hc1]⟩
    · split
      · exact ⟨rfl, by rw [hc1]⟩
      · next vi hcv =>
        split
        · next hmem => exact absurd hmem (Finset.not_mem_empty p)
        · have hcasc := (imdDepsGo_casc cfg u
            (fun s2 t v => imdAux cfg u u.n s2 t cfg.purgeUnused true v)
            (fun s2 t v => imdAux_casc cfg u u.n s2 t v) (u.depsOfVer p vi)
            (internal_mark_delete_core cfg u s p purge un)
            (insert p (∅ : Finset (Fin u.n)))).1 p
          obtain ⟨_, hrel⟩ := hcasc
          rcases hrel with ⟨hm, hr, _⟩ | ⟨hnd, _, _, _, _⟩
          · refine ⟨hr, ?_⟩
            rw [hm, hc1]
          · rw [hc1] at hnd
            exact absurd rfl hnd
  exact ⟨hcore, by rw [hc1], by rw [hc1], by rw [hc2], hfull.1.trans hcore, hfull.2⟩

/-- Witness for the amended C8 at a concrete fresh deletion. -/
theorem internal_mark_delete_marking_witness :
    ¬(is_installed (plainUniv 1) 0 ∧ (plainUniv 1).name 0 = "aptitude") ∧
    ((internal_mark_delete defaultConfig (plainUniv 1) (plainState 1) 0 false
        true).extSt 0).removeReason = ChangedReason.unused :=
  ⟨by decide, by
    have h := (internal_mark_delete_marking defaultConfig (plainUniv 1)
      (plainState 1) 0 false true (by decide)).2.2.2.2.1
    rw [h]
    decide⟩

/-- The two-package dependency cycle used against C8 as frozen. -/
@[reducible] def c8Univ : Univ :=
  { plainUniv 2 with
    deps := [⟨depends, 0, 0, 1, 0, ""⟩, ⟨depends, 1, 0, 0, 0, ""⟩] }

/-- Both packages installed, Keep mode and Auto-flagged. -/
@[reducible] def c8State : GState 2 :=
  { plainState 2 with
    pkgSt := fun _ => { defaultPkgSt with autoFlag := true } }

/-- Counterexample for C8 as frozen: deleting package 0 with
`purge = true` over a dependency cycle of removable auto-installed
packages ends with package 0's purge flag cleared and
`selection_state = DeInstall`, not Purge, because the cascade revisits
it with the policy arguments. -/
theorem mark_delete_cycle_overwrites_purge :
    (c8State.pkgSt 0).mode ≠ modeDelete ∧
    defaultConfig.purgeUnused = false ∧
    ((internal_mark_delete defaultConfig c8Univ c8State 0 true false).pkgSt
        0).iPurge = false ∧
    ((internal_mark_delete defaultConfig c8Univ c8State 0 true false).extSt
        0).selectionState = SelState.deinstall := by
  refine ⟨by decide, rfl, by decide, by decide⟩

/-! ## Claim C3 -/

/-- Processing a concatenated dependency list processes the first part
and continues with the second on the threaded state. -/
theorem imdDepsGo_append (u : Univ)
    (rec : GState u.n → Fin u.n → Finset (Fin u.n) → GState u.n × Finset (Fin u.n))
    (kr ks : Bool) (l₁ l₂ : List (Dep u.n)) :
    ∀ s visited,
      imdDepsGo u rec kr ks (l₁ ++ l₂) s visited =
        imdDepsGo u rec kr ks l₂ (imdDepsGo u rec kr ks l₁ s visited).1
          (imdDepsGo u rec kr ks l₁ s visited).2 := by
  induction l₁ with
  | nil => intro s v; rfl
  | cons d rest ih =>
    intro s v
    simp only [List.cons_append, imdDepsGo]
    split
    · exact ih _ _
    · split
      · exact ih _ _
      · split
        · exact ih _ _
        · split
          · split
            · exact ih _ _
            · exact ih _ _
          · exact ih _ _

/-- Package `B` is scheduled as a policy-shaped unused deletion. -/
def BDoneAt (cfg : Config) (u : Univ) (B : Fin u.n) (t : GState u.n) : Prop :=
  (t.pkgSt B).mode = modeDelete ∧
  (t.extSt B).removeReason = ChangedReason.unused ∧
  (t.pkgSt B).iPurge = cfg.purgeUnused ∧
  (t.extSt B).selectionState = unusedShape cfg

/-- A policy-shaped unused deletion survives any further cascade
steps. -/
theorem BDoneAt_casc (cfg : Config) (u : Univ) {B : Fin u.n} {t r : GState u.n}
    (h : BDoneAt cfg u B t) (hc : CascRel cfg u t r) : BDoneAt cfg u B r := by
  obtain ⟨hm, hr, hp, hs⟩ := h
  obtain ⟨_, hrel⟩ := hc B
  rcases hrel with ⟨m1, r1, sub⟩ | ⟨nd, _, _, _, _⟩
  · refine ⟨m1.trans hm, r1.trans hr, ?_, ?_⟩
    · rcases sub with ⟨p1, _⟩ | ⟨_, p1, _⟩
      · exact p1.trans hp
      · exact p1
    · rcases sub with ⟨_, s1⟩ | ⟨_, _, s1⟩
      · exact s1.trans hs
      · exact s1
  · exact absurd hm nd

/-- Delete mode survives cascade steps. -/
theorem mode_delete_casc (cfg : Config) (u : Univ) {s t : GState u.n}
    (hc : CascRel cfg u s t) (q : Fin u.n)
    (h : (s.pkgSt q).mode = modeDelete) : (t.pkgSt q).mode = modeDelete := by
  obtain ⟨_, hrel⟩ := hc q
  rcases hrel with ⟨m1, _, _⟩ | ⟨nd, _, _, _, _⟩
  · exact m1.trans h
  · exact absurd h nd

/-- A package that neither remains installed nor will be installed
stays that way across cascade steps (which only introduce
deletions). -/
theorem remainOrWill_false_casc (cfg : Config) (u : Univ) {s t : GState u.n}
    (hc : CascRel cfg u s t) (q : Fin u.n)
    (h : remainOrWillB u s q = false) : remainOrWillB u t q = false := by
  obtain ⟨_, hrel⟩ := hc q
  unfold remainOrWillB at h ⊢
  rcases hrel with ⟨m1, _, _⟩ | ⟨_, m1, _, _, _⟩
  · rw [m1]; exact h
  · rw [m1]; simp

/-- A deleted package neither remains installed nor will be
installed. -/
theorem remainOrWill_false_of_delete (u : Univ) {s : GState u.n} (q : Fin u.n)
    (h : (s.pkgSt q).mode = modeDelete) : remainOrWillB u s q = false := by
  unfold remainOrWillB
  rw [h]
  simp

/-- A freshly visible package stays fresh or becomes a policy-shaped
unused deletion across cascade steps. -/
theorem fresh_or_done_casc (cfg : Config) (u : Univ) {s t : GState u.n}
    (hc : CascRel cfg u s t) (B : Fin u.n)
    (h : (s.pkgSt B).mode ≠ modeDelete) :
    (t.pkgSt B).mode ≠ modeDelete ∨ BDoneAt cfg u B t := by
  obtain ⟨_, hrel⟩ := hc B
  rcases hrel with ⟨m1, _, _⟩ | ⟨_, m2, r2, p2, s2⟩
  · exact Or.inl (fun hd => h (m1.symm.trans hd))
  · exact Or.inr ⟨m2, r2, p2, s2⟩

/-- Entering the cascade on `B` with the policy arguments leaves `B` a
policy-shaped unused deletion, provided `B` is not the protected
aptitude package and was not already manually deleted. -/
theorem imdAux_establishes_BDone (cfg : Config) (u : Univ) (fuel : Nat)
    (w : GState u.n) (B : Fin u.n) (visited : Finset (Fin u.n))
    (hfuel : fuel ≠ 0)
    (hname : ¬(is_installed u B ∧ u.name B = "aptitude"))
    (hstart : (w.pkgSt B).mode ≠ modeDelete ∨ BDoneAt cfg u B w) :
    BDoneAt cfg u B (imdAux cfg u fuel w B cfg.purgeUnused true visited).1 := by
  match fuel with
  | 0 => exact absurd rfl hfuel
  | fuel + 1 =>
    have hcoreP := core_at cfg u w B cfg.purgeUnused true
    have hshape : (if (true && cfg.purgeUnused) = true then true else cfg.purgeUnused)
        = cfg.purgeUnused := by
      cases cfg.purgeUnused <;> simp
    have hcoreDone : BDoneAt cfg u B
        (internal_mark_delete_core cfg u w B cfg.purgeUnused true) := by
      refine ⟨by rw [hcoreP.1], ?_, by rw [hcoreP.1]; simp [hshape], ?_⟩
      · rw [hcoreP.2]
        rcases hstart with hfresh | hdone
        · simp [hfresh]
        · simp [hdone.1, hdone.2.1]
      · rw [hcoreP.2]
        simp only [unusedShape]
        cases cfg.purgeUnused <;> simp
    simp only [imdAux, self_check_false u B hname, Bool.false_eq_true, if_false]
    split
    · exact hcoreDone
    · split
      · exact hcoreDone
      · split
        · exact hcoreDone
        · exact BDoneAt_casc cfg u hcoreDone
            (imdDepsGo_casc cfg u
              (fun s2 t v => imdAux cfg u fuel s2 t cfg.purgeUnused true v)
              (fun s2 t v => imdAux_casc cfg u fuel s2 t v) _ _ _).1

/-- C3 (amended): if package A's current version has a critical
(Depends/PreDepends) dependency on B, B's current version is installed
and from an automatic source, B is marked Auto, B is neither
Essential/Important nor Required/Important priority, B is not already
scheduled for deletion, and no reverse dependency of B other than A is
a package that remains installed or will be installed, then deleting A
under the delete-unused policy also schedules B for deletion with
remove_reason unused (purged exactly under the purge-unused policy);
moreover the per-top-level-call visited set bounds the recursion:
beyond u.n any fuel computes the same, so the recursion terminates on
dependency cycles. -/
theorem cascading_delete_unused (cfg : Config) (u : Univ) (s : GState u.n)
    (A : Fin u.n) (d : Dep u.n) (purge un : Bool) (avi bi : Nat)
    (hAB : A ≠ d.target)
    (hselfA : ¬(is_installed u A ∧ u.name A = "aptitude"))
    (hnameB : ¬(is_installed u d.target ∧ u.name d.target = "aptitude"))
    (hcfg : cfg.deleteUnused = true)
    (hcurA : u.curVer A = some avi)
    (hd : d ∈ u.depsOfVer A avi)
    (hdt : d.dtype = depends ∨ d.dtype = preDepends)
    (hcurB : u.curVer d.target = some bi)
    (hnumB : 0 < u.numVers d.target)
    (hinstB : is_installed u d.target)
    (hautoB : (s.pkgSt d.target).autoFlag = true)
    (hautomatic : (u.vers d.target bi).automatic = true)
    (hess : u.essential d.target = false) (himp : u.important d.target = false)
    (hprioR : (u.vers d.target bi).priorityRequired = false)
    (hprioI : (u.vers d.target bi).priorityImportant = false)
    (hBnotdel : (s.pkgSt d.target).mode ≠ modeDelete)
    (hnoRev : ∀ rd ∈ u.revDeps d.target,
       considerDepType rd.dtype cfg.keepRecommendsInstalled
         cfg.keepSuggestsInstalled = true →
       rd.parentPkg ≠ A → remainOrWillB u s rd.parentPkg = false) :
    ((internal_mark_delete cfg u s A purge un).pkgSt d.target).mode = modeDelete ∧
    ((internal_mark_delete cfg u s A purge un).extSt d.target).removeReason =
      ChangedReason.unused ∧
    ((internal_mark_delete cfg u s A purge un).pkgSt d.target).iPurge =
      cfg.purgeUnused ∧
    ((internal_mark_delete cfg u s A purge un).extSt d.target).selectionState =
      unusedShape cfg ∧
    (∀ f g, u.n < f → u.n < g →
      imdAux cfg u f s A purge un ∅ = imdAux cfg u g s A purge un ∅) := by
  have hstab : ∀ f g, u.n < f → u.n < g →
      imdAux cfg u f s A purge un ∅ = imdAux cfg u g s A purge un ∅ := by
    intro f g hf hg
    exact imdAux_fuel_eq cfg u f g s A purge un ∅ (by simpa using hf)
      (by simpa using hg)
  have hmain : BDoneAt cfg u d.target (internal_mark_delete cfg u s A purge un) := by
    unfold internal_mark_delete
    simp only [imdAux, self_check_false u A hselfA, Bool.false_eq_true, if_false,
      hcfg, Bool.not_true, hcurA, Finset.not_mem_empty, if_false]
    obtain ⟨l₁, l₂, hsplit⟩ := List.append_of_mem hd
    rw [hsplit, imdDepsGo_append]
    set s1 := internal_mark_delete_core cfg u s A purge un with hs1
    set rec := fun (s2 : GState u.n) (t : Fin u.n) (v : Finset (Fin u.n)) =>
      imdAux cfg u u.n s2 t cfg.purgeUnused true v with hrec
    have hrecP : ∀ s2 t v, CascRel cfg u s2 (rec s2 t v).1 ∧
        NoAutoFrameEx u t s2 (rec s2 t v).1 :=
      fun s2 t v => imdAux_casc cfg u u.n s2 t v
    set kr := cfg.keepRecommendsInstalled
    set ks := cfg.keepSuggestsInstalled
    set mid := imdDepsGo u rec kr ks l₁ s1 (insert A ∅) with hmid
    have hc1 : CascRel cfg u s1 mid.1 :=
      (imdDepsGo_casc cfg u rec hrecP l₁ s1 (insert A ∅)).1
    -- B's state at the split point
    have hframeB : s1.pkgSt d.target = s.pkgSt d.target ∧
        s1.extSt d.target = s.extSt d.target :=
      core_frame cfg u s A purge un d.target (fun h => hAB h.symm)
    have hAdel : (s1.pkgSt A).mode = modeDelete := by
      rw [(core_at cfg u s A purge un).1]
    -- the conditions at the head of the remaining list
    have hcons : considerDepType d.dtype kr ks = true := by
      rcases hdt with h | h <;> simp [considerDepType, h]
    have hvirt : is_virtual u d.target = false := by
      simp only [is_virtual]
      have : ¬u.numVers d.target = 0 := by omega
      simp [this]
    have hauto1 : is_auto_installed (mid.1.pkgSt d.target) = true := by
      have := (hc1 d.target).1
      simp only [is_auto_installed]
      rw [this, hframeB.1, hautoB]
    have hguard : (decide (is_installed u d.target) &&
        is_auto_installed (mid.1.pkgSt d.target) &&
        !(u.essential d.target || u.important d.target ||
          (u.vers d.target bi).priorityRequired ||
          (u.vers d.target bi).priorityImportant)) = true := by
      simp [hinstB, hauto1, hess, himp, hprioR, hprioI]
    have hcan : can_remove_autoinstalled u mid.1 d.target kr ks = true := by
      unfold can_remove_autoinstalled
      rw [hvirt]
      simp only [Bool.false_eq_true, if_false, hcurB]
      rw [if_neg (by simp)]
      rw [hautomatic]
      simp only [Bool.not_true, Bool.false_eq_true, if_false]
      have hany : ((u.revDeps d.target).any fun rd =>
          considerDepType rd.dtype kr ks && remainOrWillB u mid.1 rd.parentPkg)
          = false := by
        rw [List.any_eq_false]
        intro rd hrd
        by_cases ht : considerDepType rd.dtype kr ks = true
        · by_cases hpa : rd.parentPkg = A
          · have : remainOrWillB u mid.1 rd.parentPkg = false := by
              rw [hpa]
              exact remainOrWill_false_of_delete u A
                (mode_delete_casc cfg u hc1 A hAdel)
            simp [this]
          · have hbase : remainOrWillB u s rd.parentPkg = false :=
              hnoRev rd hrd ht hpa
            have hs1eq : remainOrWillB u s1 rd.parentPkg = false := by
              unfold remainOrWillB at hbase ⊢
              rw [(core_frame cfg u s A purge un rd.parentPkg hpa).1]
              exact hbase
            have : remainOrWillB u mid.1 rd.parentPkg = false :=
              remainOrWill_false_casc cfg u hc1 rd.parentPkg hs1eq
            simp [this]
        · simp [Bool.eq_false_iff.mpr ht]
      rw [hany]
      rfl
    -- step through the head of the list
    simp only [imdDepsGo, hcons, Bool.not_true, Bool.false_eq_true, if_false,
      hvirt, hcurB, hguard, hcan, if_true]
    -- the recursive entry on B establishes the unused deletion
    have hBfresh : (mid.1.pkgSt d.target).mode ≠ modeDelete ∨
        BDoneAt cfg u d.target mid.1 := by
      refine fresh_or_done_casc cfg u hc1 d.target ?_
      rw [hframeB.1]
      exact hBnotdel
    have hBcall : BDoneAt cfg u d.target (rec mid.1 d.target mid.2).1 := by
      rw [hrec]
      exact imdAux_establishes_BDone cfg u u.n mid.1 d.target mid.2
        (by have := d.target.pos; omega) hnameB hBfresh
    exact BDoneAt_casc cfg u hBcall
      (imdDepsGo_casc cfg u rec hrecP l₂ _ _).1
  exact ⟨hmain.1, hmain.2.1, hmain.2.2.1, hmain.2.2.2, hstab⟩

/-- Two packages where 0 Depends on 1. -/
@[reducible] def c3Univ : Univ :=
  { plainUniv 2 with deps := [⟨depends, 0, 0, 1, 0, ""⟩] }

/-- Package 1 is installed, Keep and Auto-flagged. -/
@[reducible] def c3State : GState 2 :=
  { plainState 2 with
    pkgSt := fun q => if q = 1 then { defaultPkgSt with autoFlag := true }
                      else defaultPkgSt }

theorem cascading_delete_unused_witness :
    ((internal_mark_delete defaultConfig c3Univ c3State 0 false false).pkgSt
        1).mode = modeDelete ∧
    ((internal_mark_delete defaultConfig c3Univ c3State 0 false false).extSt
        1).removeReason = ChangedReason.unused ∧
    ((internal_mark_delete defaultConfig c3Univ c3State 0 false false).pkgSt
        1).iPurge = false ∧
    ((internal_mark_delete defaultConfig c3Univ c3State 0 false false).extSt
        1).selectionState = unusedShape defaultConfig ∧
    imdAux defaultConfig c3Univ 3 c3State 0 false false ∅ =
      imdAux defaultConfig c3Univ 4 c3State 0 false false ∅ :=
  have h := cascading_delete_unused defaultConfig c3Univ c3State 0
    ⟨depends, 0, 0, 1, 0, ""⟩ false false 0 0
    (by decide) (by decide) (by decide) (by decide) (by decide) (by decide)
    (by decide) (by decide) (by decide) (by decide) (by decide) (by decide)
    (by decide) (by decide) (by decide) (by decide) (by decide) (by decide)
  ⟨h.1, h.2.1, h.2.2.1, h.2.2.2.1, h.2.2.2.2 3 4 (by decide) (by decide)⟩

/-- Package 1 already scheduled for deletion with a manual reason. -/
@[reducible] def c3badState : GState 2 :=
  { plainState 2 with
    pkgSt := fun q => if q = 1 then
        { defaultPkgSt with autoFlag := true, mode := modeDelete }
      else defaultPkgSt }

/-- Counterexample for C3 as frozen: package 1 satisfies every condition
of the claim (installed, Auto-flagged, automatic source, not
Essential/Important, its only reverse dependency is the deleted package
0, delete-unused enabled), but because it was already scheduled for
deletion its `remove_reason` stays `manual` instead of becoming
`unused`. -/
theorem cascade_keeps_manual_reason :
    defaultConfig.deleteUnused = true ∧
    (c3badState.pkgSt 1).autoFlag = true ∧
    ((internal_mark_delete defaultConfig c3Univ c3badState 0 false false).pkgSt
        1).mode = modeDelete ∧
    ((internal_mark_delete defaultConfig c3Univ c3badState 0 false false).extSt
        1).removeReason = ChangedReason.manual := by
  refine ⟨rfl, rfl, by decide, by decide⟩

/-! ## Claim C5 -/

@[simp] theorem setPkg_groupLevel {n : Nat} (s : GState n) (p : Fin n) (st : PkgSt) :
    (s.setPkg p st).groupLevel = s.groupLevel := rfl

@[simp] theorem setExt_groupLevel {n : Nat} (s : GState n) (p : Fin n) (st : ExtSt) :
    (s.setExt p st).groupLevel = s.groupLevel := rfl

@[simp] theorem MarkAuto_groupLevel {n : Nat} (s : GState n) (p : Fin n) (b : Bool) :
    (MarkAuto s p b).groupLevel = s.groupLevel := rfl

@[simp] theorem MarkKeep_groupLevel {n : Nat} (s : GState n) (p : Fin n) (a b : Bool) :
    (MarkKeep s p a b).groupLevel = s.groupLevel := rfl

@[simp] theorem MarkInstall_groupLevel {n : Nat} (s : GState n) (p : Fin n) (b : Bool) :
    (MarkInstall s p b).groupLevel = s.groupLevel := rfl

@[simp] theorem MarkDelete_groupLevel {n : Nat} (s : GState n) (p : Fin n) (b : Bool) :
    (MarkDelete s p b).groupLevel = s.groupLevel := rfl

@[simp] theorem SetReInstall_groupLevel {n : Nat} (s : GState n) (p : Fin n) (b : Bool) :
    (SetReInstall s p b).groupLevel = s.groupLevel := rfl

@[simp] theorem SetCandidateVersion_groupLevel {n : Nat} (s : GState n) (p : Fin n)
    (v : Option Nat) :
    (SetCandidateVersion s p v).groupLevel = s.groupLevel := rfl

@[simp] theorem MarkAndSweepExt_groupLevel (u : Univ) (s : GState u.n) :
    (MarkAndSweepExt u s).groupLevel = s.groupLevel := rfl

@[simp] theorem ite_groupLevel {n : Nat} (c : Prop) [Decidable c] (a b : GState n) :
    (if c then a else b).groupLevel = if c then a.groupLevel else b.groupLevel := by
  split_ifs <;> rfl

/-- `set_candidate_version` never changes the group level. -/
@[simp] theorem scv_groupLevel (cfg : Config) (u : Univ) (s : GState u.n)
    (p : Fin u.n) (v : Option Nat) :
    (set_candidate_version cfg u s p v).groupLevel = s.groupLevel := by
  unfold set_candidate_version
  cases v with
  | none => split_ifs <;> rfl
  | some vi => split_ifs <;> simp

/-- The marking block never changes the group level. -/
theorem core_groupLevel (cfg : Config) (u : Univ) (s : GState u.n) (p : Fin u.n)
    (purge un : Bool) :
    (internal_mark_delete_core cfg u s p purge un).groupLevel = s.groupLevel := rfl

/-- The provider loop never changes the group level, provided each
re-entry does not. -/
theorem imdPrvsGo_groupLevel (u : Univ)
    (rec : GState u.n → Fin u.n → Finset (Fin u.n) → GState u.n × Finset (Fin u.n))
    (kr ks : Bool) (vp : Fin u.n)
    (hrec : ∀ s t v, ((rec s t v).1).groupLevel = s.groupLevel)
    (prvs : List (Prv u.n)) :
    ∀ s visited, (imdPrvsGo u rec kr ks vp prvs s visited).1.groupLevel =
      s.groupLevel := by
  induction prvs with
  | nil => intro s v; rfl
  | cons prv rest ih =>
    intro s v
    simp only [imdPrvsGo]
    split
    · exact ih s v
    · split
      · exact ih s v
      · rw [ih _ _, hrec]

/-- The dependency loop never changes the group level, provided each
re-entry does not. -/
theorem imdDepsGo_groupLevel (u : Univ)
    (rec : GState u.n → Fin u.n → Finset (Fin u.n) → GState u.n × Finset (Fin u.n))
    (kr ks : Bool)
    (hrec : ∀ s t v, ((rec s t v).1).groupLevel = s.groupLevel)
    (l : List (Dep u.n)) :
    ∀ s visited, (imdDepsGo u rec kr ks l s visited).1.groupLevel =
      s.groupLevel := by
  induction l with
  | nil => intro s v; rfl
  | cons d rest ih =>
    intro s v
    simp only [imdDepsGo]
    split
    · exact ih s v
    · split
      · rw [ih _ _, imdPrvsGo_groupLevel u rec kr ks _ hrec _ _ _]
      · split
        · exact ih s v
        · split
          · split
            · rw [ih _ _, hrec]
            · exact ih s v
          · exact ih s v

/-- The delete cascade never changes the group level. -/
theorem imdAux_groupLevel (cfg : Config) (u : Univ) :
    ∀ (fuel : Nat) (s : GState u.n) (p : Fin u.n) (pu un : Bool)
      (visited : Finset (Fin u.n)),
      (imdAux cfg u fuel s p pu un visited).1.groupLevel = s.groupLevel := by
  intro fuel
  induction fuel with
  | zero => intro s p pu un v; rfl
  | succ fuel ih =>
    intro s p pu un v
    simp only [imdAux]
    split
    · rfl
    · split
      · exact core_groupLevel cfg u s p pu un
      · split
        · exact core_groupLevel cfg u s p pu un
        · split
          · exact core_groupLevel cfg u s p pu un
          · rw [imdDepsGo_groupLevel u _ _ _
              (fun s2 t v2 => ih s2 t cfg.purgeUnused true v2) _ _ _]
            exact core_groupLevel cfg u s p pu un

/-- `internal_mark_delete` never changes the group level. -/
theorem imd_groupLevel (cfg : Config) (u : Univ) (s : GState u.n) (p : Fin u.n)
    (purge un : Bool) :
    (internal_mark_delete cfg u s p purge un).groupLevel = s.groupLevel :=
  imdAux_groupLevel cfg u (u.n + 1) s p purge un ∅

/-- The provider loop leaves every non-Auto package untouched, provided
each re-entry is a well-behaved cascade step. -/
theorem imdPrvsGo_frame_nonauto (cfg : Config) (u : Univ)
    (rec : GState u.n → Fin u.n → Finset (Fin u.n) → GState u.n × Finset (Fin u.n))
    (kr ks : Bool) (vp : Fin u.n)
    (hrec : ∀ s t v, CascRel cfg u s (rec s t v).1 ∧
      NoAutoFrameEx u t s (rec s t v).1)
    (prvs : List (Prv u.n)) :
    ∀ s visited (q : Fin u.n), (s.pkgSt q).autoFlag = false →
      (imdPrvsGo u rec kr ks vp prvs s visited).1.pkgSt q = s.pkgSt q ∧
      (imdPrvsGo u rec kr ks vp prvs s visited).1.extSt q = s.extSt q := by
  induction prvs with
  | nil => intro s v q hq; exact ⟨rfl, rfl⟩
  | cons prv rest ih =>
    intro s v q hq
    simp only [imdPrvsGo]
    split
    · exact ih s v q hq
    · split
      · exact ih s v q hq
      · next hgu =>
        have hown : is_auto_installed (s.pkgSt prv.owner) = true := by
          rcases Bool.eq_false_or_eq_true (is_auto_installed (s.pkgSt prv.owner))
            with h | h
          · exact h
          · exact absurd (by simp [h]) hgu
        have hne : q ≠ prv.owner := by
          intro he
          rw [he] at hq
          simp only [is_auto_installed] at hown
          rw [hq] at hown
          exact Bool.noConfusion hown
        obtain ⟨f1, f2⟩ := (hrec s prv.owner v).2 q hne hq
        have hq2 : ((rec s prv.owner v).1.pkgSt q).autoFlag = false := by
          rw [f1]; exact hq
        obtain ⟨g1, g2⟩ := ih (rec s prv.owner v).1 (rec s prv.owner v).2 q hq2
        exact ⟨g1.trans f1, g2.trans f2⟩

/-- The dependency loop leaves every non-Auto package untouched,
provided each re-entry is a well-behaved cascade step. -/
theorem imdDepsGo_frame_nonauto (cfg : Config) (u : Univ)
    (rec : GState u.n → Fin u.n → Finset (Fin u.n) → GState u.n × Finset (Fin u.n))
    (kr ks : Bool)
    (hrec : ∀ s t v, CascRel cfg u s (rec s t v).1 ∧
      NoAutoFrameEx u t s (rec s t v).1)
    (l : List (Dep u.n)) :
    ∀ s visited (q : Fin u.n), (s.pkgSt q).autoFlag = false →
      (imdDepsGo u rec kr ks l s visited).1.pkgSt q = s.pkgSt q ∧
      (imdDepsGo u rec kr ks l s visited).1.extSt q = s.extSt q := by
  induction l with
  | nil => intro s v q hq; exact ⟨rfl, rfl⟩
  | cons d rest ih =>
    intro s v q hq
    simp only [imdDepsGo]
    split
    · exact ih s v q hq
    · split
      · obtain ⟨f1, f2⟩ := imdPrvsGo_frame_nonauto cfg u rec kr ks d.target hrec
          (u.providesOfPkg d.target) s v q hq
        have hq2 := f1 ▸ hq
        obtain ⟨g1, g2⟩ := ih _ _ q hq2
        exact ⟨g1.trans f1, g2.trans f2⟩
      · split
        · exact ih s v q hq
        · split
          · next hg =>
            split
            · have htar : (s.pkgSt d.target).autoFlag = true := by
                simp only [Bool.and_eq_true, is_auto_installed] at hg
                exact hg.1.2
              have hne : q ≠ d.target := by
                intro he
                rw [he] at hq
                rw [hq] at htar
                exact Bool.noConfusion htar
              obtain ⟨f1, f2⟩ := (hrec s d.target v).2 q hne hq
              have hq2 : ((rec s d.target v).1.pkgSt q).autoFlag = false := by
                rw [f1]; exact hq
              obtain ⟨g1, g2⟩ := ih (rec s d.target v).1 (rec s d.target v).2 q hq2
              exact ⟨g1.trans f1, g2.trans f2⟩
            · exact ih s v q hq
          · exact ih s v q hq

/-- When the deleted package itself is not Auto-flagged, the cascade
never revisits it: after the whole call its state is exactly the
marking block's output. -/
theorem imd_at_nonauto (cfg : Config) (u : Univ) (s : GState u.n) (p : Fin u.n)
    (purge un : Bool)
    (hself : ¬(is_installed u p ∧ u.name p = "aptitude"))
    (hauto : (s.pkgSt p).autoFlag = false) :
    (internal_mark_delete cfg u s p purge un).pkgSt p =
      (internal_mark_delete_core cfg u s p purge un).pkgSt p ∧
    (internal_mark_delete cfg u s p purge un).extSt p =
      (internal_mark_delete_core cfg u s p purge un).extSt p := by
  unfold internal_mark_delete
  simp only [imdAux, self_check_false u p hself, Bool.false_eq_true, if_false]
  split
  · exact ⟨rfl, rfl⟩
  · split
    · exact ⟨rfl, rfl⟩
    · split
      · exact ⟨rfl, rfl⟩
      · have hcauto : ((internal_mark_delete_core cfg u s p purge un).pkgSt
            p).autoFlag = false := by
          rw [(core_at cfg u s p purge un).1]
          exact hauto
        exact imdDepsGo_frame_nonauto cfg u
          (fun s2 t v => imdAux cfg u u.n s2 t cfg.purgeUnused true v)
          cfg.keepRecommendsInstalled cfg.keepSuggestsInstalled
          (fun s2 t v => imdAux_casc cfg u u.n s2 t v) _ _ _ p hcauto

/-- `internal_mark_install`: resulting mode, selection state and group
level at the target package. -/
theorem imi_fields (u : Univ) (s : GState u.n) (p : Fin u.n)
    (autoInst reInst : Bool) :
    ((internal_mark_install u s p autoInst reInst).pkgSt p).mode =
      (if reInst then modeKeep else modeInstall) ∧
    ((internal_mark_install u s p autoInst reInst).extSt p).selectionState =
      SelState.install ∧
    (internal_mark_install u s p autoInst reInst).groupLevel = s.groupLevel := by
  unfold internal_mark_install
  simp only [MarkInstall_pkgSt, MarkKeep_pkgSt, MarkAuto_pkgSt, SetReInstall_pkgSt,
    ite_pkgSt, GState.setExt_pkgSt, GState.setExt_extSt_same, if_pos rfl,
    setExt_groupLevel, MarkAuto_groupLevel, SetReInstall_groupLevel, ite_groupLevel,
    MarkInstall_groupLevel, MarkKeep_groupLevel]
  split_ifs <;> simp_all

/-- `internal_mark_keep`: resulting mode, selection state and group
level at the target package. -/
theorem imk_fields (cfg : Config) (u : Univ) (s : GState u.n) (p : Fin u.n)
    (automatic setHold : Bool) :
    ((internal_mark_keep cfg u s p automatic setHold).pkgSt p).mode = modeKeep ∧
    ((internal_mark_keep cfg u s p automatic setHold).extSt p).selectionState =
      (if u.curVer p = none then
         (if (s.pkgSt p).iPurge then SelState.purge else SelState.deinstall)
       else if setHold then SelState.hold else SelState.install) ∧
    (internal_mark_keep cfg u s p automatic setHold).groupLevel = s.groupLevel := by
  unfold internal_mark_keep
  simp only [scv_mode, scv_iPurge, scv_iReInstall, scv_reinstall, scv_forbidver,
    scv_removeReason, scv_groupLevel, MarkKeep_pkgSt, MarkKeep_extSt, MarkAuto_pkgSt,
    MarkAuto_extSt, SetReInstall_pkgSt, SetReInstall_extSt, ite_pkgSt, ite_extSt,
    GState.setExt_extSt_same, GState.setExt_pkgSt, if_pos rfl, setExt_groupLevel,
    MarkAuto_groupLevel, SetReInstall_groupLevel, MarkKeep_groupLevel, ite_groupLevel]
  split_ifs <;> simp_all

/-- An `end_action_group` commit entered above level 1 only decrements
the counter. -/
theorem eagr_of_ne (cfg : Config) (u : Univ) (s : GState u.n)
    (h : s.groupLevel ≠ 1) :
    (end_action_group_run cfg u s).1.pkgSt = s.pkgSt ∧
    (end_action_group_run cfg u s).1.extSt = s.extSt := by
  unfold end_action_group_run
  rw [if_neg h]
  exact ⟨rfl, rfl⟩

/-- The consistency invariant linking an undo record to the selection
table: records produced by the mutation operations always satisfy it,
because each operation writes `selection_state` as the table function of
the mode, purge flag and hold bit it writes. -/
def undoConsistent (cfg : Config) (u : Univ) (r : UndoRec u.n)
    (s : GState u.n) : Prop :=
  (r.prevIReInstall = true →
     r.prevMode = modeKeep ∧ r.prevSel = SelState.install) ∧
  (r.prevMode = modeInstall → r.prevSel = SelState.install) ∧
  (r.prevMode = modeDelete →
     r.prevSel = (if r.prevIPurge then SelState.purge else SelState.deinstall) ∧
     (r.prevReason = ChangedReason.unused → r.prevIPurge = cfg.purgeUnused)) ∧
  (r.prevMode = modeKeep → r.prevIReInstall = false →
     (if u.curVer r.pkg = none then
        (s.pkgSt r.pkg).iPurge = r.prevIPurge ∧
        r.prevSel = (if r.prevIPurge then SelState.purge else SelState.deinstall)
      else r.prevSel = SelState.hold ∨ r.prevSel = SelState.install))

instance (cfg : Config) (u : Univ) (r : UndoRec u.n) (s : GState u.n) :
    Decidable (undoConsistent cfg u r s) := by
  unfold undoConsistent; infer_instance

/-- C5 (amended): applying an undo record inside an open action group
on a writable store restores the package's Mode, Auto flag,
`remove_reason`, `selection_state` and `forbidden_version` to the
captured values, provided the record is selection-table consistent (as
every record produced by the mutation operations is), the package is
not the protected aptitude package, and it is not currently
Auto-flagged (so the delete cascade cannot revisit it); the iflags are
re-derived rather than restored, so a `selection_state` that did not
match the table — reachable only through dselect-transferred states,
not through this cache's own mutations — is normalized instead of
reproduced. -/
theorem undo_restores (cfg : Config) (u : Univ) (r : UndoRec u.n)
    (s : GState u.n)
    (hlvl : 1 ≤ s.groupLevel)
    (hself : ¬(is_installed u r.pkg ∧ u.name r.pkg = "aptitude"))
    (hauto : (s.pkgSt r.pkg).autoFlag = false)
    (hcons : undoConsistent cfg u r s) :
    ((apt_undoer_undo cfg u r s).pkgSt r.pkg).mode = r.prevMode ∧
    ((apt_undoer_undo cfg u r s).pkgSt r.pkg).autoFlag = r.prevAuto ∧
    ((apt_undoer_undo cfg u r s).extSt r.pkg).removeReason = r.prevReason ∧
    ((apt_undoer_undo cfg u r s).extSt r.pkg).selectionState = r.prevSel ∧
    ((apt_undoer_undo cfg u r s).extSt r.pkg).forbidver = r.prevForbid := by
  obtain ⟨hri, hmi, hmd, hmk⟩ := hcons
  have hamb0 : ¬(s.groupLevel = 0) := by omega
  have tail : ∀ (s2 : GState u.n) (pm : PkgMode),
      s2.groupLevel = s.groupLevel + 1 →
      (s2.pkgSt r.pkg).mode = pm →
      (s2.extSt r.pkg).selectionState = r.prevSel →
      (((end_action_group_run cfg u
          ((MarkAuto s2 r.pkg r.prevAuto).setExt r.pkg
            { (MarkAuto s2 r.pkg r.prevAuto).extSt r.pkg with
              removeReason := r.prevReason,
              forbidver := r.prevForbid })).1.pkgSt r.pkg).mode = pm) ∧
      (((end_action_group_run cfg u
          ((MarkAuto s2 r.pkg r.prevAuto).setExt r.pkg
            { (MarkAuto s2 r.pkg r.prevAuto).extSt r.pkg with
              removeReason := r.prevReason,
              forbidver := r.prevForbid })).1.pkgSt r.pkg).autoFlag = r.prevAuto) ∧
      (((end_action_group_run cfg u
          ((MarkAuto s2 r.pkg r.prevAuto).setExt r.pkg
            { (MarkAuto s2 r.pkg r.prevAuto).extSt r.pkg with
              removeReason := r.prevReason,
              forbidver := r.prevForbid })).1.extSt r.pkg).removeReason =
        r.prevReason) ∧
      (((end_action_group_run cfg u
          ((MarkAuto s2 r.pkg r.prevAuto).setExt r.pkg
            { (MarkAuto s2 r.pkg r.prevAuto).extSt r.pkg with
              removeReason := r.prevReason,
              forbidver := r.prevForbid })).1.extSt r.pkg).selectionState =
        r.prevSel) ∧
      (((end_action_group_run cfg u
          ((MarkAuto s2 r.pkg r.prevAuto).setExt r.pkg
            { (MarkAuto s2 r.pkg r.prevAuto).extSt r.pkg with
              removeReason := r.prevReason,
              forbidver := r.prevForbid })).1.extSt r.pkg).forbidver =
        r.prevForbid) := by
    intro s2 pm h2 hmode hsel
    obtain ⟨e1, e2⟩ := eagr_of_ne cfg u
      ((MarkAuto s2 r.pkg r.prevAuto).setExt r.pkg
        { (MarkAuto s2 r.pkg r.prevAuto).extSt r.pkg with
          removeReason := r.prevReason, forbidver := r.prevForbid })
      (by simp only [setExt_groupLevel, MarkAuto_groupLevel, h2]; omega)
    rw [e1, e2]
    simp only [GState.setExt_pkgSt, GState.setExt_extSt_same, MarkAuto_pkgSt,
      MarkAuto_extSt, if_pos rfl, if_true]
    exact ⟨hmode, trivial, trivial, hsel, trivial⟩
  simp only [apt_undoer_undo]
  rw [if_neg hamb0]
  by_cases hb : r.prevIReInstall = true
  · rw [if_pos hb]
    obtain ⟨hpm, hpsel⟩ := hri hb
    obtain ⟨m1, m2, m3⟩ := imi_fields u (begin_action_group s) r.pkg false true
    exact tail _ r.prevMode (m3.trans rfl) (by rw [m1, hpm]; rfl)
      (by rw [m2, hpsel])
  · rw [if_neg hb]
    have hb' : r.prevIReInstall = false := by
      cases hbv : r.prevIReInstall
      · rfl
      · exact absurd hbv hb
    cases hm : r.prevMode with
    | modeDelete =>
      obtain ⟨hseld, hcoh⟩ := hmd hm
      have hia : ((begin_action_group s).pkgSt r.pkg).autoFlag = false := hauto
      obtain ⟨a1, a2⟩ := imd_at_nonauto cfg u (begin_action_group s) r.pkg
        r.prevIPurge (decide (r.prevReason = ChangedReason.unused)) hself hia
      obtain ⟨c1, c2⟩ := core_at cfg u (begin_action_group s) r.pkg
        r.prevIPurge (decide (r.prevReason = ChangedReason.unused))
      have hpurge2 :
          (if (decide (r.prevReason = ChangedReason.unused) &&
               cfg.purgeUnused) = true then true else r.prevIPurge) =
            r.prevIPurge := by
        by_cases hrr : r.prevReason = ChangedReason.unused
        · have := hcoh hrr
          cases hcp : cfg.purgeUnused <;> simp [hrr, hcp, this]
        · simp [hrr]
      refine tail _ modeDelete
        ((imd_groupLevel cfg u (begin_action_group s) r.pkg r.prevIPurge
          (decide (r.prevReason = ChangedReason.unused))).trans rfl) ?_ ?_
      · rw [a1, c1]
      · rw [a2, c2]
        simp only [hpurge2, hseld]
    | modeKeep =>
      obtain ⟨k1, k2, k3⟩ := imk_fields cfg u (begin_action_group s) r.pkg
        r.prevIAutoKept (decide (r.prevSel = SelState.hold))
      refine tail _ modeKeep (k3.trans rfl) (by rw [k1]) ?_
      rw [k2]
      have hkc := hmk hm hb'
      by_cases hcv : u.curVer r.pkg = none
      · rw [if_pos hcv]
        rw [if_pos hcv] at hkc
        obtain ⟨hip, hsel'⟩ := hkc
        have hip' : ((begin_action_group s).pkgSt r.pkg).iPurge = r.prevIPurge :=
          hip
        rw [hip', hsel']
      · rw [if_neg hcv]
        rw [if_neg hcv] at hkc
        rcases hkc with hh | hh
        · simp [hh]
        · simp [hh]
    | modeInstall =>
      obtain ⟨m1, m2, m3⟩ := imi_fields u (begin_action_group s) r.pkg false false
      exact tail _ modeInstall (m3.trans rfl) (by rw [m1]; rfl)
        (by rw [m2, hmi hm])

/-- A one-package fixture: committed writable state inside one open
group. -/
@[reducible] def c5State : GState 1 := { plainState 1 with groupLevel := 1 }

/-- An undo record as produced for a kept installed package. -/
@[reducible] def c5Rec : UndoRec 1 :=
  { pkg := 0, prevMode := modeKeep, prevAuto := false, prevIPurge := false
    prevIReInstall := false, prevIAutoKept := false
    prevReason := ChangedReason.manual, prevSel := SelState.install
    prevForbid := "" }

theorem undo_restores_witness :
    1 ≤ c5State.groupLevel ∧
    (((apt_undoer_undo defaultConfig (plainUniv 1) c5Rec c5State).pkgSt
        0).mode = modeKeep ∧
     ((apt_undoer_undo defaultConfig (plainUniv 1) c5Rec c5State).pkgSt
        0).autoFlag = false ∧
     ((apt_undoer_undo defaultConfig (plainUniv 1) c5Rec c5State).extSt
        0).removeReason = ChangedReason.manual ∧
     ((apt_undoer_undo defaultConfig (plainUniv 1) c5Rec c5State).extSt
        0).selectionState = SelState.install ∧
     ((apt_undoer_undo defaultConfig (plainUniv 1) c5Rec c5State).extSt
        0).forbidver = "") :=
  ⟨by decide,
   undo_restores defaultConfig (plainUniv 1) c5Rec c5State (by decide) (by decide)
     (by decide) (by decide)⟩

/-- An installed package kept in mode Keep whose dselect selection is
DeInstall — the state `build_selection_list` produces when the stored
selections are not applied. -/
@[reducible] def c5MutState : GState 1 :=
  { plainState 1 with
    extSt := fun _ => { defaultExtSt with selectionState := SelState.deinstall }
    backupExt := fun _ => { defaultExtSt with selectionState := SelState.deinstall } }

/-- Counterexample for C5 as frozen: a `mark_install` on an installed
kept package whose `selection_state` is DeInstall produces an undo
record capturing that DeInstall, but applying the record re-derives the
selection from the restored Keep mode and current version, yielding
Install — the pre-mutation `selection_state` is not restored
exactly. -/
theorem undo_loses_selection_state :
    (c5MutState.extSt 0).selectionState = SelState.deinstall ∧
    (mark_install defaultConfig (plainUniv 1) c5MutState 0 false false).2 =
      [{ pkg := 0, prevMode := modeKeep, prevAuto := false, prevIPurge := false
         prevIReInstall := false, prevIAutoKept := false
         prevReason := ChangedReason.manual, prevSel := SelState.deinstall
         prevForbid := "" }] ∧
    ((apt_undoer_undo defaultConfig (plainUniv 1)
        { pkg := 0, prevMode := modeKeep, prevAuto := false, prevIPurge := false
          prevIReInstall := false, prevIAutoKept := false
          prevReason := ChangedReason.manual, prevSel := SelState.deinstall
          prevForbid := "" }
        (mark_install defaultConfig (plainUniv 1) c5MutState 0 false
          false).1).extSt 0).selectionState = SelState.install := by
  refine ⟨rfl, by decide, by decide⟩

/-! ## Claim C2 -/

/-- The reverse-dependency loop of phase 2: the result is a sublist of
the input set, every processed target is absent from it, and no
survivor is a target of any member erased along the way — provided each
recursive call (on sets strictly below `bound`) has the same three
properties. -/
theorem rrGo_spec (u : Univ)
    (rec : List (Fin u.n) → Fin u.n → Nat → List (Fin u.n)) (bound : Nat)
    (hrecSub : ∀ rn (p : Fin u.n) (pvi : Nat), rn.Nodup → rn.length < bound →
      (rec rn p pvi).Sublist rn)
    (hrecRoot : ∀ rn (p : Fin u.n) (pvi : Nat), rn.Nodup → rn.length < bound →
      ∀ x ∈ rec rn p pvi, x ∉ rrTargets u p pvi)
    (hrecClosed : ∀ rn (p : Fin u.n) (pvi : Nat), rn.Nodup → rn.length < bound →
      ∀ q ∈ rn, q ∉ rec rn p pvi → ∀ qvi, u.curVer q = some qvi →
        ∀ x ∈ rec rn p pvi, x ∉ rrTargets u q qvi) :
    ∀ (ts rein : List (Fin u.n)), rein.Nodup → rein.length ≤ bound →
      (rrGo u.curVer rec ts rein).Sublist rein ∧
      (∀ t ∈ ts, t ∉ rrGo u.curVer rec ts rein) ∧
      (∀ q ∈ rein, q ∉ rrGo u.curVer rec ts rein → ∀ qvi,
        u.curVer q = some qvi → ∀ x ∈ rrGo u.curVer rec ts rein,
          x ∉ rrTargets u q qvi) := by
  intro ts
  induction ts with
  | nil =>
    intro rein hnd hlen
    exact ⟨List.Sublist.refl rein, fun t ht => absurd ht (List.not_mem_nil t),
      fun q hq hqn => absurd hq hqn⟩
  | cons t ts ih =>
    intro rein hnd hlen
    simp only [rrGo]
    split
    · next hmem =>
      have hpos : 0 < rein.length := List.length_pos_of_mem hmem
      have herl : (rein.erase t).length = rein.length - 1 :=
        List.length_erase_of_mem hmem
      have hsub2 : (rein.erase t).Sublist rein := List.erase_sublist t rein
      have hnd2 : (rein.erase t).Nodup := hnd.sublist hsub2
      have hlen2 : (rein.erase t).length < bound := by omega
      have htne : t ∉ rein.erase t := by
        intro hcon
        exact absurd rfl ((hnd.mem_erase_iff.mp hcon).1)
      cases hc : u.curVer t with
      | none =>
        simp only [hc]
        obtain ⟨S, T, C⟩ := ih (rein.erase t) hnd2 (by omega)
        refine ⟨S.trans hsub2, ?_, ?_⟩
        · intro t' ht'
          rcases List.mem_cons.mp ht' with he | hts
          · subst he
            exact fun hcon => htne (S.subset hcon)
          · exact T t' hts
        · intro q hq hqn qvi hqv x hx
          by_cases hqt : q = t
          · subst hqt
            rw [hqv] at hc
            exact Option.noConfusion hc
          · have hq2 : q ∈ rein.erase t := hnd.mem_erase_iff.mpr ⟨hqt, hq⟩
            exact C q hq2 hqn qvi hqv x hx
      | some tvi =>
        simp only [hc]
        have hsub3 : (rec (rein.erase t) t tvi).Sublist (rein.erase t) :=
          hrecSub _ t tvi hnd2 hlen2
        have hnd3 : (rec (rein.erase t) t tvi).Nodup := hnd2.sublist hsub3
        have hlen3 : (rec (rein.erase t) t tvi).length ≤ bound :=
          le_trans hsub3.length_le (by omega)
        obtain ⟨S, T, C⟩ := ih (rec (rein.erase t) t tvi) hnd3 hlen3
        refine ⟨S.trans (hsub3.trans hsub2), ?_, ?_⟩
        · intro t' ht'
          rcases List.mem_cons.mp ht' with he | hts
          · subst he
            exact fun hcon => htne (hsub3.subset (S.subset hcon))
          · exact T t' hts
        · intro q hq hqn qvi hqv x hx
          have hx3 : x ∈ rec (rein.erase t) t tvi := S.subset hx
          by_cases hqt : q = t
          · subst hqt
            rw [hqv] at hc
            injection hc with hvi
            rw [hvi]
            exact hrecRoot _ q tvi hnd2 hlen2 x hx3
          · have hq2 : q ∈ rein.erase t := hnd.mem_erase_iff.mpr ⟨hqt, hq⟩
            by_cases hq3 : q ∈ rec (rein.erase t) t tvi
            · exact C q hq3 hqn qvi hqv x hx
            · exact hrecClosed _ t tvi hnd2 hlen2 q hq2 hq3 qvi hqv x hx3
    · next hmem =>
      obtain ⟨S, T, C⟩ := ih rein hnd hlen
      refine ⟨S, ?_, C⟩
      intro t' ht'
      rcases List.mem_cons.mp ht' with he | hts
      · subst he
        exact fun hcon => hmem (S.subset hcon)
      · exact T t' hts

/-- `remove_reverse_current_versions` with enough fuel: the result is a
sublist of the input, contains no target of the bad version, and no
survivor is a target of the current version of any erased member. -/
theorem rr_spec (u : Univ) : ∀ (fuel : Nat) (rein : List (Fin u.n))
    (bp : Fin u.n) (bvi : Nat), rein.Nodup → rein.length < fuel →
    (remove_reverse_current_versions u fuel rein bp bvi).Sublist rein ∧
    (∀ x ∈ remove_reverse_current_versions u fuel rein bp bvi,
       x ∉ rrTargets u bp bvi) ∧
    (∀ q ∈ rein, q ∉ remove_reverse_current_versions u fuel rein bp bvi →
       ∀ qvi, u.curVer q = some qvi →
       ∀ x ∈ remove_reverse_current_versions u fuel rein bp bvi,
         x ∉ rrTargets u q qvi) := by
  intro fuel
  induction fuel with
  | zero =>
    intro rein bp bvi hnd hlen
    exact absurd hlen (by omega)
  | succ fuel ih =>
    intro rein bp bvi hnd hlen
    have h := rrGo_spec u
      (fun rn p pvi => remove_reverse_current_versions u fuel rn p pvi) fuel
      (fun rn p pvi nd hl => (ih rn p pvi nd hl).1)
      (fun rn p pvi nd hl => (ih rn p pvi nd hl).2.1)
      (fun rn p pvi nd hl => (ih rn p pvi nd hl).2.2)
      (rrTargets u bp bvi) rein hnd (by omega)
    simp only [remove_reverse_current_versions]
    exact ⟨h.1, fun x hx hxt => (h.2.1 x hxt) hx, h.2.2⟩

/-- Phase 2 of sweep: folding the erasure over the blocked list yields
a sublist of the candidates that contains no target of any blocked
package's current version nor of any erased member's current
version. -/
theorem badFold_spec (u : Univ) (bad : List (Fin u.n)) :
    ∀ rein : List (Fin u.n), rein.Nodup → rein.length ≤ u.n →
    ((bad.foldl (fun rn b =>
        match u.curVer b with
        | some bvi => remove_reverse_current_versions u (u.n + 1) rn b bvi
        | none => rn) rein).Sublist rein) ∧
    (∀ b ∈ bad, ∀ bvi, u.curVer b = some bvi →
      ∀ x ∈ bad.foldl (fun rn b =>
          match u.curVer b with
          | some bvi => remove_reverse_current_versions u (u.n + 1) rn b bvi
          | none => rn) rein, x ∉ rrTargets u b bvi) ∧
    (∀ q ∈ rein, q ∉ bad.foldl (fun rn b =>
        match u.curVer b with
        | some bvi => remove_reverse_current_versions u (u.n + 1) rn b bvi
        | none => rn) rein → ∀ qvi, u.curVer q = some qvi →
      ∀ x ∈ bad.foldl (fun rn b =>
          match u.curVer b with
          | some bvi => remove_reverse_current_versions u (u.n + 1) rn b bvi
          | none => rn) rein, x ∉ rrTargets u q qvi) := by
  induction bad with
  | nil =>
    intro rein hnd hlen
    exact ⟨List.Sublist.refl rein, fun b hb => absurd hb (List.not_mem_nil b),
      fun q hq hqn => absurd hq hqn⟩
  | cons b bs ih =>
    intro rein hnd hlen
    rw [List.foldl_cons]
    cases hcb : u.curVer b with
    | none =>
      simp only [hcb]
      obtain ⟨S, T, C⟩ := ih rein hnd hlen
      refine ⟨S, ?_, C⟩
      intro b' hb' bvi hb'v x hx
      rcases List.mem_cons.mp hb' with he | hbs
      · subst he
        rw [hb'v] at hcb
        exact Option.noConfusion hcb
      · exact T b' hbs bvi hb'v x hx
    | some bvi =>
      simp only [hcb]
      obtain ⟨rS, rT, rC⟩ := rr_spec u (u.n + 1) rein b bvi hnd (by omega)
      have hnd1 : (remove_reverse_current_versions u (u.n + 1) rein b bvi).Nodup :=
        hnd.sublist rS
      have hlen1 : (remove_reverse_current_versions u (u.n + 1) rein b bvi).length
          ≤ u.n := le_trans rS.length_le hlen
      obtain ⟨S, T, C⟩ := ih _ hnd1 hlen1
      refine ⟨S.trans rS, ?_, ?_⟩
      · intro b' hb' bvi' hb'v x hx
        rcases List.mem_cons.mp hb' with he | hbs
        · subst he
          rw [hb'v] at hcb
          injection hcb with hvi
          rw [hvi]
          exact rT x (S.subset hx)
        · exact T b' hbs bvi' hb'v x hx
      · intro q hq hqn qvi hqv x hx
        by_cases hq1 : q ∈ remove_reverse_current_versions u (u.n + 1) rein b bvi
        · exact C q hq1 hqn qvi hqv x hx
        · exact rC q hq hq1 qvi hqv x (S.subset hx)

/-- A phase-1 step touches no package other than its own. -/
theorem sweepPhase1Step_other (cfg : Config) (u : Univ)
    (acc : GState u.n × List (Fin u.n) × List (Fin u.n)) (q p : Fin u.n)
    (h : p ≠ q) :
    (sweepPhase1Step cfg u acc q).1.pkgSt p = acc.1.pkgSt p ∧
    (sweepPhase1Step cfg u acc q).1.extSt p = acc.1.extSt p := by
  obtain ⟨s, rein, bad⟩ := acc
  unfold sweepPhase1Step
  repeat' split
  all_goals simp_all [MarkDelete, MarkKeep, GState.setPkg, GState.setExt]

/-- A phase-1 step either keeps each accumulator list or appends its
own package to it. -/
theorem sweepPhase1Step_shape (cfg : Config) (u : Univ)
    (acc : GState u.n × List (Fin u.n) × List (Fin u.n)) (q : Fin u.n) :
    ((sweepPhase1Step cfg u acc q).2.1 = acc.2.1 ∨
     (sweepPhase1Step cfg u acc q).2.1 = acc.2.1 ++ [q]) ∧
    ((sweepPhase1Step cfg u acc q).2.2 = acc.2.2 ∨
     (sweepPhase1Step cfg u acc q).2.2 = acc.2.2 ++ [q]) := by
  obtain ⟨s, rein, bad⟩ := acc
  unfold sweepPhase1Step
  repeat' split
  all_goals simp_all

/-- Folding phase 1 over a list not containing `p` leaves `p`'s state
untouched. -/
theorem phase1_fold_other (cfg : Config) (u : Univ) (ps : List (Fin u.n)) :
    ∀ (acc : GState u.n × List (Fin u.n) × List (Fin u.n)) (p : Fin u.n),
      p ∉ ps →
      (ps.foldl (sweepPhase1Step cfg u) acc).1.pkgSt p = acc.1.pkgSt p ∧
      (ps.foldl (sweepPhase1Step cfg u) acc).1.extSt p = acc.1.extSt p := by
  induction ps with
  | nil => exact fun acc p _ => ⟨rfl, rfl⟩
  | cons q qs ih =>
    intro acc p hp
    have hpq : p ≠ q := fun he => hp (he ▸ List.mem_cons_self q qs)
    have hqs : p ∉ qs := fun he => hp (List.mem_cons_of_mem q he)
    rw [List.foldl_cons]
    obtain ⟨f1, f2⟩ := ih (sweepPhase1Step cfg u acc q) p hqs
    obtain ⟨g1, g2⟩ := sweepPhase1Step_other cfg u acc q p hpq
    exact ⟨f1.trans g1, f2.trans g2⟩

/-- Folding phase 1 never drops accumulator members. -/
theorem phase1_fold_grow (cfg : Config) (u : Univ) (ps : List (Fin u.n)) :
    ∀ (acc : GState u.n × List (Fin u.n) × List (Fin u.n)) (x : Fin u.n),
      (x ∈ acc.2.1 → x ∈ (ps.foldl (sweepPhase1Step cfg u) acc).2.1) ∧
      (x ∈ acc.2.2 → x ∈ (ps.foldl (sweepPhase1Step cfg u) acc).2.2) := by
  induction ps with
  | nil => exact fun acc x => ⟨id, id⟩
  | cons q qs ih =>
    intro acc x
    rw [List.foldl_cons]
    obtain ⟨s1, s2⟩ := sweepPhase1Step_shape cfg u acc q
    obtain ⟨i1, i2⟩ := ih (sweepPhase1Step cfg u acc q) x
    constructor
    · intro hx
      refine i1 ?_
      rcases s1 with he | he <;> rw [he]
      · exact hx
      · exact List.mem_append_left _ hx
    · intro hx
      refine i2 ?_
      rcases s2 with he | he <;> rw [he]
      · exact hx
      · exact List.mem_append_left _ hx

/-- Every member of a phase-1 accumulator entered with it or was
processed. -/
theorem phase1_fold_mem (cfg : Config) (u : Univ) (ps : List (Fin u.n)) :
    ∀ (acc : GState u.n × List (Fin u.n) × List (Fin u.n)) (x : Fin u.n),
      (x ∈ (ps.foldl (sweepPhase1Step cfg u) acc).2.1 →
        x ∈ acc.2.1 ∨ x ∈ ps) ∧
      (x ∈ (ps.foldl (sweepPhase1Step cfg u) acc).2.2 →
        x ∈ acc.2.2 ∨ x ∈ ps) := by
  induction ps with
  | nil => exact fun acc x => ⟨fun h => Or.inl h, fun h => Or.inl h⟩
  | cons q qs ih =>
    intro acc x
    rw [List.foldl_cons]
    obtain ⟨s1, s2⟩ := sweepPhase1Step_shape cfg u acc q
    obtain ⟨i1, i2⟩ := ih (sweepPhase1Step cfg u acc q) x
    constructor
    · intro hx
      rcases i1 hx with h | h
      · rcases s1 with he | he
        · rw [he] at h
          exact Or.inl h
        · rw [he] at h
          rcases List.mem_append.mp h with h' | h'
          · exact Or.inl h'
          · exact Or.inr (List.mem_cons.mpr (Or.inl (List.mem_singleton.mp h')))
      · exact Or.inr (List.mem_cons_of_mem q h)
    · intro hx
      rcases i2 hx with h | h
      · rcases s2 with he | he
        · rw [he] at h
          exact Or.inl h
        · rw [he] at h
          rcases List.mem_append.mp h with h' | h'
          · exact Or.inl h'
          · exact Or.inr (List.mem_cons.mpr (Or.inl (List.mem_singleton.mp h')))
      · exact Or.inr (List.mem_cons_of_mem q h)

/-- The phase-1 reinstatement list is duplicate-free. -/
theorem phase1_fold_nodup (cfg : Config) (u : Univ) (ps : List (Fin u.n)) :
    ∀ (acc : GState u.n × List (Fin u.n) × List (Fin u.n)), ps.Nodup →
      acc.2.1.Nodup → (∀ x ∈ acc.2.1, x ∉ ps) →
      (ps.foldl (sweepPhase1Step cfg u) acc).2.1.Nodup := by
  induction ps with
  | nil => exact fun acc _ hnd _ => hnd
  | cons q qs ih =>
    intro acc hpnd hnd hdisj
    rw [List.foldl_cons]
    obtain ⟨s1, _⟩ := sweepPhase1Step_shape cfg u acc q
    have hqqs : q ∉ qs := (List.nodup_cons.mp hpnd).1
    refine ih (sweepPhase1Step cfg u acc q) (List.nodup_cons.mp hpnd).2 ?_ ?_
    · rcases s1 with he | he <;> rw [he]
      · exact hnd
      · refine List.Nodup.append hnd (List.nodup_singleton q) ?_
        intro x hx hxq
        rw [List.mem_singleton.mp hxq] at hx
        exact hdisj q hx (List.mem_cons_self q qs)
    · intro x hx
      rcases s1 with he | he <;> rw [he] at hx
      · exact fun hxqs => hdisj x hx (List.mem_cons_of_mem q hxqs)
      · rcases List.mem_append.mp hx with h' | h'
        · exact fun hxqs => hdisj x h' (List.mem_cons_of_mem q hxqs)
        · rw [List.mem_singleton.mp h']
          exact hqqs

/-- Splitting a list at the first occurrence of a member. -/
theorem takeWhile_split {α : Type _} [DecidableEq α] (p : α) :
    ∀ l : List α, p ∈ l →
      ∃ l₂, l = l.takeWhile (fun q => decide (q ≠ p)) ++ p :: l₂ := by
  intro l
  induction l with
  | nil => intro h; exact absurd h (List.not_mem_nil p)
  | cons a l ih =>
    intro h
    by_cases hap : a = p
    · subst hap
      refine ⟨l, ?_⟩
      rw [List.takeWhile_cons, if_neg (by simp)]
      rfl
    · have hpl : p ∈ l := by
        rcases List.mem_cons.mp h with he | hm
        · exact absurd he.symm hap
        · exact hm
      obtain ⟨l₂, hl⟩ := ih hpl
      refine ⟨l₂, ?_⟩
      rw [List.takeWhile_cons, if_pos (by simp [hap])]
      simp only [List.cons_append]
      exact congrArg (a :: ·) hl

/-- The phase-1 state just before package `p`'s own turn. -/
def phase1Before (cfg : Config) (u : Univ) (s : GState u.n) (p : Fin u.n) :
    GState u.n :=
  (sweepPhase1 cfg u s
    ((List.finRange u.n).takeWhile (fun q => decide (q ≠ p)))).1

/-- At its own phase-1 turn, a non-garbage pending unused deletion is
left untouched and classified: into the blocked list when the Conflict
Oracle objects at the pre-turn state, into the reinstatement candidates
otherwise. -/
theorem phase1_classify (cfg : Config) (u : Univ) (s : GState u.n) (p : Fin u.n)
    (hg : (s.pkgSt p).garbage = false)
    (hm : (s.pkgSt p).mode = modeDelete)
    (hr : (s.extSt p).removeReason = ChangedReason.unused) :
    (sweepPhase1 cfg u s (List.finRange u.n)).1.pkgSt p = s.pkgSt p ∧
    (is_conflicted u (phase1Before cfg u s p) p (u.curVer p) ≠ none →
      p ∉ (sweepPhase1 cfg u s (List.finRange u.n)).2.1 ∧
      p ∈ (sweepPhase1 cfg u s (List.finRange u.n)).2.2) ∧
    (is_conflicted u (phase1Before cfg u s p) p (u.curVer p) = none →
      p ∈ (sweepPhase1 cfg u s (List.finRange u.n)).2.1) := by
  obtain ⟨l₂, hsplit⟩ := takeWhile_split p (List.finRange u.n)
    (List.mem_finRange p)
  have hp1 : p ∉ (List.finRange u.n).takeWhile (fun q => decide (q ≠ p)) := by
    intro hmem
    have := List.mem_takeWhile_imp hmem
    simp at this
  have hnodup : ((List.finRange u.n).takeWhile (fun q => decide (q ≠ p)) ++
      p :: l₂).Nodup := by
    rw [← hsplit]; exact List.nodup_finRange u.n
  have hp2 : p ∉ l₂ := by
    have := (List.nodup_append.mp hnodup).2.1
    exact (List.nodup_cons.mp this).1
  have hA := phase1_fold_other cfg u
    ((List.finRange u.n).takeWhile (fun q => decide (q ≠ p)))
    (s, ([], [])) p hp1
  -- unfold the whole pass at the split
  have hfold : sweepPhase1 cfg u s (List.finRange u.n) =
      (p :: l₂).foldl (sweepPhase1Step cfg u)
        (sweepPhase1 cfg u s
          ((List.finRange u.n).takeWhile (fun q => decide (q ≠ p)))) := by
    unfold sweepPhase1
    rw [← List.foldl_append]
    rw [← hsplit]
  set A := sweepPhase1 cfg u s
    ((List.finRange u.n).takeWhile (fun q => decide (q ≠ p))) with hAdef
  have hApkg : A.1.pkgSt p = s.pkgSt p := hA.1
  have hAext : A.1.extSt p = s.extSt p := hA.2
  have hArein : ∀ x ∈ A.2.1, x ∈ (List.finRange u.n).takeWhile
      (fun q => decide (q ≠ p)) := by
    intro x hx
    rcases (phase1_fold_mem cfg u _ (s, ([], [])) x).1 hx with h | h
    · exact absurd h (List.not_mem_nil x)
    · exact h
  have hpA : p ∉ A.2.1 := fun hmem => hp1 (hArein p hmem)
  -- the step at p's own turn
  have hstep : sweepPhase1Step cfg u A p =
      (match is_conflicted u A.1 p (u.curVer p) with
       | some _ => (A.1, A.2.1, A.2.2 ++ [p])
       | none => (A.1, A.2.1 ++ [p], A.2.2)) := by
    show sweepPhase1Step cfg u (A.1, A.2.1, A.2.2) p = _
    unfold sweepPhase1Step
    simp only []
    rw [hApkg, hAext, hg, hm, hr]
    simp
  rw [hfold, List.foldl_cons, hstep]
  have hmid : phase1Before cfg u s p = A.1 := rfl
  rw [hmid]
  cases hconf : is_conflicted u A.1 p (u.curVer p) with
  | some w =>
    simp only []
    refine ⟨?_, ?_, ?_⟩
    · exact ((phase1_fold_other cfg u l₂ (A.1, A.2.1, A.2.2 ++ [p]) p hp2).1).trans
        hApkg
    · intro _
      constructor
      · intro hmem
        rcases (phase1_fold_mem cfg u l₂ (A.1, A.2.1, A.2.2 ++ [p]) p).1 hmem
          with h | h
        · exact hpA h
        · exact hp2 h
      · exact (phase1_fold_grow cfg u l₂ (A.1, A.2.1, A.2.2 ++ [p]) p).2
          (List.mem_append_right _ (List.mem_singleton.mpr rfl))
    · intro hnone
      exact Option.noConfusion hnone
  | none =>
    simp only []
    refine ⟨?_, ?_, ?_⟩
    · exact ((phase1_fold_other cfg u l₂ (A.1, A.2.1 ++ [p], A.2.2) p hp2).1).trans
        hApkg
    · intro hsome
      exact absurd rfl hsome
    · intro _
      exact (phase1_fold_grow cfg u l₂ (A.1, A.2.1 ++ [p], A.2.2) p).1
        (List.mem_append_right _ (List.mem_singleton.mpr rfl))

/-- The dependency-target loop of the trace only adds members of a set
every recursive call stays within. -/
theorem traceGo_sub {n : Nat} (rec : Fin n → List (Fin n) → List (Fin n))
    (R : List (Fin n))
    (hrec : ∀ q a, (∀ x ∈ a, x ∈ R) → ∀ x ∈ rec q a, x ∈ R) :
    ∀ (qs acc : List (Fin n)), (∀ x ∈ acc, x ∈ R) →
      ∀ x ∈ traceGo rec qs acc, x ∈ R := by
  intro qs
  induction qs with
  | nil => exact fun acc hacc => hacc
  | cons q qs ih =>
    intro acc hacc
    exact ih (rec q acc) (hrec q acc hacc)

/-- `trace_not_orphaned` only adds members of the reinstatement set. -/
theorem trace_sub (u : Univ) (reinstated : List (Fin u.n)) :
    ∀ (fuel : Nat) (t : Fin u.n) (acc : List (Fin u.n)),
      (∀ x ∈ acc, x ∈ reinstated) →
      ∀ x ∈ trace_not_orphaned u reinstated fuel t acc, x ∈ reinstated := by
  intro fuel
  induction fuel with
  | zero => exact fun t acc hacc => hacc
  | succ fuel ih =>
    intro t acc hacc
    simp only [trace_not_orphaned]
    split
    · exact hacc
    · split
      · exact hacc
      · split
        · exact hacc
        · next hmem =>
          refine traceGo_sub _ reinstated (fun q a ha => ih q a ha) _ _ ?_
          intro x hx
          rcases List.mem_append.mp hx with h | h
          · exact hacc x h
          · rw [List.mem_singleton.mp h]
            exact not_not.mp hmem

/-- `find_not_orphaned` only adds members of the reinstatement set. -/
theorem fno_sub (u : Univ) (s : GState u.n) (reinstated : List (Fin u.n))
    (fuel : Nat) (c : Fin u.n) (acc : List (Fin u.n))
    (hacc : ∀ x ∈ acc, x ∈ reinstated) :
    ∀ x ∈ find_not_orphaned u s reinstated fuel c acc, x ∈ reinstated := by
  unfold find_not_orphaned
  split
  · exact hacc
  · split
    all_goals intro x hx
    all_goals simp only [] at hx
    all_goals split at hx
    all_goals first
      | exact trace_sub u reinstated fuel c acc hacc x hx
      | exact hacc x hx

/-- The final reinstatement pass only touches its argument list. -/
theorem markKeepFold_other {n : Nat} (l : List (Fin n)) :
    ∀ (s : GState n) (p : Fin n), p ∉ l →
      (l.foldl (fun s2 c => MarkKeep s2 c false false) s).pkgSt p =
        s.pkgSt p := by
  induction l with
  | nil => exact fun s p _ => rfl
  | cons c cs ih =>
    intro s p hp
    have hpc : p ≠ c := fun he => hp (he ▸ List.mem_cons_self c cs)
    have hcs : p ∉ cs := fun he => hp (List.mem_cons_of_mem c he)
    rw [List.foldl_cons]
    rw [ih _ p hcs]
    simp [hpc]

/-- The blocked closure of sweep phase 2: a pending unused deletion that
is conflicted at its own phase-1 turn, or one that critically depends
(directly or via a virtual package) on the current version of an
already blocked package. -/
inductive CBlocked (cfg : Config) (u : Univ) (s : GState u.n) : Fin u.n → Prop
  | base (p : Fin u.n) :
      (s.pkgSt p).garbage = false →
      (s.pkgSt p).mode = modeDelete →
      (s.extSt p).removeReason = ChangedReason.unused →
      is_conflicted u (phase1Before cfg u s p) p (u.curVer p) ≠ none →
      CBlocked cfg u s p
  | step (p q : Fin u.n) (qvi : Nat) :
      CBlocked cfg u s q →
      u.curVer q = some qvi →
      p ∈ rrTargets u q qvi →
      (s.pkgSt p).garbage = false →
      (s.pkgSt p).mode = modeDelete →
      (s.extSt p).removeReason = ChangedReason.unused →
      CBlocked cfg u s p

/-- Every blocked package carries the pending-unused-deletion shape. -/
theorem CBlocked_shape (cfg : Config) (u : Univ) (s : GState u.n) (p : Fin u.n)
    (h : CBlocked cfg u s p) :
    (s.pkgSt p).garbage = false ∧ (s.pkgSt p).mode = modeDelete ∧
    (s.extSt p).removeReason = ChangedReason.unused := by
  cases h with
  | base p hg hm hr _ => exact ⟨hg, hm, hr⟩
  | step p q qvi _ _ _ hg hm hr => exact ⟨hg, hm, hr⟩

/-- No blocked package survives phase 2 of sweep. -/
theorem CBlocked_not_rein2 (cfg : Config) (u : Univ) (s : GState u.n)
    (p : Fin u.n) (hb : CBlocked cfg u s p) :
    p ∉ (sweepPhase1 cfg u s (List.finRange u.n)).2.2.foldl
      (fun rn b =>
        match u.curVer b with
        | some bvi => remove_reverse_current_versions u (u.n + 1) rn b bvi
        | none => rn)
      (sweepPhase1 cfg u s (List.finRange u.n)).2.1 := by
  have hnd : (sweepPhase1 cfg u s (List.finRange u.n)).2.1.Nodup := by
    refine phase1_fold_nodup cfg u (List.finRange u.n) (s, ([], []))
      (List.nodup_finRange u.n) List.nodup_nil ?_
    intro x hx
    exact absurd hx (List.not_mem_nil x)
  have hlen : (sweepPhase1 cfg u s (List.finRange u.n)).2.1.length ≤ u.n := by
    have := hnd.length_le_card
    simpa using this
  obtain ⟨S, T, C⟩ := badFold_spec u (sweepPhase1 cfg u s (List.finRange u.n)).2.2
    (sweepPhase1 cfg u s (List.finRange u.n)).2.1 hnd hlen
  induction hb with
  | base p hg hm hr hconf =>
    intro hmem
    exact ((phase1_classify cfg u s p hg hm hr).2.1 hconf).1 (S.subset hmem)
  | step p q qvi hq hcv htar hg hm hr ih =>
    intro hmem
    obtain ⟨qg, qm, qr⟩ := CBlocked_shape cfg u s q hq
    by_cases hqc : is_conflicted u (phase1Before cfg u s q) q (u.curVer q) = none
    · have hqrein : q ∈ (sweepPhase1 cfg u s (List.finRange u.n)).2.1 :=
        (phase1_classify cfg u s q qg qm qr).2.2 hqc
      exact C q hqrein ih qvi hcv p hmem htar
    · have hqbad : q ∈ (sweepPhase1 cfg u s (List.finRange u.n)).2.2 :=
        ((phase1_classify cfg u s q qg qm qr).2.1 hqc).2
      exact T q hqbad qvi hcv p hmem htar

/-- C2: under the delete-unused policy, every pending unused deletion
whose current version the Conflict Oracle finds conflicted at its
phase-1 turn stays scheduled for removal through Sweep, and so does —
recursively — every pending unused deletion whose current version is a
critical (Depends/PreDepends) dependency parent of a blocked package's
current version, directly or through a virtual package it provides: the
blocked closure is removed from the reinstatement set and never
reinstated. -/
theorem sweep_blocked_stays_removed (cfg : Config) (u : Univ) (s : GState u.n)
    (p : Fin u.n) (hcfg : cfg.deleteUnused = true)
    (hb : CBlocked cfg u s p) :
    ((sweep cfg u s).pkgSt p).mode = modeDelete := by
  obtain ⟨hg, hm, hr⟩ := CBlocked_shape cfg u s p hb
  have hner2 := CBlocked_not_rein2 cfg u s p hb
  simp only [sweep, hcfg, Bool.not_true, Bool.false_eq_true, if_false]
  have hnotOrph : p ∉ ((sweepPhase1 cfg u s (List.finRange u.n)).2.2.foldl
      (fun rn b =>
        match u.curVer b with
        | some bvi => remove_reverse_current_versions u (u.n + 1) rn b bvi
        | none => rn)
      (sweepPhase1 cfg u s (List.finRange u.n)).2.1).foldl
      (fun acc c =>
        find_not_orphaned u (sweepPhase1 cfg u s (List.finRange u.n)).1
          ((sweepPhase1 cfg u s (List.finRange u.n)).2.2.foldl
            (fun rn b =>
              match u.curVer b with
              | some bvi => remove_reverse_current_versions u (u.n + 1) rn b bvi
              | none => rn)
            (sweepPhase1 cfg u s (List.finRange u.n)).2.1)
          (u.n + 1) c acc) [] := by
    intro hmem
    refine hner2 ?_
    refine foldl_invariant
      (fun acc => ∀ x ∈ acc,
        x ∈ (sweepPhase1 cfg u s (List.finRange u.n)).2.2.foldl
          (fun rn b =>
            match u.curVer b with
            | some bvi => remove_reverse_current_versions u (u.n + 1) rn b bvi
            | none => rn)
          (sweepPhase1 cfg u s (List.finRange u.n)).2.1)
      _ ?_ _ _ ?_ p hmem
    · intro acc c hacc
      exact fno_sub u _ _ (u.n + 1) c acc hacc
    · intro x hx
      exact absurd hx (List.not_mem_nil x)
  rw [markKeepFold_other _ _ p hnotOrph]
  rw [(phase1_classify cfg u s p hg hm hr).1]
  exact hm

/-- Three packages: 0 installed and kept, 1 a pending unused deletion
whose current version Conflicts 0, 2 a pending unused deletion whose
current version Depends on 1. -/
@[reducible] def c2Univ : Univ :=
  { plainUniv 3 with
    deps := [⟨conflicts, 1, 0, 0, 0, ""⟩, ⟨depends, 2, 0, 1, 0, ""⟩] }

/-- Packages 1 and 2 scheduled as unused removals, package 0 kept. -/
@[reducible] def c2State : GState 3 :=
  { plainState 3 with
    pkgSt := fun q => if q = 0 then defaultPkgSt
                      else { defaultPkgSt with mode := modeDelete }
    extSt := fun q => if q = 0 then defaultExtSt
                      else { defaultExtSt with
                             selectionState := SelState.deinstall
                             removeReason := ChangedReason.unused } }

theorem sweep_blocked_stays_removed_witness :
    defaultConfig.deleteUnused = true ∧
    ((sweep defaultConfig c2Univ c2State).pkgSt 2).mode = modeDelete :=
  ⟨rfl,
   sweep_blocked_stays_removed defaultConfig c2Univ c2State 2 rfl
     (CBlocked.step 2 1 0
       (CBlocked.base 1 (by decide) (by decide) (by decide) (by decide))
       (by decide) (by decide) (by decide) (by decide) (by decide))⟩

/-! ## Claim C1 -/

/-- The state after sweep's first pass. -/
def sweepS1 (cfg : Config) (u : Univ) (s : GState u.n) : GState u.n :=
  (sweepPhase1 cfg u s (List.finRange u.n)).1

/-- The reinstatement set surviving sweep's second pass. -/
def sweepRein2 (cfg : Config) (u : Univ) (s : GState u.n) : List (Fin u.n) :=
  (sweepPhase1 cfg u s (List.finRange u.n)).2.2.foldl
    (fun rn b =>
      match u.curVer b with
      | some bvi => remove_reverse_current_versions u (u.n + 1) rn b bvi
      | none => rn)
    (sweepPhase1 cfg u s (List.finRange u.n)).2.1

/-- The not-orphaned set computed by sweep's fourth pass. -/
def sweepNotOrphaned (cfg : Config) (u : Univ) (s : GState u.n) :
    List (Fin u.n) :=
  (sweepRein2 cfg u s).foldl
    (fun acc c => find_not_orphaned u (sweepS1 cfg u s) (sweepRein2 cfg u s)
      (u.n + 1) c acc) []

/-- Sweep under the delete-unused policy is the reinstatement pass over
the not-orphaned set applied to the phase-1 state. -/
theorem sweep_decomp (cfg : Config) (u : Univ) (s : GState u.n)
    (h : cfg.deleteUnused = true) :
    sweep cfg u s = (sweepNotOrphaned cfg u s).foldl
      (fun s2 c => MarkKeep s2 c false false) (sweepS1 cfg u s) := by
  simp only [sweep, h, Bool.not_true, Bool.false_eq_true, if_false]
  rfl

/-- The reverse-dependency trigger of `find_not_orphaned`
(`aptcache.cc:2163-2203`): some critical dependency of a package that
remains installed or will be installed is satisfied by `c`'s current
version, directly or through a virtual package it provides. -/
def fnoTrigger (u : Univ) (s : GState u.n) (c : Fin u.n) : Bool :=
  ((u.revDeps c).any fun dep =>
    decide (dep.parentPkg ≠ c) &&
    (decide (dep.dtype = depends) || decide (dep.dtype = preDepends)) &&
    remainOrWillB u s dep.parentPkg &&
    u.checkDep (u.curVerStr c) dep.compOp dep.targetVer) ||
  (match u.curVer c with
   | none => false
   | some cvi =>
     (u.providesOfVer c cvi).any fun prv =>
       (u.revDeps prv.virtualPkg).any fun dep =>
         decide (dep.parentPkg ≠ c) &&
         (decide (dep.dtype = depends) || decide (dep.dtype = preDepends)) &&
         remainOrWillB u s dep.parentPkg &&
         u.checkDep prv.provideVersion dep.compOp dep.targetVer)

theorem fno_eq (u : Univ) (s : GState u.n) (rein : List (Fin u.n)) (fuel : Nat)
    (c : Fin u.n) (acc : List (Fin u.n)) :
    find_not_orphaned u s rein fuel c acc =
      if !installedSane u c then acc
      else if fnoTrigger u s c then trace_not_orphaned u rein fuel c acc
      else acc := rfl

/-- The pending measure is antitone in the accumulator. -/
theorem measure_mono {n : Nat} (R A B : List (Fin n)) (h : ∀ x ∈ A, x ∈ B) :
    (R.toFinset \ B.toFinset).card ≤ (R.toFinset \ A.toFinset).card := by
  apply Finset.card_le_card
  intro x hx
  rw [Finset.mem_sdiff] at hx ⊢
  exact ⟨hx.1, fun hxa =>
    hx.2 (List.mem_toFinset.mpr (h x (List.mem_toFinset.mp hxa)))⟩

/-- Appending a fresh member of the reference set strictly shrinks the
pending measure. -/
theorem measure_dec {n : Nat} (R A : List (Fin n)) (t : Fin n) (htR : t ∈ R)
    (htA : t ∉ A) :
    (R.toFinset \ (A ++ [t]).toFinset).card <
      (R.toFinset \ A.toFinset).card := by
  have hsub : R.toFinset \ (A ++ [t]).toFinset ⊆ R.toFinset \ A.toFinset := by
    intro x hx
    rw [Finset.mem_sdiff] at hx ⊢
    refine ⟨hx.1, fun hc => hx.2 ?_⟩
    rw [List.mem_toFinset] at hc ⊢
    exact List.mem_append_left _ hc
  have hmem : t ∈ R.toFinset \ A.toFinset := Finset.mem_sdiff.mpr
    ⟨List.mem_toFinset.mpr htR, fun hc => htA (List.mem_toFinset.mp hc)⟩
  have hnot : t ∉ R.toFinset \ (A ++ [t]).toFinset := by
    intro hc
    rw [Finset.mem_sdiff] at hc
    exact hc.2 (List.mem_toFinset.mpr
      (List.mem_append_right _ (List.mem_singleton.mpr rfl)))
  exact Finset.card_lt_card
    ((Finset.ssubset_iff_of_subset hsub).mpr ⟨t, hmem, hnot⟩)

/-- The pending measure never exceeds the number of packages. -/
theorem measure_bound {n : Nat} (R A : List (Fin n)) :
    (R.toFinset \ A.toFinset).card ≤ n := by
  calc (R.toFinset \ A.toFinset).card ≤ R.toFinset.card :=
        Finset.card_le_card (Finset.sdiff_subset)
    _ ≤ Fintype.card (Fin n) := Finset.card_le_univ _
    _ = n := Fintype.card_fin n

/-- Every member of the final reinstatement pass ends in Keep mode. -/
theorem markKeepFold_mem {n : Nat} (l : List (Fin n)) :
    ∀ (s : GState n) (p : Fin n), p ∈ l →
      ((l.foldl (fun s2 c => MarkKeep s2 c false false) s).pkgSt p).mode =
        modeKeep := by
  induction l with
  | nil => intro s p hp; exact absurd hp (List.not_mem_nil p)
  | cons c cs ih =>
    intro s p hp
    rw [List.foldl_cons]
    by_cases hpc : p ∈ cs
    · exact ih _ p hpc
    · have hpe : p = c := by
        rcases List.mem_cons.mp hp with h | h
        · exact h
        · exact absurd h hpc
      subst hpe
      rw [markKeepFold_other cs _ p hpc]
      simp

/-- A package newly classified by its own phase-1 step satisfied the
classification conditions at the pre-step state. -/
theorem sweepPhase1Step_new (cfg : Config) (u : Univ)
    (acc : GState u.n × List (Fin u.n) × List (Fin u.n)) (q : Fin u.n) :
    (q ∈ (sweepPhase1Step cfg u acc q).2.1 → q ∉ acc.2.1 →
      (acc.1.pkgSt q).garbage = false ∧ (acc.1.pkgSt q).mode = modeDelete ∧
      (acc.1.extSt q).removeReason = ChangedReason.unused ∧
      is_conflicted u acc.1 q (u.curVer q) = none) ∧
    (q ∈ (sweepPhase1Step cfg u acc q).2.2 → q ∉ acc.2.2 →
      (acc.1.pkgSt q).garbage = false ∧ (acc.1.pkgSt q).mode = modeDelete ∧
      (acc.1.extSt q).removeReason = ChangedReason.unused ∧
      is_conflicted u acc.1 q (u.curVer q) ≠ none) := by
  obtain ⟨s, rein, bad⟩ := acc
  unfold sweepPhase1Step
  repeat' split
  all_goals simp_all

/-- Phase-1 soundness: every classified package had the
pending-unused-deletion shape, and its Conflict-Oracle verdict at its
own turn matches its list. -/
theorem phase1_sound (cfg : Config) (u : Univ) (s : GState u.n) (x : Fin u.n) :
    (x ∈ (sweepPhase1 cfg u s (List.finRange u.n)).2.1 →
      (s.pkgSt x).garbage = false ∧ (s.pkgSt x).mode = modeDelete ∧
      (s.extSt x).removeReason = ChangedReason.unused ∧
      is_conflicted u (phase1Before cfg u s x) x (u.curVer x) = none) ∧
    (x ∈ (sweepPhase1 cfg u s (List.finRange u.n)).2.2 →
      (s.pkgSt x).garbage = false ∧ (s.pkgSt x).mode = modeDelete ∧
      (s.extSt x).removeReason = ChangedReason.unused ∧
      is_conflicted u (phase1Before cfg u s x) x (u.curVer x) ≠ none) := by
  obtain ⟨l₂, hsplit⟩ := takeWhile_split x (List.finRange u.n)
    (List.mem_finRange x)
  have hp1 : x ∉ (List.finRange u.n).takeWhile (fun q => decide (q ≠ x)) := by
    intro hmem
    have := List.mem_takeWhile_imp hmem
    simp at this
  have hnodup : ((List.finRange u.n).takeWhile (fun q => decide (q ≠ x)) ++
      x :: l₂).Nodup := by
    rw [← hsplit]; exact List.nodup_finRange u.n
  have hp2 : x ∉ l₂ := by
    have := (List.nodup_append.mp hnodup).2.1
    exact (List.nodup_cons.mp this).1
  have hfold : sweepPhase1 cfg u s (List.finRange u.n) =
      (x :: l₂).foldl (sweepPhase1Step cfg u)
        (sweepPhase1 cfg u s
          ((List.finRange u.n).takeWhile (fun q => decide (q ≠ x)))) := by
    unfold sweepPhase1
    rw [← List.foldl_append]
    rw [← hsplit]
  set A := sweepPhase1 cfg u s
    ((List.finRange u.n).takeWhile (fun q => decide (q ≠ x))) with hAdef
  have hA := phase1_fold_other cfg u
    ((List.finRange u.n).takeWhile (fun q => decide (q ≠ x)))
    (s, ([], [])) x hp1
  have hxA1 : x ∉ A.2.1 := by
    intro hmem
    rcases (phase1_fold_mem cfg u _ (s, ([], [])) x).1 hmem with h | h
    · exact absurd h (List.not_mem_nil x)
    · exact hp1 h
  have hxA2 : x ∉ A.2.2 := by
    intro hmem
    rcases (phase1_fold_mem cfg u _ (s, ([], [])) x).2 hmem with h | h
    · exact absurd h (List.not_mem_nil x)
    · exact hp1 h
  have hmid : phase1Before cfg u s x = A.1 := rfl
  rw [hfold, List.foldl_cons]
  constructor
  · intro hmem
    have hstepmem : x ∈ (sweepPhase1Step cfg u A x).2.1 := by
      rcases (phase1_fold_mem cfg u l₂ (sweepPhase1Step cfg u A x) x).1 hmem
        with h | h
      · exact h
      · exact absurd h hp2
    obtain ⟨hg, hm, hr, hc⟩ :=
      (sweepPhase1Step_new cfg u A x).1 hstepmem hxA1
    rw [hmid]
    exact ⟨hA.1 ▸ hg, hA.1 ▸ hm, hA.2 ▸ hr, hc⟩
  · intro hmem
    have hstepmem : x ∈ (sweepPhase1Step cfg u A x).2.2 := by
      rcases (phase1_fold_mem cfg u l₂ (sweepPhase1Step cfg u A x) x).2 hmem
        with h | h
      · exact h
      · exact absurd h hp2
    obtain ⟨hg, hm, hr, hc⟩ :=
      (sweepPhase1Step_new cfg u A x).2 hstepmem hxA2
    rw [hmid]
    exact ⟨hA.1 ▸ hg, hA.1 ▸ hm, hA.2 ▸ hr, hc⟩

/-- Soundness of the phase-2 erasure loop relative to a blocked
predicate `P` closed under critical reverse dependency: every erased
member is blocked, provided the processed targets come from a blocked
package and each recursive call has the same property. -/
theorem rrGo_sound (u : Univ)
    (rec : List (Fin u.n) → Fin u.n → Nat → List (Fin u.n)) (bound : Nat)
    (P Q : Fin u.n → Prop)
    (hrecSub : ∀ rn (p : Fin u.n) (pvi : Nat), rn.Nodup → rn.length < bound →
      (rec rn p pvi).Sublist rn)
    (hrecSound : ∀ rn (p : Fin u.n) (pvi : Nat), rn.Nodup → rn.length < bound →
      P p → u.curVer p = some pvi → (∀ x ∈ rn, Q x) →
      ∀ q ∈ rn, q ∉ rec rn p pvi → P q) :
    ∀ (ts rein : List (Fin u.n)), rein.Nodup → rein.length ≤ bound →
      (∀ x ∈ rein, Q x) → (∀ t ∈ ts, Q t → P t) →
      ∀ q ∈ rein, q ∉ rrGo u.curVer rec ts rein → P q := by
  intro ts
  induction ts with
  | nil =>
    intro rein _ _ _ _ q hq hqn
    exact absurd hq hqn
  | cons t ts ih =>
    intro rein hnd hlen hQ hts q hq hqn
    simp only [rrGo] at hqn
    by_cases hmem : t ∈ rein
    · rw [if_pos hmem] at hqn
      have hpos : 0 < rein.length := List.length_pos_of_mem hmem
      have herl : (rein.erase t).length = rein.length - 1 :=
        List.length_erase_of_mem hmem
      have hsub2 : (rein.erase t).Sublist rein := List.erase_sublist t rein
      have hnd2 : (rein.erase t).Nodup := hnd.sublist hsub2
      have hQ2 : ∀ x ∈ rein.erase t, Q x := fun x hx => hQ x (hsub2.subset hx)
      have hPt : P t := hts t (List.mem_cons_self t ts) (hQ t hmem)
      by_cases hqt : q = t
      · exact hqt ▸ hPt
      · have hq2 : q ∈ rein.erase t := hnd.mem_erase_iff.mpr ⟨hqt, hq⟩
        cases hc : u.curVer t with
        | none =>
          rw [hc] at hqn
          exact ih (rein.erase t) hnd2 (by omega) hQ2
            (fun t' ht' hQt' => hts t' (List.mem_cons_of_mem t ht') hQt')
            q hq2 hqn
        | some tvi =>
          rw [hc] at hqn
          by_cases hq3 : q ∈ rec (rein.erase t) t tvi
          · have hsub3 := hrecSub (rein.erase t) t tvi hnd2 (by omega)
            exact ih (rec (rein.erase t) t tvi) (hnd2.sublist hsub3)
              (le_trans hsub3.length_le (by omega))
              (fun x hx => hQ2 x (hsub3.subset hx))
              (fun t' ht' hQt' => hts t' (List.mem_cons_of_mem t ht') hQt')
              q hq3 hqn
          · exact hrecSound (rein.erase t) t tvi hnd2 (by omega) hPt hc hQ2
              q hq2 hq3
    · rw [if_neg hmem] at hqn
      exact ih rein hnd hlen hQ
        (fun t' ht' hQt' => hts t' (List.mem_cons_of_mem t ht') hQt')
        q hq hqn

/-- `remove_reverse_current_versions` soundness: with enough fuel, every
erased member is blocked. -/
theorem rr_sound (u : Univ) (P Q : Fin u.n → Prop)
    (hPstep : ∀ (p : Fin u.n) (pvi : Nat) (x : Fin u.n), P p →
      u.curVer p = some pvi → x ∈ rrTargets u p pvi → Q x → P x) :
    ∀ (fuel : Nat) (rein : List (Fin u.n)) (bp : Fin u.n) (bvi : Nat),
      rein.Nodup → rein.length < fuel → P bp → u.curVer bp = some bvi →
      (∀ x ∈ rein, Q x) →
      ∀ q ∈ rein, q ∉ remove_reverse_current_versions u fuel rein bp bvi →
        P q := by
  intro fuel
  induction fuel with
  | zero =>
    intro rein bp bvi _ hlen
    exact absurd hlen (by omega)
  | succ fuel ih =>
    intro rein bp bvi hnd hlen hPbp hcv hQ q hq hqn
    simp only [remove_reverse_current_versions] at hqn
    exact rrGo_sound u
      (fun rn p pvi => remove_reverse_current_versions u fuel rn p pvi) fuel P Q
      (fun rn p pvi nd hl => (rr_spec u fuel rn p pvi nd hl).1)
      (fun rn p pvi nd hl hPp hcvp hQp => ih rn p pvi nd hl hPp hcvp hQp)
      (rrTargets u bp bvi) rein hnd (by omega) hQ
      (fun t ht hQt => hPstep bp bvi t hPbp hcv ht hQt)
      q hq hqn

/-- Phase-2 soundness: every candidate erased by the fold over the
blocked roots is blocked. -/
theorem badFold_sound (u : Univ) (P Q : Fin u.n → Prop)
    (hPstep : ∀ (p : Fin u.n) (pvi : Nat) (x : Fin u.n), P p →
      u.curVer p = some pvi → x ∈ rrTargets u p pvi → Q x → P x)
    (bad : List (Fin u.n)) :
    ∀ rein : List (Fin u.n), rein.Nodup → rein.length ≤ u.n →
      (∀ b ∈ bad, P b) → (∀ x ∈ rein, Q x) →
      ∀ q ∈ rein, q ∉ bad.foldl (fun rn b =>
          match u.curVer b with
          | some bvi => remove_reverse_current_versions u (u.n + 1) rn b bvi
          | none => rn) rein → P q := by
  induction bad with
  | nil =>
    intro rein _ _ _ _ q hq hqn
    exact absurd hq hqn
  | cons b bs ih =>
    intro rein hnd hlen hP hQ q hq hqn
    rw [List.foldl_cons] at hqn
    cases hcb : u.curVer b with
    | none =>
      rw [hcb] at hqn
      exact ih rein hnd hlen (fun b' hb' => hP b' (List.mem_cons_of_mem b hb'))
        hQ q hq hqn
    | some bvi =>
      rw [hcb] at hqn
      obtain ⟨rS, _, _⟩ := rr_spec u (u.n + 1) rein b bvi hnd (by omega)
      by_cases hq1 : q ∈ remove_reverse_current_versions u (u.n + 1) rein b bvi
      · exact ih _ (hnd.sublist rS) (le_trans rS.length_le hlen)
          (fun b' hb' => hP b' (List.mem_cons_of_mem b hb'))
          (fun x hx => hQ x (rS.subset hx)) q hq1 hqn
      · exact rr_sound u P Q hPstep (u.n + 1) rein b bvi hnd (by omega)
          (hP b (List.mem_cons_self b bs)) hcb hQ q hq hq1

/-- A pending unused deletion that is neither conflicted at its own
phase-1 turn nor in the blocked closure survives into the reinstatement
set of phase 2. -/
theorem spec_retained (cfg : Config) (u : Univ) (s : GState u.n) (c : Fin u.n)
    (hg : (s.pkgSt c).garbage = false)
    (hm : (s.pkgSt c).mode = modeDelete)
    (hr : (s.extSt c).removeReason = ChangedReason.unused)
    (hconf : is_conflicted u (phase1Before cfg u s c) c (u.curVer c) = none)
    (hnb : ¬CBlocked cfg u s c) :
    c ∈ sweepRein2 cfg u s := by
  have hc1 : c ∈ (sweepPhase1 cfg u s (List.finRange u.n)).2.1 :=
    (phase1_classify cfg u s c hg hm hr).2.2 hconf
  by_contra hc2
  refine hnb ?_
  have hnd : (sweepPhase1 cfg u s (List.finRange u.n)).2.1.Nodup := by
    refine phase1_fold_nodup cfg u (List.finRange u.n) (s, ([], []))
      (List.nodup_finRange u.n) List.nodup_nil ?_
    intro x hx
    exact absurd hx (List.not_mem_nil x)
  have hlen : (sweepPhase1 cfg u s (List.finRange u.n)).2.1.length ≤ u.n := by
    have := hnd.length_le_card
    simpa using this
  refine badFold_sound u (CBlocked cfg u s)
    (fun x => (s.pkgSt x).garbage = false ∧ (s.pkgSt x).mode = modeDelete ∧
      (s.extSt x).removeReason = ChangedReason.unused)
    ?_ (sweepPhase1 cfg u s (List.finRange u.n)).2.2
    (sweepPhase1 cfg u s (List.finRange u.n)).2.1 hnd hlen ?_ ?_ c hc1 hc2
  · intro p pvi x hP hcv ht hQx
    exact CBlocked.step x p pvi hP hcv ht hQx.1 hQx.2.1 hQx.2.2
  · intro b hb
    obtain ⟨bg, bm, br, bc⟩ := (phase1_sound cfg u s b).2 hb
    exact CBlocked.base b bg bm br bc
  · intro x hx
    obtain ⟨xg, xm, xr, _⟩ := (phase1_sound cfg u s x).1 hx
    exact ⟨xg, xm, xr⟩

/-- The trace's target loop: accumulator members persist, every
installed reinstated target ends up inside, and closure of fresh
members is preserved — given the same contract for each recursive
call. -/
theorem traceGo_master (u : Univ) (rein2 : List (Fin u.n))
    (rec : Fin u.n → List (Fin u.n) → List (Fin u.n)) (bound : Nat)
    (hrec : ∀ (t : Fin u.n) (a : List (Fin u.n)),
      (rein2.toFinset \ a.toFinset).card < bound →
      (∀ x ∈ a, x ∈ rec t a) ∧
      ((installedSane u t = true ∧ t ∈ rein2) → t ∈ rec t a) ∧
      (∀ x ∈ rec t a, x ∉ a → ∀ q ∈ traceTargets u x,
        installedSane u q = true → q ∈ rein2 → q ∈ rec t a)) :
    ∀ (qs a : List (Fin u.n)),
      (rein2.toFinset \ a.toFinset).card < bound →
      (∀ x ∈ a, x ∈ traceGo rec qs a) ∧
      (∀ q ∈ qs, installedSane u q = true → q ∈ rein2 →
        q ∈ traceGo rec qs a) ∧
      (∀ x ∈ traceGo rec qs a, x ∉ a → ∀ q ∈ traceTargets u x,
        installedSane u q = true → q ∈ rein2 → q ∈ traceGo rec qs a) := by
  intro qs
  induction qs with
  | nil =>
    intro a _
    exact ⟨fun x hx => hx, fun q hq => absurd hq (List.not_mem_nil q),
      fun x hx hxa => absurd hx hxa⟩
  | cons q qs ih =>
    intro a hD
    obtain ⟨E1, S1, NC1⟩ := hrec q a hD
    have hD1 : (rein2.toFinset \ (rec q a).toFinset).card < bound :=
      lt_of_le_of_lt (measure_mono rein2 a (rec q a) E1) hD
    obtain ⟨E2, P2, NC2⟩ := ih (rec q a) hD1
    refine ⟨fun x hx => E2 x (E1 x hx), ?_, ?_⟩
    · intro q' hq' hsane hmem
      rcases List.mem_cons.mp hq' with he | hqs
      · subst he
        exact E2 q' (S1 ⟨hsane, hmem⟩)
      · exact P2 q' hqs hsane hmem
    · intro x hx hxa q' hq' hsane hmem
      by_cases hxa1 : x ∈ rec q a
      · exact E2 q' (NC1 x hxa1 hxa q' hq' hsane hmem)
      · exact NC2 x hx hxa1 q' hq' hsane hmem

/-- `trace_not_orphaned` with fuel above the pending measure:
accumulator members persist, an installed reinstated start package is
inserted, and every good target of every freshly inserted package is
inserted too. -/
theorem trace_master (u : Univ) (rein2 : List (Fin u.n)) :
    ∀ (fuel : Nat) (t : Fin u.n) (a : List (Fin u.n)),
      (rein2.toFinset \ a.toFinset).card < fuel →
      (∀ x ∈ a, x ∈ trace_not_orphaned u rein2 fuel t a) ∧
      ((installedSane u t = true ∧ t ∈ rein2) →
        t ∈ trace_not_orphaned u rein2 fuel t a) ∧
      (∀ x ∈ trace_not_orphaned u rein2 fuel t a, x ∉ a →
        ∀ q ∈ traceTargets u x, installedSane u q = true → q ∈ rein2 →
          q ∈ trace_not_orphaned u rein2 fuel t a) := by
  intro fuel
  induction fuel with
  | zero =>
    intro t a h
    exact absurd h (by omega)
  | succ fuel ih =>
    intro t a hD
    simp only [trace_not_orphaned]
    split
    · next hmem =>
      exact ⟨fun x hx => hx, fun _ => hmem, fun x hx hxa => absurd hx hxa⟩
    · next hmem =>
      split
      · next hsane =>
        refine ⟨fun x hx => hx, ?_, fun x hx hxa => absurd hx hxa⟩
        intro h
        rw [h.1] at hsane
        simp at hsane
      · next hsane =>
        split
        · next hrein =>
          refine ⟨fun x hx => hx, ?_, fun x hx hxa => absurd hx hxa⟩
          intro h
          exact absurd h.2 hrein
        · next hrein =>
          have htrein : t ∈ rein2 := not_not.mp hrein
          have hD' : (rein2.toFinset \ (a ++ [t]).toFinset).card < fuel := by
            have := measure_dec rein2 a t htrein hmem
            omega
          obtain ⟨E', P', NC'⟩ := traceGo_master u rein2
            (fun q b => trace_not_orphaned u rein2 fuel q b) fuel
            (fun t' a' hb => ih t' a' hb) (traceTargets u t) (a ++ [t]) hD'
          refine ⟨?_, ?_, ?_⟩
          · intro x hx
            exact E' x (List.mem_append_left _ hx)
          · intro _
            exact E' t (List.mem_append_right _ (List.mem_singleton.mpr rfl))
          · intro x hx hxa q hq hsaneq hmemq
            by_cases hxt : x = t
            · subst hxt
              exact P' q hq hsaneq hmemq
            · have hxat : x ∉ a ++ [t] := by
                intro hc
                rcases List.mem_append.mp hc with h' | h'
                · exact hxa h'
                · exact hxt (List.mem_singleton.mp h')
              exact NC' x hx hxat q hq hsaneq hmemq

/-- A single `find_not_orphaned` call: accumulator members persist, a
triggered installed reinstated candidate is inserted, and fresh
members' good targets are inside. -/
theorem fno_master (cfg : Config) (u : Univ) (s : GState u.n) (c : Fin u.n)
    (a : List (Fin u.n)) :
    (∀ x ∈ a, x ∈ find_not_orphaned u (sweepS1 cfg u s) (sweepRein2 cfg u s)
      (u.n + 1) c a) ∧
    ((installedSane u c = true ∧ fnoTrigger u (sweepS1 cfg u s) c = true ∧
      c ∈ sweepRein2 cfg u s) →
      c ∈ find_not_orphaned u (sweepS1 cfg u s) (sweepRein2 cfg u s)
        (u.n + 1) c a) ∧
    (∀ x ∈ find_not_orphaned u (sweepS1 cfg u s) (sweepRein2 cfg u s)
        (u.n + 1) c a, x ∉ a →
      ∀ q ∈ traceTargets u x, installedSane u q = true →
        q ∈ sweepRein2 cfg u s →
        q ∈ find_not_orphaned u (sweepS1 cfg u s) (sweepRein2 cfg u s)
          (u.n + 1) c a) := by
  have hD : ((sweepRein2 cfg u s).toFinset \ a.toFinset).card < u.n + 1 := by
    have := measure_bound (sweepRein2 cfg u s) a
    omega
  rw [fno_eq]
  split
  · next hsane =>
    refine ⟨fun x hx => hx, ?_, fun x hx hxa => absurd hx hxa⟩
    intro h
    rw [h.1] at hsane
    simp at hsane
  · split
    · obtain ⟨E, S, NC⟩ := trace_master u (sweepRein2 cfg u s) (u.n + 1) c a hD
      exact ⟨E, fun h => S ⟨h.1, h.2.2⟩, NC⟩
    · next htrig =>
      refine ⟨fun x hx => hx, ?_, fun x hx hxa => absurd hx hxa⟩
      intro h
      exact absurd h.2.1 htrig

/-- The fourth pass of sweep: every triggered installed survivor is in
the not-orphaned set, which is closed under good trace targets of its
fresh members. -/
theorem notOrphFold_master (cfg : Config) (u : Univ) (s : GState u.n)
    (cs : List (Fin u.n)) :
    ∀ a : List (Fin u.n),
      (∀ x ∈ a, x ∈ cs.foldl (fun acc c => find_not_orphaned u
        (sweepS1 cfg u s) (sweepRein2 cfg u s) (u.n + 1) c acc) a) ∧
      (∀ c ∈ cs, installedSane u c = true →
        fnoTrigger u (sweepS1 cfg u s) c = true → c ∈ sweepRein2 cfg u s →
        c ∈ cs.foldl (fun acc c => find_not_orphaned u
          (sweepS1 cfg u s) (sweepRein2 cfg u s) (u.n + 1) c acc) a) ∧
      (∀ x ∈ cs.foldl (fun acc c => find_not_orphaned u
          (sweepS1 cfg u s) (sweepRein2 cfg u s) (u.n + 1) c acc) a, x ∉ a →
        ∀ q ∈ traceTargets u x, installedSane u q = true →
          q ∈ sweepRein2 cfg u s →
          q ∈ cs.foldl (fun acc c => find_not_orphaned u
            (sweepS1 cfg u s) (sweepRein2 cfg u s) (u.n + 1) c acc) a) := by
  induction cs with
  | nil =>
    intro a
    exact ⟨fun x hx => hx, fun c hc => absurd hc (List.not_mem_nil c),
      fun x hx hxa => absurd hx hxa⟩
  | cons c cs ih =>
    intro a
    rw [List.foldl_cons]
    obtain ⟨E1, S1, NC1⟩ := fno_master cfg u s c a
    obtain ⟨E2, P2, NC2⟩ := ih (find_not_orphaned u (sweepS1 cfg u s)
      (sweepRein2 cfg u s) (u.n + 1) c a)
    refine ⟨fun x hx => E2 x (E1 x hx), ?_, ?_⟩
    · intro c' hc' hsane htrig hmem
      rcases List.mem_cons.mp hc' with he | hcs
      · subst he
        exact E2 c' (S1 ⟨hsane, htrig, hmem⟩)
      · exact P2 c' hcs hsane htrig hmem
    · intro x hx hxa q hq hsane hmem
      by_cases hxa1 : x ∈ find_not_orphaned u (sweepS1 cfg u s)
          (sweepRein2 cfg u s) (u.n + 1) c a
      · exact E2 q (NC1 x hxa1 hxa q hq hsane hmem)
      · exact NC2 x hx hxa1 q hq hsane hmem

/-- The transitive reinstatement need: a retained candidate directly
required by a package that remains installed or will be installed
(the `find_not_orphaned` trigger), or a retained candidate that is a
trace target (a currently-satisfied important dependency, directly or
via provides) of a needed package. -/
inductive Needed (cfg : Config) (u : Univ) (s : GState u.n) : Fin u.n → Prop
  | root (c : Fin u.n) :
      (s.pkgSt c).garbage = false →
      (s.pkgSt c).mode = modeDelete →
      (s.extSt c).removeReason = ChangedReason.unused →
      is_conflicted u (phase1Before cfg u s c) c (u.curVer c) = none →
      ¬CBlocked cfg u s c →
      installedSane u c = true →
      fnoTrigger u (sweepS1 cfg u s) c = true →
      Needed cfg u s c
  | step (c c' : Fin u.n) :
      Needed cfg u s c' →
      c ∈ traceTargets u c' →
      (s.pkgSt c).garbage = false →
      (s.pkgSt c).mode = modeDelete →
      (s.extSt c).removeReason = ChangedReason.unused →
      is_conflicted u (phase1Before cfg u s c) c (u.curVer c) = none →
      ¬CBlocked cfg u s c →
      installedSane u c = true →
      Needed cfg u s c

/-- Every needed package reaches the not-orphaned set. -/
theorem Needed_in_notOrphaned (cfg : Config) (u : Univ) (s : GState u.n)
    (c : Fin u.n) (h : Needed cfg u s c) : c ∈ sweepNotOrphaned cfg u s := by
  induction h with
  | root c hg hm hr hcf hnb hsane htrig =>
    have hrein := spec_retained cfg u s c hg hm hr hcf hnb
    exact (notOrphFold_master cfg u s (sweepRein2 cfg u s) []).2.1
      c hrein hsane htrig hrein
  | step c c' hn htar hg hm hr hcf hnb hsane ih =>
    have hrein := spec_retained cfg u s c hg hm hr hcf hnb
    exact (notOrphFold_master cfg u s (sweepRein2 cfg u s) []).2.2
      c' ih (List.not_mem_nil c') c htar hsane hrein

/-- C1 (amended): if package c is scheduled for deletion with
remove_reason unused and without the Garbage flag, installing its
current version raises no Conflicts/Breaks objection at its phase-1
turn, c is not in the blocked closure of phase 2, and a package that
remains installed or will be installed critically needs c — directly
through the `find_not_orphaned` trigger, or transitively through trace
targets of other such retained candidates, each themselves unconflicted
and unblocked — then after Sweep c's Mode is Keep, not Delete. -/
theorem sweep_reinstates_needed (cfg : Config) (u : Univ) (s : GState u.n)
    (c : Fin u.n) (hcfg : cfg.deleteUnused = true)
    (hn : Needed cfg u s c) :
    ((sweep cfg u s).pkgSt c).mode = modeKeep := by
  rw [sweep_decomp cfg u s hcfg]
  exact markKeepFold_mem _ _ c (Needed_in_notOrphaned cfg u s c hn)

/-- Two packages: 0 installed and kept, depending on 1, a pending
unused deletion. -/
@[reducible] def c1Univ : Univ :=
  { plainUniv 2 with deps := [⟨depends, 0, 0, 1, 0, ""⟩] }

/-- Package 1 scheduled as an unused removal, package 0 kept. -/
@[reducible] def c1State : GState 2 :=
  { plainState 2 with
    pkgSt := fun q => if q = 1 then { defaultPkgSt with mode := modeDelete }
                      else defaultPkgSt
    extSt := fun q => if q = 1 then { defaultExtSt with
                        selectionState := SelState.deinstall
                        removeReason := ChangedReason.unused }
                      else defaultExtSt }

/-- In the witness universe nothing is blocked: no Conflicts clauses
exist and package 1 is nobody's erasure target. -/
theorem c1_not_blocked : ¬CBlocked defaultConfig c1Univ c1State 1 := by
  intro h
  cases h with
  | base p hg hm hr hconf => exact hconf (by decide)
  | step p q qvi hq hcv htar hg hm hr =>
    fin_cases q
    · exact absurd htar (List.not_mem_nil 1)
    · have h10 : (1 : Fin 2) = 0 := List.mem_singleton.mp htar
      exact absurd h10 (by decide)

theorem sweep_reinstates_needed_witness :
    defaultConfig.deleteUnused = true ∧
    ((sweep defaultConfig c1Univ c1State).pkgSt 1).mode = modeKeep :=
  ⟨rfl,
   sweep_reinstates_needed defaultConfig c1Univ c1State 1 rfl
     (Needed.root 1 (by decide) (by decide) (by decide) (by decide)
       c1_not_blocked (by decide) (by decide))⟩

/-- Four packages: 0 installed and kept; 1 a pending unused deletion
whose current version Conflicts 0; 2 a pending unused deletion whose
current version Depends on 1; 3 installed and kept, Depends on 2. -/
@[reducible] def c1BadUniv : Univ :=
  { plainUniv 4 with
    deps := [⟨conflicts, 1, 0, 0, 0, ""⟩, ⟨depends, 2, 0, 1, 0, ""⟩,
             ⟨depends, 3, 0, 2, 0, ""⟩] }

/-- Packages 1 and 2 scheduled as unused removals, 0 and 3 kept. -/
@[reducible] def c1BadState : GState 4 :=
  { plainState 4 with
    pkgSt := fun q => if q = 1 ∨ q = 2 then
        { defaultPkgSt with mode := modeDelete }
      else defaultPkgSt
    extSt := fun q => if q = 1 ∨ q = 2 then
        { defaultExtSt with
          selectionState := SelState.deinstall
          removeReason := ChangedReason.unused }
      else defaultExtSt }

/-- Counterexample for C1 as frozen: package 2 satisfies every stated
condition — pending unused deletion, not Garbage, conflict-free, and
critically required (with a satisfied clause) by package 3 which
remains installed — yet Sweep leaves it in Delete mode, because its
dependency 1 is conflicted and phase 2 recursively erases 2 from the
reinstatement set. -/
theorem conflicted_dependency_blocks_reinstatement :
    defaultConfig.deleteUnused = true ∧
    (c1BadState.pkgSt 2).mode = modeDelete ∧
    (c1BadState.extSt 2).removeReason = ChangedReason.unused ∧
    (c1BadState.pkgSt 2).garbage = false ∧
    is_conflicted c1BadUniv c1BadState 2 (c1BadUniv.curVer 2) = none ∧
    (⟨depends, 3, 0, 2, 0, ""⟩ : Dep 4) ∈ c1BadUniv.revDeps 2 ∧
    remainOrWillB c1BadUniv c1BadState 3 = true ∧
    c1BadUniv.checkDep (c1BadUniv.curVerStr 2) 0 "" = true ∧
    ((sweep defaultConfig c1BadUniv c1BadState).pkgSt 2).mode = modeDelete := by
  refine ⟨rfl, by decide, by decide, by decide, by decide, by decide,
    by decide, rfl, by decide⟩

end AptCache
